import Mathlib

/-!
# apisix-seed: `internal/core/message/a6conf.go`

A shallow embedding of the configuration overlay code of `a6conf.go`
(`NewRoutes`, `NewUpstreams`, `NewServices`, `embedElm`, the three `Marshal`
methods, `Inject`, `GetUpstream`, `HasNodesAttr`) together with theorems about it.

Modelling conventions.

* JSON text is represented by its syntax tree (`Value` without the `nodes`
  constructor); `Bytes := Option Value`, where `none` is a byte string that is
  not valid JSON.  An object is the list of its entries in the order of the
  text, repeated keys included, and a number is an integer literal, given by
  its value.  `json.Unmarshal` and `json.Marshal` are modelled on trees: a key
  selects a struct field without regard to case, every entry of an object is
  decoded in order into what the earlier entries have left, a number decoded
  into an `interface{}` is a `float64` (given by its value), and the order in
  which `json.Marshal` writes the keys of a map carries no meaning.
* A Go `map[string]interface{}` is an association list (`ValueMap`) read by
  first match; `GoMap := Option ValueMap`, where `none` is the nil map.
* `[]*Node` is a list of addresses into a heap of `Node` records; an address
  outside the heap plays the role of a nil pointer.
* `reflect` is modelled by `RValue` and `RFields`: a struct value carries the
  name of its type and its fields in declaration order, each with its name,
  its `json` tag and whether it is embedded.
* A Go panic is the result `none` of the functions that can panic; the calls
  of the logger and of `println` have no effect on the state and are left out.
-/

namespace Message

/-! ## Dynamic values (`interface{}`) and maps -/

mutual
/-- The dynamic values an `interface{}` holds in this program: what
`encoding/json` decodes into an `interface{}` and the concrete node list
`[]*Node` placed by `Inject`. -/
inductive Value where
  | nil
  | bool (b : Bool)
  | number (n : Int)
  | string (s : String)
  | list (xs : ValueList)
  | map (m : ValueMap)
  | nodes (ps : List Nat)
  deriving DecidableEq
/-- The elements of a `[]interface{}`. -/
inductive ValueList where
  | nil
  | cons (v : Value) (rest : ValueList)
  deriving DecidableEq
/-- The entries of a `map[string]interface{}`. -/
inductive ValueMap where
  | nil
  | cons (k : String) (v : Value) (rest : ValueMap)
  deriving DecidableEq
end

/-- The lookup `m[key]` with its presence flag. -/
def ValueMap.get : ValueMap → String → Option Value
  | .nil, _ => none
  | .cons k v rest, key => if k = key then some v else rest.get key

/-- The assignment `m[key] = val`. -/
def ValueMap.set : ValueMap → String → Value → ValueMap
  | .nil, key, val => .cons key val .nil
  | .cons k v rest, key, val =>
    if k = key then .cons k val rest else .cons k v (rest.set key val)

/-- The builtin `delete(m, key)`. -/
def ValueMap.delete : ValueMap → String → ValueMap
  | .nil, _ => .nil
  | .cons k v rest, key =>
    if k = key then rest.delete key else .cons k v (rest.delete key)

/-- Builds a map from its entries. -/
def ValueMap.ofList : List (String × Value) → ValueMap
  | [] => .nil
  | (k, v) :: rest => .cons k v (ValueMap.ofList rest)

/-- Builds a `[]interface{}` from its elements. -/
def ValueList.ofList : List Value → ValueList
  | [] => .nil
  | v :: rest => .cons v (ValueList.ofList rest)

/-- A variable of type `map[string]interface{}`; `none` is the nil map. -/
abbrev GoMap := Option ValueMap

/-- Reading `all[key]`; reading a nil map finds nothing. -/
def GoMap.get (all : GoMap) (key : String) : Option Value :=
  match all with
  | none => none
  | some m => m.get key

/-- The statement `delete(all, key)`; a no-op on the nil map. -/
def GoMap.delete (all : GoMap) (key : String) : GoMap :=
  match all with
  | none => none
  | some m => some (m.delete key)

/-- The statement `all[key] = val`; it panics (`none`) on the nil map. -/
def GoMap.assign (all : GoMap) (key : String) (val : Value) : Option GoMap :=
  match all with
  | none => none
  | some m => some (some (m.set key val))

/-- Field access on a value: `v[key]` when `v` is a map, nothing otherwise. -/
def Value.get : Value → String → Option Value
  | .map m, key => m.get key
  | _, _ => none

/-! ## The typed overlay -/

/-- Modelled from the spec: the `Node` type is declared outside `a6conf.go`;
the spec gives it as `{host: string, weight: integer, port: integer}`. -/
structure Node where
  Host : String
  Weight : Int
  Port : Int
  deriving DecidableEq, Repr

/-- The heap of `Node` records; an address is an index. -/
abbrev Heap := List Node

/-- The struct `Labels`. -/
structure Labels where
  DiscoveryType : String := ""
  ServiceName : String := ""
  DiscoveryArgsNamespaceID : String := ""
  DiscoveryArgsGroupName : String := ""
  ServiceGrpcPort : String := ""
  deriving DecidableEq

/-- The struct `UpstreamArg`. -/
structure UpstreamArg where
  NamespaceID : String := ""
  GroupName : String := ""
  Metadata : GoMap := none
  deriving DecidableEq

/-- The struct `Upstream`; `DiscoveryArgs` is a pointer, `none` when nil. -/
structure Upstream where
  Nodes : Value := .nil
  DiscoveryType : String := ""
  DupDiscoveryType : String := ""
  DiscoveryArgs : Option UpstreamArg := none
  DupServiceName : String := ""
  ServiceName : String := ""
  deriving DecidableEq

/-- The struct `Upstreams`, which embeds `Upstream`. -/
structure Upstreams where
  Upstream : Upstream := {}
  hasNodesAttr : Bool := false
  All : GoMap := none
  deriving DecidableEq

/-- The struct `Routes`. -/
structure Routes where
  Labels : Labels := {}
  Upstream : Upstream := {}
  All : GoMap := none
  hasNodesAttr : Bool := false
  deriving DecidableEq

/-- The struct `Services`. -/
structure Services where
  Upstream : Upstream := {}
  All : GoMap := none
  hasNodesAttr : Bool := false
  deriving DecidableEq

/-! ## Reflection -/

/-- The part of `reflect.StructField` that `embedElm` reads: the field name,
the value of its `json` tag, and whether the field is embedded. -/
structure StructField where
  Name : String
  Tag : String
  Anonymous : Bool
  deriving DecidableEq

mutual
/-- A `reflect.Value` of one of the kinds that occur in the types of this
file.  `struct` carries `Type().Name()` and the fields in declaration order;
`ptr` is a non-nil pointer to a struct. -/
inductive RValue where
  | str (s : String)
  | bool (b : Bool)
  | iface (v : Value)
  | map (m : GoMap)
  | nilPtr
  | ptr (typeName : String) (fields : RFields)
  | struct (typeName : String) (fields : RFields)
/-- The fields of a struct value, in declaration order. -/
inductive RFields where
  | nil
  | cons (f : StructField) (val : RValue) (rest : RFields)
end

mutual
/-- The method `reflect.Value.IsZero`. -/
def RValue.IsZero : RValue → Bool
  | .str s => s == ""
  | .bool b => b == false
  | .iface v => v == Value.nil
  | .map m => m == none
  | .nilPtr => true
  | .ptr _ _ => false
  | .struct _ fs => fs.allZero
/-- Whether every field of a struct is zero. -/
def RFields.allZero : RFields → Bool
  | .nil => true
  | .cons _ val rest => val.IsZero && rest.allZero
end

/-- The function `strings.TrimSuffix`. -/
def trimSuffix (s suffix : String) : String :=
  if suffix.data.isSuffixOf s.data then
    String.mk (s.data.take (s.data.length - suffix.data.length))
  else s

/-- Embed the latest value into the `all` map: the loop of `embedElm` over the
fields `fs` of a struct whose type is named `typeName`.  The result `none` is
a panic. -/
def embedFields (typeName : String) : RFields → GoMap → Option GoMap
  | .nil, all => some all
  | .cons field val rest, all =>
    let fieldName := field.Name
    let tagName := trimSuffix field.Tag ",omitempty"
    if fieldName = "All" ∧ tagName = "-" then
      embedFields typeName rest all
    else if fieldName = "hasNodesAttr" then
      embedFields typeName rest all
    -- ignore members without set values
    else if val.IsZero then
      embedFields typeName rest all
    else if (fieldName = "DiscoveryType" ∨ fieldName = "ServiceName"
        ∨ fieldName = "DiscoveryArgs") ∧ typeName = "Upstream" then
      embedFields typeName rest (all.delete tagName)
    else
      match val with
      | .ptr name fs | .struct name fs =>
        -- handle struct embedding
        if field.Anonymous then
          match embedFields name fs all with
          | none => none
          | some all1 => embedFields typeName rest all1
        else
          let created : Option GoMap :=
            match all.get tagName with
            | none => all.assign tagName (.map .nil)
            | some _ => some all
          match created with
          | none => none
          | some all1 =>
            match all1.get tagName with
            | some (.map child) =>
              match embedFields name fs (some child) with
              | some (some child1) =>
                match all1.assign tagName (.map child1) with
                | none => none
                | some all2 => embedFields typeName rest all2
              | _ => none
            | _ => none
      | .str s =>
        match all.assign tagName (.string s) with
        | none => none
        | some all1 => embedFields typeName rest all1
      | .bool b =>
        match all.assign tagName (.bool b) with
        | none => none
        | some all1 => embedFields typeName rest all1
      | .iface x =>
        match all.assign tagName x with
        | none => none
        | some all1 => embedFields typeName rest all1
      | .map (some m) =>
        match all.assign tagName (.map m) with
        | none => none
        | some all1 => embedFields typeName rest all1
      -- not reached: a nil map and a nil pointer are zero values
      | .map none => none
      | .nilPtr => none

/-- The function `embedElm`: a pointer is dereferenced, then the fields of the
struct are walked; a value that is not a struct panics in `NumField`. -/
def embedElm (v : RValue) (all : GoMap) : Option GoMap :=
  match v with
  | .ptr name fs => embedFields name fs all
  | .struct name fs => embedFields name fs all
  | _ => none

/-! ## The reflection view of the overlay types -/

/-- The struct `Labels` as seen by `reflect`. -/
def Labels.reflect (l : Labels) : RFields :=
  .cons ⟨"DiscoveryType", "discovery_type,omitempty", false⟩ (.str l.DiscoveryType) <|
  .cons ⟨"ServiceName", "service_name,omitempty", false⟩ (.str l.ServiceName) <|
  .cons ⟨"DiscoveryArgsNamespaceID", "discovery_args.namespace_id,omitempty", false⟩
    (.str l.DiscoveryArgsNamespaceID) <|
  .cons ⟨"DiscoveryArgsGroupName", "discovery_args.group_name,omitempty", false⟩
    (.str l.DiscoveryArgsGroupName) <|
  .cons ⟨"ServiceGrpcPort", "service_grpc_port,omitempty", false⟩ (.str l.ServiceGrpcPort) <|
  .nil

/-- The struct `UpstreamArg` as seen by `reflect`. -/
def UpstreamArg.reflect (a : UpstreamArg) : RFields :=
  .cons ⟨"NamespaceID", "namespace_id,omitempty", false⟩ (.str a.NamespaceID) <|
  .cons ⟨"GroupName", "group_name,omitempty", false⟩ (.str a.GroupName) <|
  .cons ⟨"Metadata", "metadata,omitempty", false⟩ (.map a.Metadata) <|
  .nil

/-- The pointer field `DiscoveryArgs` as seen by `reflect`. -/
def reflectArgs : Option UpstreamArg → RValue
  | none => .nilPtr
  | some a => .ptr "UpstreamArg" a.reflect

/-- The struct `Upstream` as seen by `reflect`. -/
def Upstream.reflect (u : Upstream) : RFields :=
  .cons ⟨"Nodes", "nodes,omitempty", false⟩ (.iface u.Nodes) <|
  .cons ⟨"DiscoveryType", "discovery_type,omitempty", false⟩ (.str u.DiscoveryType) <|
  .cons ⟨"DupDiscoveryType", "_discovery_type,omitempty", false⟩ (.str u.DupDiscoveryType) <|
  .cons ⟨"DiscoveryArgs", "discovery_args,omitempty", false⟩ (reflectArgs u.DiscoveryArgs) <|
  .cons ⟨"DupServiceName", "_service_name,omitempty", false⟩ (.str u.DupServiceName) <|
  .cons ⟨"ServiceName", "service_name,omitempty", false⟩ (.str u.ServiceName) <|
  .nil

/-- The value `reflect.ValueOf(ups)` for `ups *Upstreams`. -/
def Upstreams.reflect (ups : Upstreams) : RValue :=
  .ptr "Upstreams" <|
  .cons ⟨"Upstream", "", true⟩ (.struct "Upstream" ups.Upstream.reflect) <|
  .cons ⟨"hasNodesAttr", "", false⟩ (.bool ups.hasNodesAttr) <|
  .cons ⟨"All", "-", false⟩ (.map ups.All) <|
  .nil

/-- The value `reflect.ValueOf(routes)` for `routes *Routes`. -/
def Routes.reflect (routes : Routes) : RValue :=
  .ptr "Routes" <|
  .cons ⟨"Labels", "labels", false⟩ (.struct "Labels" routes.Labels.reflect) <|
  .cons ⟨"Upstream", "upstream", false⟩ (.struct "Upstream" routes.Upstream.reflect) <|
  .cons ⟨"All", "-", false⟩ (.map routes.All) <|
  .cons ⟨"hasNodesAttr", "", false⟩ (.bool routes.hasNodesAttr) <|
  .nil

/-- The value `reflect.ValueOf(services)` for `services *Services`. -/
def Services.reflect (services : Services) : RValue :=
  .ptr "Services" <|
  .cons ⟨"Upstream", "upstream", false⟩ (.struct "Upstream" services.Upstream.reflect) <|
  .cons ⟨"All", "-", false⟩ (.map services.All) <|
  .cons ⟨"hasNodesAttr", "", false⟩ (.bool services.hasNodesAttr) <|
  .nil

/-! ## JSON decoding and encoding (`encoding/json`, on syntax trees) -/

/-- JSON text: `none` is a byte string that is not valid JSON, `some x` the
text whose syntax tree is `x`. -/
abbrev Bytes := Option Value

/-- The errors returned by the constructors and by `Marshal`. -/
inductive Error where
  | decode
  | portParse (port : String)
  deriving DecidableEq

/-- The fold of a character of an object key, as `encoding/json` compares a
key with the serialized names of the fields of a struct: ASCII letters are
compared without case, and the two characters outside ASCII that fold to an
ASCII letter do so, `ſ` (U+017F) to `S` and the Kelvin sign (U+212A) to `K`.
The result is a code point. -/
def foldChar (c : Char) : Nat :=
  let n := c.toNat
  if 97 ≤ n ∧ n ≤ 122 then n - 32
  else if n = 0x17F then 83
  else if n = 0x212A then 75
  else n

/-- The folded form of a key or of a serialized name. -/
def foldName (s : String) : List Nat := s.data.map foldChar

/-- Whether the key of a JSON object selects the field with the serialized
name `tag` of a struct: the names are equal up to the fold.  The serialized
names of the fields of each struct of this file are distinct up to the fold, so
a key selects at most one field, and the preference of `encoding/json` for an
exact match changes nothing. -/
def keyMatches (key tag : String) : Bool := decide (foldName key = foldName tag)

/-- The call `strconv.ParseFloat(s, 64)` of `encoding/json` on an integer
literal, with the `float64` given by its value: an integer of magnitude at
most `2 ^ 53` is represented exactly, a larger one is rounded to 53
significant bits, to nearest and to even on a tie, and a result of magnitude
`2 ^ 1024` or more is out of range (`none`, an `UnmarshalTypeError`). -/
def convertNumber (n : Int) : Option Int :=
  let a := n.natAbs
  if a ≤ 2 ^ 53 then some n
  else
    let shift := Nat.log2 a - 52
    let q := a / 2 ^ shift
    let r := a % 2 ^ shift
    let half := 2 ^ (shift - 1)
    let q1 := if r > half ∨ (r = half ∧ q % 2 = 1) then q + 1 else q
    let f := q1 * 2 ^ shift
    if f ≥ 2 ^ 1024 then none
    else some (if n < 0 then -(f : Int) else (f : Int))

/-- The decimal with the fewest significant digits that `convertNumber` maps
to the `float64` of value `a`, the nearest to `a` when two have that many
digits: the digits that `strconv.FormatFloat(f, fmt, -1, 64)` writes. -/
def roundShortest (a : Nat) : Nat :=
  let digits := (Nat.toDigits 10 a).length
  let pick : Nat → Option Nat := fun k =>
    let p := 10 ^ (digits - k)
    let lo := a / p * p
    let hi := lo + p
    let okLo := decide (convertNumber (lo : Int) = some (a : Int))
    let okHi := decide (convertNumber (hi : Int) = some (a : Int))
    if okLo && okHi then
      some (if 2 * (a - lo) < p then lo
        else if 2 * (a - lo) > p then hi
        else if (lo / p) % 2 = 0 then lo else hi)
    else if okLo then some lo
    else if okHi then some hi
    else none
  ((List.range 17).filterMap (fun i => pick (i + 1))).headD a

/-- The number that `json.Marshal` writes for a `float64` of integer value
`f`: `f` itself up to `2 ^ 53`, the shortest decimal that reads back as `f`
above. -/
def formatFloat (f : Int) : Int :=
  if f.natAbs ≤ 2 ^ 53 then f
  else if f < 0 then -(roundShortest f.natAbs : Int)
  else (roundShortest f.natAbs : Int)

mutual
/-- Decoding a JSON value into an `interface{}` (`valueInterface`): a number
becomes a `float64`, an object a fresh `map[string]interface{}` to which the
entries are assigned in order, so that the last occurrence of a key stays.
The result `none` is an error: a number out of range, or a tree that holds a
Go node list and is no JSON text. -/
def Value.toInterface : Value → Option Value
  | .nil => some .nil
  | .bool b => some (.bool b)
  | .number n =>
    match convertNumber n with
    | none => none
    | some f => some (.number f)
  | .string s => some (.string s)
  | .list xs =>
    match xs.toInterface with
    | none => none
    | some ys => some (.list ys)
  | .map m =>
    match m.toInterface .nil with
    | none => none
    | some d => some (.map d)
  | .nodes _ => none
/-- Decoding the elements of an array into a `[]interface{}`. -/
def ValueList.toInterface : ValueList → Option ValueList
  | .nil => some .nil
  | .cons v rest =>
    match v.toInterface, rest.toInterface with
    | some w, some ys => some (.cons w ys)
    | _, _ => none
/-- Decoding the entries of an object into the `map[string]interface{}` that
holds `acc`: `acc[key] = value` for each entry, in order. -/
def ValueMap.toInterface : ValueMap → ValueMap → Option ValueMap
  | .nil, acc => some acc
  | .cons k v rest, acc =>
    match v.toInterface with
    | none => none
    | some w => rest.toInterface (acc.set k w)
end

/-- Decoding a JSON value into a `string` field that holds `cur`: `null`
leaves the field as it is, a JSON string is stored, anything else is an
`UnmarshalTypeError` (`none`). -/
def storeString (cur : String) : Value → Option String
  | .nil => some cur
  | .string s => some s
  | _ => none

/-- Decoding a JSON value into a `map[string]interface{}` that holds `cur`:
`null` stores the nil map, an object assigns its entries to the map, which is
allocated when it is nil, anything else is an error. -/
def storeMap (cur : GoMap) : Value → Option GoMap
  | .nil => some none
  | .map m =>
    match m.toInterface (cur.getD .nil) with
    | none => none
    | some d => some (some d)
  | _ => none

/-- The call `json.Unmarshal(data, v.GetAll())` of `unmarshal`, into the map
`All`, which the constructors have made empty. -/
def decodeMap (x : Value) : Option GoMap := storeMap (some .nil) x

/-- Decoding a JSON object into a struct: the entries are taken in order and
`store a key value` decodes one of them into the struct `a`, which keeps what
the earlier entries have stored.  An error ends the decode with that error. -/
def decodeObject {α : Type} (store : α → String → Value → Option α) :
    ValueMap → α → Option α
  | .nil, a => some a
  | .cons k v rest, a =>
    match store a k v with
    | none => none
    | some a1 => decodeObject store rest a1

/-- Decoding one entry of an object into an `UpstreamArg`; an entry whose key
selects no field is skipped. -/
def UpstreamArg.storeField (a : UpstreamArg) (key : String) (v : Value) :
    Option UpstreamArg :=
  if keyMatches key "namespace_id" then
    (storeString a.NamespaceID v).map (fun s => { a with NamespaceID := s })
  else if keyMatches key "group_name" then
    (storeString a.GroupName v).map (fun s => { a with GroupName := s })
  else if keyMatches key "metadata" then
    (storeMap a.Metadata v).map (fun md => { a with Metadata := md })
  else some a

/-- Decoding a JSON value into the pointer field `DiscoveryArgs` that holds
`cur`: `null` stores the nil pointer, an object is decoded into the struct
pointed to, which is allocated when the pointer is nil. -/
def storeUpstreamArg (cur : Option UpstreamArg) : Value → Option (Option UpstreamArg)
  | .nil => some none
  | .map m =>
    match decodeObject UpstreamArg.storeField m (cur.getD {}) with
    | none => none
    | some a => some (some a)
  | _ => none

/-- Decoding one entry of an object into an `Upstream`.  The field `Nodes` is
an `interface{}`: every value replaces what it holds, `null` by nil. -/
def Upstream.storeField (u : Upstream) (key : String) (v : Value) : Option Upstream :=
  if keyMatches key "nodes" then
    v.toInterface.map (fun n => { u with Nodes := n })
  else if keyMatches key "discovery_type" then
    (storeString u.DiscoveryType v).map (fun s => { u with DiscoveryType := s })
  else if keyMatches key "_discovery_type" then
    (storeString u.DupDiscoveryType v).map (fun s => { u with DupDiscoveryType := s })
  else if keyMatches key "discovery_args" then
    (storeUpstreamArg u.DiscoveryArgs v).map (fun a => { u with DiscoveryArgs := a })
  else if keyMatches key "_service_name" then
    (storeString u.DupServiceName v).map (fun s => { u with DupServiceName := s })
  else if keyMatches key "service_name" then
    (storeString u.ServiceName v).map (fun s => { u with ServiceName := s })
  else some u

/-- Decoding a JSON value into a struct field of type `Upstream` that holds
`cur`: `null` leaves it as it is, an object is decoded into it. -/
def storeUpstream (cur : Upstream) : Value → Option Upstream
  | .nil => some cur
  | .map m => decodeObject Upstream.storeField m cur
  | _ => none

/-- Decoding one entry of an object into a `Labels`. -/
def Labels.storeField (l : Labels) (key : String) (v : Value) : Option Labels :=
  if keyMatches key "discovery_type" then
    (storeString l.DiscoveryType v).map (fun s => { l with DiscoveryType := s })
  else if keyMatches key "service_name" then
    (storeString l.ServiceName v).map (fun s => { l with ServiceName := s })
  else if keyMatches key "discovery_args.namespace_id" then
    (storeString l.DiscoveryArgsNamespaceID v).map
      (fun s => { l with DiscoveryArgsNamespaceID := s })
  else if keyMatches key "discovery_args.group_name" then
    (storeString l.DiscoveryArgsGroupName v).map
      (fun s => { l with DiscoveryArgsGroupName := s })
  else if keyMatches key "service_grpc_port" then
    (storeString l.ServiceGrpcPort v).map (fun s => { l with ServiceGrpcPort := s })
  else some l

/-- Decoding a JSON value into a struct field of type `Labels` that holds
`cur`. -/
def storeLabels (cur : Labels) : Value → Option Labels
  | .nil => some cur
  | .map m => decodeObject Labels.storeField m cur
  | _ => none

/-- Decoding one entry of an object into an `Upstreams`: the fields of the
embedded `Upstream` are promoted; `hasNodesAttr` is not exported and `All` has
the tag `-`, so no key selects them. -/
def Upstreams.storeField (ups : Upstreams) (key : String) (v : Value) : Option Upstreams :=
  (ups.Upstream.storeField key v).map (fun u => { ups with Upstream := u })

/-- The call `json.Unmarshal(data, ups)`: `null` leaves `ups` as it is, an
object is decoded into it, anything else is an error. -/
def decodeUpstreams (ups : Upstreams) : Value → Option Upstreams
  | .nil => some ups
  | .map m => decodeObject Upstreams.storeField m ups
  | _ => none

/-- Decoding one entry of an object into a `Routes`. -/
def Routes.storeField (routes : Routes) (key : String) (v : Value) : Option Routes :=
  if keyMatches key "labels" then
    (storeLabels routes.Labels v).map (fun l => { routes with Labels := l })
  else if keyMatches key "upstream" then
    (storeUpstream routes.Upstream v).map (fun u => { routes with Upstream := u })
  else some routes

/-- The call `json.Unmarshal(data, routes)`. -/
def decodeRoutes (routes : Routes) : Value → Option Routes
  | .nil => some routes
  | .map m => decodeObject Routes.storeField m routes
  | _ => none

/-- Decoding one entry of an object into a `Services`. -/
def Services.storeField (services : Services) (key : String) (v : Value) :
    Option Services :=
  if keyMatches key "upstream" then
    (storeUpstream services.Upstream v).map (fun u => { services with Upstream := u })
  else some services

/-- The call `json.Unmarshal(data, services)`. -/
def decodeServices (services : Services) : Value → Option Services
  | .nil => some services
  | .map m => decodeObject Services.storeField m services
  | _ => none

/-- The function `unmarshal`: the data is decoded into the typed value and
then into its `All` map; `decode` is `json.Unmarshal(data, v)` and `setAll`
stores through the pointer `v.GetAll()`. -/
def unmarshal {α : Type} (decode : Value → Option α) (setAll : α → GoMap → α)
    (data : Bytes) : Except Error α :=
  match data with
  | none => .error .decode
  | some x =>
    match decode x with
    | none => .error .decode
    | some v =>
      match decodeMap x with
      | none => .error .decode
      | some all => .ok (setAll v all)

/-- Modelled from the spec: the JSON encoding of a `Node`, whose type is
declared outside `a6conf.go`; the spec writes a node as
`{host, weight, port}`. -/
def nodeJSON (n : Node) : Value :=
  .map (.ofList [("host", .string n.Host), ("weight", .number n.Weight),
    ("port", .number n.Port)])

/-- The JSON encoding of a `*Node`: a nil pointer encodes as `null`. -/
def encodeNode (heap : Heap) (p : Nat) : Value :=
  match heap[p]? with
  | none => .nil
  | some n => nodeJSON n

mutual
/-- The JSON tree that `json.Marshal` writes for a value; a number of a
document is a `float64` and is written by `formatFloat`. -/
def Value.encode (heap : Heap) : Value → Value
  | .nodes ps => .list (ValueList.ofList (ps.map (encodeNode heap)))
  | .list xs => .list (xs.encode heap)
  | .map m => .map (m.encode heap)
  | .nil => .nil
  | .bool b => .bool b
  | .number n => .number (formatFloat n)
  | .string s => .string s
/-- The encoding of the elements of a list. -/
def ValueList.encode (heap : Heap) : ValueList → ValueList
  | .nil => .nil
  | .cons v rest => .cons (v.encode heap) (rest.encode heap)
/-- The encoding of the entries of a map. -/
def ValueMap.encode (heap : Heap) : ValueMap → ValueMap
  | .nil => .nil
  | .cons k v rest => .cons k (v.encode heap) (rest.encode heap)
end

mutual
/-- Whether every pointer held by a value points into the heap. -/
def Value.allocated (heap : Heap) : Value → Bool
  | .nodes ps => ps.all (fun p => decide (p < heap.length))
  | .list xs => xs.allocated heap
  | .map m => m.allocated heap
  | .nil => true
  | .bool _ => true
  | .number _ => true
  | .string _ => true
/-- Whether every pointer held by the elements of a list points into the heap. -/
def ValueList.allocated (heap : Heap) : ValueList → Bool
  | .nil => true
  | .cons v rest => v.allocated heap && rest.allocated heap
/-- Whether every pointer held by the values of a map points into the heap. -/
def ValueMap.allocated (heap : Heap) : ValueMap → Bool
  | .nil => true
  | .cons _ v rest => v.allocated heap && rest.allocated heap
end

/-- The call `json.Marshal(all)`; the nil map is written as `null`. -/
def jsonMarshal (heap : Heap) (all : GoMap) : Bytes :=
  match all with
  | none => some .nil
  | some m => some (.map (m.encode heap))

/-- The call `strconv.ParseInt(s, 10, 64)`; `none` is a syntax or range error. -/
def ParseInt (s : String) : Option Int :=
  match s.data with
  | [] => none
  | c :: cs =>
    let neg := c = '-'
    let digits := if c = '+' ∨ c = '-' then cs else c :: cs
    if digits = [] then none
    else if digits.all Char.isDigit then
      let un : Nat := digits.foldl (fun n d => n * 10 + (d.toNat - 48)) 0
      if ¬ neg ∧ un ≥ 2 ^ 63 then none
      else if neg ∧ un > 2 ^ 63 then none
      else some (if neg then - (un : Int) else (un : Int))
    else none

/-! ## The entities -/

/-- The kinds of configuration. -/
def A6RoutesConf : Int := 0

/-- The kind of an upstream configuration. -/
def A6UpstreamsConf : Int := 1

/-- The kind of a service configuration. -/
def A6ServicesConf : Int := 2

/-- The function `strings.HasSuffix`. -/
def HasSuffix (s suffix : String) : Bool :=
  suffix.data.isSuffixOf s.data

/-- The function `ToA6Type`; its argument is the name of the collection. -/
def ToA6Type (pfx : String) : Int :=
  if HasSuffix pfx "routes" then A6RoutesConf
  else if HasSuffix pfx "upstreams" then A6UpstreamsConf
  else if HasSuffix pfx "services" then A6ServicesConf
  else A6RoutesConf

/-- The interface `A6Conf`, implemented by `*Routes`, `*Upstreams` and
`*Services`. -/
inductive A6Conf where
  | routes (r : Routes)
  | upstreams (u : Upstreams)
  | services (s : Services)
  deriving DecidableEq

deriving instance DecidableEq for Except

/-- The outcome of a call of `Marshal` that did not panic: the receiver and
the heap after the call, and the returned pair of bytes and error. -/
structure Marshaled (α : Type) where
  self : α
  heap : Heap
  result : Except Error Bytes
  deriving DecidableEq

/-- The method `Upstreams.GetAll`. -/
def Upstreams.GetAll (ups : Upstreams) : GoMap := ups.All

/-- The method `Upstreams.Marshal`; `none` is a panic. -/
def Upstreams.Marshal (ups : Upstreams) (heap : Heap) : Option (Marshaled Upstreams) :=
  match embedElm ups.reflect ups.All with
  | none => none
  | some all => some ⟨{ ups with All := all }, heap, .ok (jsonMarshal heap all)⟩

/-- The method `Upstreams.Inject`. -/
def Upstreams.Inject (ups : Upstreams) (nodes : Value) : Upstreams :=
  { ups with Upstream := { ups.Upstream with Nodes := nodes } }

/-- The method `Upstreams.GetUpstream`. -/
def Upstreams.GetUpstream (ups : Upstreams) : Message.Upstream := ups.Upstream

/-- The method `Upstreams.HasNodesAttr`. -/
def Upstreams.HasNodesAttr (ups : Upstreams) : Bool := ups.hasNodesAttr

/-- The constructor `NewUpstreams`. -/
def NewUpstreams (value : Bytes) : Except Error A6Conf :=
  let ups : Upstreams := { All := some .nil }
  match unmarshal (decodeUpstreams ups) (fun v all => { v with All := all }) value with
  | .error err => .error err
  | .ok ups =>
    -- the state of the nodes property is saved after decoding the original data
    let ups := if ups.Upstream.Nodes ≠ .nil then { ups with hasNodesAttr := true } else ups
    .ok (.upstreams ups)

/-- The method `Routes.GetAll`. -/
def Routes.GetAll (routes : Routes) : GoMap := routes.All

/-- The loop of `Routes.Marshal` over a concrete node list: every node is
read through its pointer (a nil pointer panics) and a new node with the same
host and weight and with port `grpcPort` is allocated; the result is the list
of the new pointers and the extended heap.  The pointers of the list are read
in the heap `old` of the loop entry: the nodes that the loop allocates are not
in the list, and allocating them leaves a nil pointer nil. -/
def copyNodes (grpcPort : Int) (old : Heap) : List Nat → Heap → Option (List Nat × Heap)
  | [], heap => some ([], heap)
  | p :: ps, heap =>
    match old[p]? with
    | none => none
    | some n =>
      match copyNodes grpcPort old ps
        (heap ++ [{ Host := n.Host, Weight := n.Weight, Port := grpcPort }]) with
      | none => none
      | some (qs, heap1) => some (heap.length :: qs, heap1)

/-- The method `Routes.Marshal`; `none` is a panic. -/
def Routes.Marshal (routes : Routes) (heap : Heap) : Option (Marshaled Routes) :=
  -- If grpc port is configured, modify all nodes' port to grpc port
  let overridden : Option (Except Error (Routes × Heap)) :=
    if routes.Labels.ServiceGrpcPort ≠ "" ∧ routes.Upstream.Nodes ≠ .nil then
      match ParseInt routes.Labels.ServiceGrpcPort with
      | none => some (.error (.portParse routes.Labels.ServiceGrpcPort))
      | some grpcPort =>
        match routes.Upstream.Nodes with
        | .nodes nodes =>
          match copyNodes grpcPort heap nodes heap with
          | none => none
          | some (nodesCopy, heap1) =>
            some (.ok ({ routes with
              Upstream := { routes.Upstream with Nodes := .nodes nodesCopy } }, heap1))
        | _ => some (.ok (routes, heap))
    else some (.ok (routes, heap))
  match overridden with
  | none => none
  | some (.error err) => some ⟨routes, heap, .error err⟩
  | some (.ok (routes1, heap1)) =>
    match embedElm routes1.reflect routes1.All with
    | none => none
    | some all => some ⟨{ routes1 with All := all }, heap1, .ok (jsonMarshal heap1 all)⟩

/-- The method `Routes.Inject`. -/
def Routes.Inject (routes : Routes) (nodes : Value) : Routes :=
  { routes with Upstream := { routes.Upstream with Nodes := nodes } }

/-- The method `Routes.GetUpstream`. -/
def Routes.GetUpstream (routes : Routes) : Message.Upstream := routes.Upstream

/-- The method `Routes.HasNodesAttr`. -/
def Routes.HasNodesAttr (routes : Routes) : Bool := routes.hasNodesAttr

/-- The constructor `NewRoutes`. -/
def NewRoutes (value : Bytes) : Except Error A6Conf :=
  let routes : Routes := { All := some .nil }
  match unmarshal (decodeRoutes routes) (fun v all => { v with All := all }) value with
  | .error err => .error err
  | .ok routes =>
    let routes :=
      match routes.All.get "id" with
      | some (.string _) =>
        if routes.Labels.ServiceName ≠ "" then
          { routes with
            Upstream := { routes.Upstream with
              ServiceName := routes.Labels.ServiceName
              DiscoveryType := routes.Labels.DiscoveryType
              DiscoveryArgs := some
                { NamespaceID := routes.Labels.DiscoveryArgsNamespaceID
                  GroupName := routes.Labels.DiscoveryArgsGroupName } } }
        else routes
      | _ => routes
    let routes :=
      if routes.Upstream.Nodes ≠ .nil then { routes with hasNodesAttr := true } else routes
    .ok (.routes routes)

/-- The method `Services.GetAll`. -/
def Services.GetAll (services : Services) : GoMap := services.All

/-- The method `Services.Marshal`; `none` is a panic. -/
def Services.Marshal (services : Services) (heap : Heap) : Option (Marshaled Services) :=
  match embedElm services.reflect services.All with
  | none => none
  | some all => some ⟨{ services with All := all }, heap, .ok (jsonMarshal heap all)⟩

/-- The method `Services.Inject`. -/
def Services.Inject (services : Services) (nodes : Value) : Services :=
  { services with Upstream := { services.Upstream with Nodes := nodes } }

/-- The method `Services.GetUpstream`. -/
def Services.GetUpstream (services : Services) : Message.Upstream := services.Upstream

/-- The method `Services.HasNodesAttr`. -/
def Services.HasNodesAttr (services : Services) : Bool := services.hasNodesAttr

/-- The constructor `NewServices`. -/
def NewServices (value : Bytes) : Except Error A6Conf :=
  let services : Services := { All := some .nil }
  match unmarshal (decodeServices services) (fun v all => { v with All := all }) value with
  | .error err => .error err
  | .ok services =>
    let services :=
      if services.Upstream.Nodes ≠ .nil then { services with hasNodesAttr := true }
      else services
    .ok (.services services)

/-- The function `NewA6Conf`. -/
def NewA6Conf (value : Bytes) (a6Type : Int) : Except Error A6Conf :=
  if a6Type = A6RoutesConf then NewRoutes value
  else if a6Type = A6UpstreamsConf then NewUpstreams value
  else if a6Type = A6ServicesConf then NewServices value
  else NewRoutes value

/-- The interface method `GetAll`. -/
def A6Conf.GetAll : A6Conf → GoMap
  | .routes r => r.GetAll
  | .upstreams u => u.GetAll
  | .services s => s.GetAll

/-- The interface method `Inject`. -/
def A6Conf.Inject : A6Conf → Value → A6Conf
  | .routes r, nodes => .routes (r.Inject nodes)
  | .upstreams u, nodes => .upstreams (u.Inject nodes)
  | .services s, nodes => .services (s.Inject nodes)

/-- The interface method `GetUpstream`. -/
def A6Conf.GetUpstream : A6Conf → Upstream
  | .routes r => r.GetUpstream
  | .upstreams u => u.GetUpstream
  | .services s => s.GetUpstream

/-- The interface method `HasNodesAttr`. -/
def A6Conf.HasNodesAttr : A6Conf → Bool
  | .routes r => r.HasNodesAttr
  | .upstreams u => u.HasNodesAttr
  | .services s => s.HasNodesAttr

/-- The interface method `Marshal`; `none` is a panic. -/
def A6Conf.Marshal : A6Conf → Heap → Option (Marshaled A6Conf)
  | .routes r, heap =>
    match r.Marshal heap with
    | none => none
    | some out => some ⟨.routes out.self, out.heap, out.result⟩
  | .upstreams u, heap =>
    match u.Marshal heap with
    | none => none
    | some out => some ⟨.upstreams out.self, out.heap, out.result⟩
  | .services s, heap =>
    match s.Marshal heap with
    | none => none
    | some out => some ⟨.services out.self, out.heap, out.result⟩

/-- Whether one of the two decodes of `unmarshal` fails on the data: the
decode into the typed value, `decode`, or the decode into the map `All`. -/
def decodeFails {α : Type} (decode : Value → Option α) (data : Bytes) : Bool :=
  match data with
  | none => true
  | some x => (decode x).isNone || (decodeMap x).isNone

/-! ## The fields of the input, as the decoder reads them -/

/-- The entries of a JSON object; a value that is no object has none. -/
def Value.entries : Value → ValueMap
  | .map m => m
  | _ => .nil

/-- The entries of `m` followed by those of `m2`. -/
def ValueMap.append : ValueMap → ValueMap → ValueMap
  | .nil, m2 => m2
  | .cons k v rest, m2 => .cons k v (rest.append m2)

/-- The value that the entries of an object give to the field with the
serialized name `tag`: the value of the last entry whose key selects the
field. -/
def ValueMap.lastEntry : ValueMap → String → Option Value
  | .nil, _ => none
  | .cons k v rest, tag =>
    match rest.lastEntry tag with
    | some w => some w
    | none => if keyMatches k tag then some v else none

/-- The entries that an object gives to the struct field with the serialized
name `tag`: those of every object under a key that selects the field, in the
order of the text. -/
def ValueMap.blocks : ValueMap → String → ValueMap
  | .nil, _ => .nil
  | .cons k v rest, tag =>
    if keyMatches k tag then v.entries.append (rest.blocks tag) else rest.blocks tag

/-! ## Closed forms of the walk of `embedElm`, used in the proofs -/

/-- The map left by the walk of `embedElm` over the fields of an `Upstream`. -/
def upstreamWalk (u : Upstream) (m : ValueMap) : ValueMap :=
  let m1 := if u.Nodes = .nil then m else m.set "nodes" u.Nodes
  let m2 := if u.DiscoveryType = "" then m1 else m1.delete "discovery_type"
  let m3 := if u.DupDiscoveryType = "" then m2
    else m2.set "_discovery_type" (.string u.DupDiscoveryType)
  let m4 := if u.DiscoveryArgs = none then m3 else m3.delete "discovery_args"
  let m5 := if u.DupServiceName = "" then m4
    else m4.set "_service_name" (.string u.DupServiceName)
  if u.ServiceName = "" then m5 else m5.delete "service_name"

/-- The map left by the walk of `embedElm` over the fields of a `Labels`. -/
def labelsWalk (l : Labels) (m : ValueMap) : ValueMap :=
  let m1 := if l.DiscoveryType = "" then m else m.set "discovery_type" (.string l.DiscoveryType)
  let m2 := if l.ServiceName = "" then m1 else m1.set "service_name" (.string l.ServiceName)
  let m3 := if l.DiscoveryArgsNamespaceID = "" then m2
    else m2.set "discovery_args.namespace_id" (.string l.DiscoveryArgsNamespaceID)
  let m4 := if l.DiscoveryArgsGroupName = "" then m3
    else m3.set "discovery_args.group_name" (.string l.DiscoveryArgsGroupName)
  if l.ServiceGrpcPort = "" then m4 else m4.set "service_grpc_port" (.string l.ServiceGrpcPort)

/-- The effect of `embedElm` on the entry `key` for a field that is a named
struct: the child map is created when absent, must be a map when present, and
receives the walk of the struct. -/
def childWalk (walk : ValueMap → ValueMap) (key : String) (m : ValueMap) : Option ValueMap :=
  match m.get key with
  | none => some (m.set key (.map (walk .nil)))
  | some (.map child) => some (m.set key (.map (walk child)))
  | some _ => none

/-- The effect of `embedElm` on a non-nil map for the field `Upstream` of a
`Routes` or a `Services`: skipped when zero, a named struct otherwise. -/
def upstreamFieldWalk (u : Upstream) (m : ValueMap) : Option ValueMap :=
  if u = {} then some m else childWalk (upstreamWalk u) "upstream" m

/-- The effect of `embedElm` on a non-nil map for a `Routes`: the field
`Labels`, then the field `Upstream`. -/
def routesWalk (l : Labels) (u : Upstream) (m : ValueMap) : Option ValueMap :=
  match (if l = {} then some m else childWalk (labelsWalk l) "labels" m) with
  | none => none
  | some m1 => upstreamFieldWalk u m1

/-- Whether the entry `id` of a document is a string: the test
`routes.All["id"].(string)` of `NewRoutes`. -/
def hasStringId (all : GoMap) : Bool :=
  match all.get "id" with
  | some (.string _) => true
  | _ => false

/-- The `Upstream` of a route after the label propagation of `NewRoutes`. -/
def propagated (all : GoMap) (l : Labels) (u : Upstream) : Upstream :=
  if hasStringId all = true ∧ l.ServiceName ≠ "" then
    { u with
      ServiceName := l.ServiceName
      DiscoveryType := l.DiscoveryType
      DiscoveryArgs := some { NamespaceID := l.DiscoveryArgsNamespaceID,
                              GroupName := l.DiscoveryArgsGroupName } }
  else u

/-- The overlay `u` with its node value replaced by its JSON encoding. -/
def Upstream.encoded (heap : Heap) (u : Upstream) : Upstream :=
  { u with Nodes := u.Nodes.encode heap }

/-- The serialized names of the fields of `Labels`: their `json` tags. -/
def labelsKeys : List String :=
  ["discovery_type", "service_name", "discovery_args.namespace_id",
    "discovery_args.group_name", "service_grpc_port"]

/-- The serialized names of the fields of `Upstream`: their `json` tags. -/
def upstreamKeys : List String :=
  ["nodes", "discovery_type", "_discovery_type", "discovery_args", "_service_name",
    "service_name"]

/-- Whether the field with serialized name `k` of a struct holds its zero
value. -/
def RFields.zeroAt : RFields → String → Bool
  | .nil, _ => false
  | .cons f val rest, k =>
    (trimSuffix f.Tag ",omitempty" == k && val.IsZero) || rest.zeroAt k

/-- The serialized names of the fields that `embedElm` deletes for the struct
named `Upstream`: `DiscoveryType`, `ServiceName` and `DiscoveryArgs`. -/
def suppressedKeys : List String :=
  ["discovery_type", "service_name", "discovery_args"]

/-- The serialized names of the top-level fields of the overlay of an entity. -/
def A6Conf.fieldKeys : A6Conf → List String
  | .routes _ => ["labels", "upstream"]
  | .services _ => ["upstream"]
  | .upstreams _ => upstreamKeys

/-- The serialized names of the fields of a struct, as `embedElm` computes
them from the `json` tags. -/
def RFields.tags : RFields → List String
  | .nil => []
  | .cons f _ rest => trimSuffix f.Tag ",omitempty" :: rest.tags

/-! ## Inputs in the form in which `Marshal` writes them -/

mutual
/-- Whether a JSON text has the form in which `json.Marshal` writes a decoded
document: no object repeats a key, and every number is an integer of magnitude
at most `2 ^ 53`, which a `float64` holds exactly and `json.Marshal` writes
digit for digit.  A tree that holds a Go node list is no JSON text. -/
def Value.canonical : Value → Bool
  | .nodes _ => false
  | .list xs => xs.canonical
  | .map m => m.canonical
  | .nil => true
  | .bool _ => true
  | .number n => decide (n.natAbs ≤ 2 ^ 53)
  | .string _ => true
/-- Whether the elements of an array have the form of `Value.canonical`. -/
def ValueList.canonical : ValueList → Bool
  | .nil => true
  | .cons v rest => v.canonical && rest.canonical
/-- Whether the entries of an object have the form of `Value.canonical`: the
values have it and no key occurs twice. -/
def ValueMap.canonical : ValueMap → Bool
  | .nil => true
  | .cons k v rest => v.canonical && rest.canonical && (rest.get k).isNone
end

/-- Whether every key of the entries that selects a field with one of the
serialized names `tags` is spelled as that name, letter case included. -/
def ValueMap.spells (tags : List String) : ValueMap → Bool
  | .nil => true
  | .cons k _ rest =>
    tags.all (fun t => !keyMatches k t || decide (k = t)) && rest.spells tags

/-- Whether the keys of an input of kind `a6Type` that select a field of the
overlay are spelled as the serialized names of the fields: the keys of the
input itself and, for a route and a service, those of the objects under
`labels` and `upstream`.  The kinds are told apart as `NewA6Conf` does. -/
def spelled (a6Type : Int) (x : Value) : Bool :=
  if a6Type = A6RoutesConf then
    x.entries.spells ["labels", "upstream"] &&
      ((x.get "labels").getD .nil).entries.spells labelsKeys &&
      ((x.get "upstream").getD .nil).entries.spells upstreamKeys
  else if a6Type = A6UpstreamsConf then x.entries.spells upstreamKeys
  else if a6Type = A6ServicesConf then
    x.entries.spells ["upstream"] &&
      ((x.get "upstream").getD .nil).entries.spells upstreamKeys
  else
    x.entries.spells ["labels", "upstream"] &&
      ((x.get "labels").getD .nil).entries.spells labelsKeys &&
      ((x.get "upstream").getD .nil).entries.spells upstreamKeys

/-! ## Inputs of the witnesses and counterexamples -/

/-- The route `{"id": 1, "labels": {"service_name": "svc-a"}}`, whose `id`
is a number. -/
def numericIdRoute : Bytes :=
  some (.map (.ofList [("id", .number 1),
    ("labels", .map (.ofList [("service_name", .string "svc-a")]))]))


/-- The input `{"k": n}`, whose key selects no field of an overlay. -/
def unknownNumberInput (n : Int) : Value :=
  .map (.ofList [("k", .number n)])

/-- The input `{"service_name": 5}`: a number for a string field. -/
def numericNameInput : Value :=
  .map (.ofList [("service_name", .number 5)])

/-- The entity that `NewRoutes` returns on `numericIdRoute`. -/
def numericIdEntity : Routes :=
  { Labels := { ServiceName := "svc-a" },
    All := some (.ofList [("id", .number 1),
      ("labels", .map (.ofList [("service_name", .string "svc-a")]))]) }

/-- The labels `{"service_name": "svc-a", "discovery_type": "nacos"}`. -/
def labelledLabels : ValueMap :=
  .ofList [("service_name", .string "svc-a"), ("discovery_type", .string "nacos")]

/-- The entries of the route `{"id": "r1", "labels": {"service_name": "svc-a",
"discovery_type": "nacos"}}` of the spec. -/
def labelledMap : ValueMap :=
  .ofList [("id", .string "r1"), ("labels", .map labelledLabels)]

/-- The route of the spec, as JSON text. -/
def labelledRoute : Bytes := some (.map labelledMap)

/-- The entity that `NewRoutes` returns on `labelledRoute`. -/
def labelledEntity : Routes :=
  { Labels := { ServiceName := "svc-a", DiscoveryType := "nacos" },
    Upstream := { ServiceName := "svc-a", DiscoveryType := "nacos", DiscoveryArgs := some {} },
    All := some labelledMap }


/-- A route whose port label `abc` is not a number and whose node field holds
the concrete node list `[&heap[0]]`. -/
def badPortRoute : Routes :=
  { Labels := { ServiceGrpcPort := "abc" },
    Upstream := { Nodes := .nodes [0] },
    All := some (.ofList [("labels", .map (.ofList [("service_grpc_port", .string "abc")]))]) }

/-- The heap with the single node `{a, 1, 80}`. -/
def oneNodeHeap : Heap := [{ Host := "a", Weight := 1, Port := 80 }]

/-- The route `{"labels": {"service_grpc_port": "abc"}, "upstream":
{"nodes": []}}`: the port label is not a number and the node field holds the
list decoded from the input. -/
def badPortPassThrough : Bytes :=
  some (.map (.ofList [("labels", .map (.ofList [("service_grpc_port", .string "abc")])),
    ("upstream", .map (.ofList [("nodes", .list .nil)]))]))

/-- The entity that `NewRoutes` returns on `badPortPassThrough`. -/
def badPortPassThroughEntity : Routes :=
  { Labels := { ServiceGrpcPort := "abc" },
    Upstream := { Nodes := .list .nil },
    All := some (.ofList [("labels", .map (.ofList [("service_grpc_port", .string "abc")])),
      ("upstream", .map (.ofList [("nodes", .list .nil)]))]),
    hasNodesAttr := true }

/-- The node list `[{"host": "a", "port": 80, "weight": 1}]` as decoded from
JSON text: a `[]interface{}`, not a `[]*Node`. -/
def passThroughNodes : Value :=
  .list (.cons (.map (.ofList [("host", .string "a"), ("port", .number 80),
    ("weight", .number 1)])) .nil)

/-- The entries of the route `{"labels": {"service_grpc_port": "9000"},
"upstream": {"nodes": [{"host": "a", "port": 80, "weight": 1}]}}`. -/
def passThroughMap : ValueMap :=
  .ofList [("labels", .map (.ofList [("service_grpc_port", .string "9000")])),
    ("upstream", .map (.ofList [("nodes", passThroughNodes)]))]

/-- A route with a numeric port label whose node list comes from the input. -/
def passThroughRoute : Bytes := some (.map passThroughMap)

/-- The entity that `NewRoutes` returns on `passThroughRoute`. -/
def passThroughEntity : Routes :=
  { Labels := { ServiceGrpcPort := "9000" },
    Upstream := { Nodes := passThroughNodes },
    All := some passThroughMap,
    hasNodesAttr := true }

/-- The upstream `{"nodes": []}`, whose node field is an empty list. -/
def emptyNodesUpstream : Value :=
  .map (.ofList [("nodes", .list .nil)])

/-- The entity that `NewUpstreams` returns on `emptyNodesUpstream`. -/
def emptyNodesEntity : Upstreams :=
  { Upstream := { Nodes := .list .nil },
    hasNodesAttr := true,
    All := some (.ofList [("nodes", .list .nil)]) }

/-- The upstream `{"service_name": "svc"}`. -/
def namedUpstream : Bytes :=
  some (.map (.ofList [("service_name", .string "svc")]))

/-- The route `{"labels": {"service_grpc_port": "9000"}, "upstream": null}`. -/
def nullUpstreamRoute : Bytes :=
  some (.map (.ofList [("labels", .map (.ofList [("service_grpc_port", .string "9000")])),
    ("upstream", .nil)]))

/-- The entity that `NewRoutes` returns on `nullUpstreamRoute`. -/
def nullUpstreamEntity : Routes :=
  { Labels := { ServiceGrpcPort := "9000" },
    All := some (.ofList [("labels", .map (.ofList [("service_grpc_port", .string "9000")])),
      ("upstream", .nil)]) }

/-- The route `{"labels": {"service_grpc_port": "9000"}}` after `Inject` of
the concrete node list `[&heap[0]]`. -/
def grpcRoute : Routes :=
  { Labels := { ServiceGrpcPort := "9000" },
    Upstream := { Nodes := .nodes [0] },
    All := some (.ofList [("labels", .map (.ofList [("service_grpc_port", .string "9000")]))]) }

/-- The route `{"id": "r1", "labels": {"service_name": "svc-a"},
"upstream": null}`. -/
def nullUpstreamLabelled : Bytes :=
  some (.map (.ofList [("id", .string "r1"),
    ("labels", .map (.ofList [("service_name", .string "svc-a")])), ("upstream", .nil)]))

/-- The entity that `NewRoutes` returns on `nullUpstreamLabelled`. -/
def nullUpstreamLabelledEntity : Routes :=
  { Labels := { ServiceName := "svc-a" },
    Upstream := { ServiceName := "svc-a", DiscoveryArgs := some {} },
    All := some (.ofList [("id", .string "r1"),
      ("labels", .map (.ofList [("service_name", .string "svc-a")])), ("upstream", .nil)]) }

/-- The service `{"upstream": {"service_name": "svc", "nodes": []}}`. -/
def namedService : Bytes :=
  some (.map (.ofList [("upstream",
    .map (.ofList [("service_name", .string "svc"), ("nodes", .list .nil)]))]))

/-- The entity that `NewServices` returns on `namedService`. -/
def namedServiceEntity : Services :=
  { Upstream := { ServiceName := "svc", Nodes := .list .nil },
    All := some (.ofList [("upstream",
      .map (.ofList [("service_name", .string "svc"), ("nodes", .list .nil)]))]),
    hasNodesAttr := true }

/-- The outcome of `Marshal` on `namedServiceEntity`. -/
def namedServiceMarshaled : Marshaled A6Conf :=
  ⟨.services { namedServiceEntity with
      All := some (.ofList [("upstream", .map (.ofList [("nodes", .list .nil)]))]) }, [],
    .ok (some (.map (.ofList [("upstream", .map (.ofList [("nodes", .list .nil)]))])))⟩

/-- An `Upstreams` whose document is `{"nodes": null, "service_name": "svc"}`:
the field `Nodes` of the overlay is zero although the key `nodes` is present. -/
def nullNodesEntity : Upstreams :=
  { Upstream := { ServiceName := "svc" },
    All := some (.ofList [("nodes", .nil), ("service_name", .string "svc")]) }

/-- The document of `grpcRoute` after `Marshal`, with the node list at the
address `p`. -/
def grpcDocument (p : Nat) : ValueMap :=
  .ofList [("labels", .map (.ofList [("service_grpc_port", .string "9000")])),
    ("upstream", .map (.ofList [("nodes", .nodes [p])]))]

/-- The bytes that `Marshal` returns on `grpcRoute`. -/
def grpcBytes : Bytes :=
  some (.map (.ofList [("labels", .map (.ofList [("service_grpc_port", .string "9000")])),
    ("upstream", .map (.ofList [("nodes", .list (.cons (nodeJSON ⟨"a", 1, 9000⟩) .nil))]))]))

/-- The outcome of `Marshal` on `grpcRoute` with the heap `oneNodeHeap`. -/
def grpcMarshaled : Marshaled A6Conf :=
  ⟨.routes { grpcRoute with Upstream := { Nodes := .nodes [1] }, All := some (grpcDocument 1) },
    [⟨"a", 1, 80⟩, ⟨"a", 1, 9000⟩], .ok grpcBytes⟩

/-- The outcome of a second `Marshal`, on the receiver and heap of
`grpcMarshaled`. -/
def grpcMarshaledTwice : Marshaled A6Conf :=
  ⟨.routes { grpcRoute with Upstream := { Nodes := .nodes [2] }, All := some (grpcDocument 2) },
    [⟨"a", 1, 80⟩, ⟨"a", 1, 9000⟩, ⟨"a", 1, 9000⟩], .ok grpcBytes⟩

/-- The document of `labelledEntity` after `Marshal`. -/
def labelledDocument : ValueMap :=
  .ofList [("id", .string "r1"), ("labels", .map labelledLabels), ("upstream", .map .nil)]

/-- The outcome of `Marshal` on `labelledEntity`. -/
def labelledMarshaled : Marshaled A6Conf :=
  ⟨.routes { labelledEntity with All := some labelledDocument }, [],
    .ok (some (.map labelledDocument))⟩

/-- The input `{"discovery_type": "nacos", "service_name": "svc", "k": 1}`
of the witness of C1. -/
def suppressInput : Bytes :=
  some (.map (.ofList [("discovery_type", .string "nacos"), ("service_name", .string "svc"),
    ("k", .number 1)]))

/-- The entity that `NewUpstreams` returns on `suppressInput`. -/
def suppressEntity : Upstreams :=
  { Upstream := { DiscoveryType := "nacos", ServiceName := "svc" },
    All := some (.ofList [("discovery_type", .string "nacos"), ("service_name", .string "svc"),
      ("k", .number 1)]) }

/-! ## Maps -/

theorem ValueMap.induct {P : ValueMap → Prop} (nil : P .nil)
    (cons : ∀ k v rest, P rest → P (.cons k v rest)) : ∀ m, P m
  | .nil => nil
  | .cons k v rest => cons k v rest (ValueMap.induct nil cons rest)

theorem ValueMap.get_set_self (m : ValueMap) (k : String) (v : Value) :
    (m.set k v).get k = some v := by
  induction m using ValueMap.induct with
  | nil => simp [ValueMap.set, ValueMap.get]
  | cons k1 v1 rest ih =>
    by_cases h : k1 = k <;> simp [ValueMap.set, ValueMap.get, h, ih]

theorem ValueMap.get_set_ne (m : ValueMap) {k k2 : String} (v : Value) (h : k ≠ k2) :
    (m.set k v).get k2 = m.get k2 := by
  induction m using ValueMap.induct with
  | nil => simp [ValueMap.set, ValueMap.get, h]
  | cons k1 v1 rest ih =>
    by_cases h1 : k1 = k
    · subst h1; simp [ValueMap.set, ValueMap.get, h]
    · by_cases h2 : k1 = k2
      · subst h2; simp [ValueMap.set, ValueMap.get, h1]
      · simp [ValueMap.set, ValueMap.get, h1, h2, ih]

theorem ValueMap.get_delete_self (m : ValueMap) (k : String) :
    (m.delete k).get k = none := by
  induction m using ValueMap.induct with
  | nil => simp [ValueMap.delete, ValueMap.get]
  | cons k1 v1 rest ih =>
    by_cases h : k1 = k <;> simp [ValueMap.delete, ValueMap.get, h, ih]

theorem ValueMap.get_delete_ne (m : ValueMap) {k k2 : String} (h : k ≠ k2) :
    (m.delete k).get k2 = m.get k2 := by
  induction m using ValueMap.induct with
  | nil => simp [ValueMap.delete, ValueMap.get]
  | cons k1 v1 rest ih =>
    by_cases h1 : k1 = k
    · subst h1; simp [ValueMap.delete, ValueMap.get, h, ih]
    · by_cases h2 : k1 = k2
      · subst h2; simp [ValueMap.delete, ValueMap.get, h1]
      · simp [ValueMap.delete, ValueMap.get, h1, h2, ih]

theorem ValueMap.set_eq_self (m : ValueMap) {k : String} {v : Value} (h : m.get k = some v) :
    m.set k v = m := by
  induction m using ValueMap.induct with
  | nil => simp [ValueMap.get] at h
  | cons k1 v1 rest ih =>
    by_cases h1 : k1 = k
    · simp [ValueMap.get, h1] at h; simp [ValueMap.set, h1, h]
    · simp [ValueMap.get, h1] at h; simp [ValueMap.set, h1, ih h]

theorem ValueMap.delete_eq_self (m : ValueMap) {k : String} (h : m.get k = none) :
    m.delete k = m := by
  induction m using ValueMap.induct with
  | nil => rfl
  | cons k1 v1 rest ih =>
    by_cases h1 : k1 = k
    · simp [ValueMap.get, h1] at h
    · simp [ValueMap.get, h1] at h; simp [ValueMap.delete, h1, ih h]

theorem ValueMap.set_set (m : ValueMap) (k : String) (v w : Value) :
    (m.set k v).set k w = m.set k w := by
  induction m using ValueMap.induct with
  | nil => simp [ValueMap.set]
  | cons k1 v1 rest ih =>
    by_cases h : k1 = k <;> simp [ValueMap.set, h, ih]

/-! ## Unfolding `embedElm` -/

theorem embedFields_skip_all (n : String) (f : StructField) (v : RValue) (rest : RFields)
    (all : GoMap) (hn : f.Name = "All") (ht : trimSuffix f.Tag ",omitempty" = "-") :
    embedFields n (.cons f v rest) all = embedFields n rest all := by
  cases v with
  | map m => cases m <;> simp [embedFields, hn, ht]
  | _ => simp [embedFields, hn, ht]

theorem embedFields_skip_flag (n : String) (f : StructField) (v : RValue) (rest : RFields)
    (all : GoMap) (hn : f.Name = "hasNodesAttr") :
    embedFields n (.cons f v rest) all = embedFields n rest all := by
  cases v with
  | map m => cases m <;> simp [embedFields, hn]
  | _ => simp [embedFields, hn]

theorem embedFields_skip_zero (n : String) (f : StructField) (v : RValue) (rest : RFields)
    (all : GoMap) (hz : v.IsZero = true) :
    embedFields n (.cons f v rest) all = embedFields n rest all := by
  cases v with
  | map m => cases m <;> simp_all [embedFields, RValue.IsZero]
  | _ => simp_all [embedFields]

theorem labels_allZero (l : Labels) : l.reflect.allZero = decide (l = {}) := by
  cases l
  rw [Bool.eq_iff_iff]
  simp [Labels.reflect, RFields.allZero, RValue.IsZero, and_assoc]

theorem upstream_allZero (u : Upstream) : u.reflect.allZero = decide (u = {}) := by
  rcases u with ⟨n, dt, ddt, args, dsn, sn⟩
  rw [Bool.eq_iff_iff]
  cases args <;>
  simp [Upstream.reflect, RFields.allZero, RValue.IsZero, reflectArgs, and_assoc]

theorem embedFields_upstream (u : Upstream) (m : ValueMap) :
    embedFields "Upstream" u.reflect (some m) = some (some (upstreamWalk u m)) := by
  have t1 : trimSuffix "nodes,omitempty" ",omitempty" = "nodes" := by decide
  have t2 : trimSuffix "discovery_type,omitempty" ",omitempty" = "discovery_type" := by decide
  have t3 : trimSuffix "_discovery_type,omitempty" ",omitempty" = "_discovery_type" := by decide
  have t4 : trimSuffix "discovery_args,omitempty" ",omitempty" = "discovery_args" := by decide
  have t5 : trimSuffix "_service_name,omitempty" ",omitempty" = "_service_name" := by decide
  have t6 : trimSuffix "service_name,omitempty" ",omitempty" = "service_name" := by decide
  cases hargs : u.DiscoveryArgs <;>
  by_cases h1 : u.Nodes = .nil <;> by_cases h2 : u.DiscoveryType = "" <;>
  by_cases h3 : u.DupDiscoveryType = "" <;> by_cases h5 : u.DupServiceName = "" <;>
  by_cases h6 : u.ServiceName = "" <;>
  simp [Upstream.reflect, embedFields, upstreamWalk, reflectArgs, RValue.IsZero, GoMap.assign,
    GoMap.delete, t1, t2, t3, t4, t5, t6, hargs, h1, h2, h3, h5, h6]

theorem embedFields_upstream_nilmap (u : Upstream) :
    embedFields "Upstream" u.reflect none =
      if u.Nodes = .nil ∧ u.DupDiscoveryType = "" ∧ u.DupServiceName = "" then some none
      else none := by
  have t1 : trimSuffix "nodes,omitempty" ",omitempty" = "nodes" := by decide
  have t2 : trimSuffix "discovery_type,omitempty" ",omitempty" = "discovery_type" := by decide
  have t3 : trimSuffix "_discovery_type,omitempty" ",omitempty" = "_discovery_type" := by decide
  have t4 : trimSuffix "discovery_args,omitempty" ",omitempty" = "discovery_args" := by decide
  have t5 : trimSuffix "_service_name,omitempty" ",omitempty" = "_service_name" := by decide
  have t6 : trimSuffix "service_name,omitempty" ",omitempty" = "service_name" := by decide
  cases hargs : u.DiscoveryArgs <;>
  by_cases h1 : u.Nodes = .nil <;> by_cases h2 : u.DiscoveryType = "" <;>
  by_cases h3 : u.DupDiscoveryType = "" <;> by_cases h5 : u.DupServiceName = "" <;>
  by_cases h6 : u.ServiceName = "" <;>
  simp [Upstream.reflect, embedFields, reflectArgs, RValue.IsZero, GoMap.assign,
    GoMap.delete, t1, t2, t3, t4, t5, t6, hargs, h1, h2, h3, h5, h6]

theorem embedFields_labels (l : Labels) (m : ValueMap) :
    embedFields "Labels" l.reflect (some m) = some (some (labelsWalk l m)) := by
  have t1 : trimSuffix "discovery_type,omitempty" ",omitempty" = "discovery_type" := by decide
  have t2 : trimSuffix "service_name,omitempty" ",omitempty" = "service_name" := by decide
  have t3 : trimSuffix "discovery_args.namespace_id,omitempty" ",omitempty"
      = "discovery_args.namespace_id" := by decide
  have t4 : trimSuffix "discovery_args.group_name,omitempty" ",omitempty"
      = "discovery_args.group_name" := by decide
  have t5 : trimSuffix "service_grpc_port,omitempty" ",omitempty" = "service_grpc_port" := by
    decide
  by_cases h1 : l.DiscoveryType = "" <;> by_cases h2 : l.ServiceName = "" <;>
  by_cases h3 : l.DiscoveryArgsNamespaceID = "" <;>
  by_cases h4 : l.DiscoveryArgsGroupName = "" <;> by_cases h5 : l.ServiceGrpcPort = "" <;>
  simp [Labels.reflect, embedFields, labelsWalk, RValue.IsZero, GoMap.assign,
    t1, t2, t3, t4, t5, h1, h2, h3, h4, h5]

theorem upstreamWalk_zero (m : ValueMap) : upstreamWalk {} m = m := by
  simp [upstreamWalk]

theorem labelsWalk_zero (m : ValueMap) : labelsWalk {} m = m := by
  simp [labelsWalk]

/-- The step of `embedElm` for a field that is a named, non-zero struct whose
walk over a non-nil map is `walk`. -/
theorem embedFields_named (n tn : String) (f : StructField) (fs rest : RFields)
    (m : ValueMap) (walk : ValueMap → ValueMap) (key : String)
    (hn1 : f.Name ≠ "All") (hn2 : f.Name ≠ "hasNodesAttr")
    (hn3 : ¬ ((f.Name = "DiscoveryType" ∨ f.Name = "ServiceName" ∨ f.Name = "DiscoveryArgs")
      ∧ n = "Upstream"))
    (hz : fs.allZero = false) (ha : f.Anonymous = false)
    (ht : trimSuffix f.Tag ",omitempty" = key)
    (hw : ∀ c, embedFields tn fs (some c) = some (some (walk c))) :
    embedFields n (.cons f (.struct tn fs) rest) (some m) =
      match childWalk walk key m with
      | none => none
      | some m1 => embedFields n rest (some m1) := by
  simp only [embedFields, hn1, hn2, RValue.IsZero, hz, ha, ht, childWalk, false_and, if_false,
    Bool.false_eq_true]
  rw [if_neg hn3]
  cases hg : m.get key with
  | none =>
    simp [GoMap.get, GoMap.assign, hg, ValueMap.get_set_self, hw, ValueMap.set_set]
  | some v =>
    cases v <;> simp [GoMap.get, GoMap.assign, hg, hw]

/-- The step of `embedElm` for a field that is an embedded, non-zero struct. -/
theorem embedFields_embedded (n tn : String) (f : StructField) (fs rest : RFields)
    (all : GoMap) (hn1 : f.Name ≠ "All") (hn2 : f.Name ≠ "hasNodesAttr")
    (hn3 : ¬ ((f.Name = "DiscoveryType" ∨ f.Name = "ServiceName" ∨ f.Name = "DiscoveryArgs")
      ∧ n = "Upstream"))
    (hz : fs.allZero = false) (ha : f.Anonymous = true) :
    embedFields n (.cons f (.struct tn fs) rest) all =
      match embedFields tn fs all with
      | none => none
      | some all1 => embedFields n rest all1 := by
  simp only [embedFields, hn1, hn2, RValue.IsZero, hz, ha, false_and, if_false,
    Bool.false_eq_true, if_true]
  rw [if_neg hn3]

theorem embedElm_upstreams (ups : Upstreams) (m : ValueMap) :
    embedElm ups.reflect (some m) = some (some (upstreamWalk ups.Upstream m)) := by
  have t0 : trimSuffix "" ",omitempty" = "" := by decide
  have t1 : trimSuffix "-" ",omitempty" = "-" := by decide
  have hrest : ∀ all : GoMap, embedFields "Upstreams"
      (.cons ⟨"hasNodesAttr", "", false⟩ (.bool ups.hasNodesAttr)
        (.cons ⟨"All", "-", false⟩ (.map ups.All) .nil)) all = some all := by
    intro all
    rw [embedFields_skip_flag _ _ _ _ _ rfl, embedFields_skip_all _ _ _ _ _ rfl t1]
    simp [embedFields]
  by_cases hz : ups.Upstream = {}
  · rw [hz, upstreamWalk_zero]
    simp only [Upstreams.reflect, embedElm]
    rw [embedFields_skip_zero _ _ _ _ _ (by simp [RValue.IsZero, upstream_allZero, hz]), hrest]
  · have hz2 : ups.Upstream.reflect.allZero = false := by simp [upstream_allZero, hz]
    simp only [Upstreams.reflect, embedElm]
    rw [embedFields_embedded _ _ _ _ _ _ (by decide) (by decide) (by decide) hz2 rfl,
      embedFields_upstream]
    simp [hrest]

theorem embedElm_upstreams_nilmap (ups : Upstreams) :
    embedElm ups.reflect none =
      if ups.Upstream.Nodes = .nil ∧ ups.Upstream.DupDiscoveryType = ""
        ∧ ups.Upstream.DupServiceName = "" then some none else none := by
  have t0 : trimSuffix "" ",omitempty" = "" := by decide
  have t1 : trimSuffix "-" ",omitempty" = "-" := by decide
  have hrest : ∀ all : GoMap, embedFields "Upstreams"
      (.cons ⟨"hasNodesAttr", "", false⟩ (.bool ups.hasNodesAttr)
        (.cons ⟨"All", "-", false⟩ (.map ups.All) .nil)) all = some all := by
    intro all
    rw [embedFields_skip_flag _ _ _ _ _ rfl, embedFields_skip_all _ _ _ _ _ rfl t1]
    simp [embedFields]
  by_cases hz : ups.Upstream = {}
  · simp only [Upstreams.reflect, embedElm]
    rw [embedFields_skip_zero _ _ _ _ _ (by simp [RValue.IsZero, upstream_allZero, hz]), hrest]
    simp [hz]
  · have hz2 : ups.Upstream.reflect.allZero = false := by simp [upstream_allZero, hz]
    simp only [Upstreams.reflect, embedElm]
    rw [embedFields_embedded _ _ _ _ _ _ (by decide) (by decide) (by decide) hz2 rfl,
      embedFields_upstream_nilmap]
    by_cases hc : ups.Upstream.Nodes = .nil ∧ ups.Upstream.DupDiscoveryType = ""
        ∧ ups.Upstream.DupServiceName = ""
    · simp [hc, hrest]
    · simp [hc]

theorem embedFields_upstreamField (n : String) (u : Upstream) (rest : RFields) (m : ValueMap)
    (hn : n ≠ "Upstream") :
    embedFields n (.cons ⟨"Upstream", "upstream", false⟩ (.struct "Upstream" u.reflect) rest)
        (some m) =
      match upstreamFieldWalk u m with
      | none => none
      | some m1 => embedFields n rest (some m1) := by
  have t2 : trimSuffix "upstream" ",omitempty" = "upstream" := by decide
  by_cases hz : u = {}
  · rw [embedFields_skip_zero _ _ _ _ _ (by simp [RValue.IsZero, upstream_allZero, hz])]
    simp [upstreamFieldWalk, hz]
  · rw [embedFields_named n "Upstream" _ _ _ m (upstreamWalk u) "upstream" (by decide)
      (by decide) (by simp [hn]) (by simp [upstream_allZero, hz]) rfl t2
      (embedFields_upstream u)]
    simp [upstreamFieldWalk, hz]

theorem embedFields_tail (n : String) (a : GoMap) (b : Bool) (all : GoMap) :
    embedFields n (.cons ⟨"All", "-", false⟩ (.map a)
      (.cons ⟨"hasNodesAttr", "", false⟩ (.bool b) .nil)) all = some all := by
  have t1 : trimSuffix "-" ",omitempty" = "-" := by decide
  rw [embedFields_skip_all _ _ _ _ _ rfl t1, embedFields_skip_flag _ _ _ _ _ rfl]
  simp [embedFields]

theorem embedElm_services (s : Services) (m : ValueMap) :
    embedElm s.reflect (some m) = (upstreamFieldWalk s.Upstream m).map some := by
  simp only [Services.reflect, embedElm]
  rw [embedFields_upstreamField _ _ _ _ (by decide)]
  cases upstreamFieldWalk s.Upstream m <;> simp [embedFields_tail]

theorem embedElm_routes (r : Routes) (m : ValueMap) :
    embedElm r.reflect (some m) = (routesWalk r.Labels r.Upstream m).map some := by
  have t2 : trimSuffix "labels" ",omitempty" = "labels" := by decide
  simp only [Routes.reflect, embedElm, routesWalk]
  by_cases hz : r.Labels = {}
  · rw [embedFields_skip_zero _ _ _ _ _ (by simp [RValue.IsZero, labels_allZero, hz]),
      embedFields_upstreamField _ _ _ _ (by decide)]
    simp only [hz, if_true]
    cases upstreamFieldWalk r.Upstream m <;> simp [embedFields_tail]
  · rw [embedFields_named "Routes" "Labels" _ _ _ m (labelsWalk r.Labels) "labels" (by decide)
      (by decide) (by decide) (by simp [labels_allZero, hz]) rfl t2
      (embedFields_labels r.Labels)]
    simp only [hz, if_false]
    cases childWalk (labelsWalk r.Labels) "labels" m with
    | none => rfl
    | some m1 =>
      simp only []
      rw [embedFields_upstreamField _ _ _ _ (by decide)]
      cases upstreamFieldWalk r.Upstream m1 <;> simp [embedFields_tail]

theorem embedElm_services_nilmap (s : Services) :
    embedElm s.reflect none = if s.Upstream = {} then some none else none := by
  have t2 : trimSuffix "upstream" ",omitempty" = "upstream" := by decide
  simp only [Services.reflect, embedElm]
  by_cases hz : s.Upstream = {}
  · rw [embedFields_skip_zero _ _ _ _ _ (by simp [RValue.IsZero, upstream_allZero, hz]),
      embedFields_tail]
    simp [hz]
  · have hz2 : s.Upstream.reflect.allZero = false := by simp [upstream_allZero, hz]
    simp [embedFields, t2, RValue.IsZero, hz2, GoMap.get, GoMap.assign, hz]

theorem embedElm_routes_nilmap (r : Routes) :
    embedElm r.reflect none =
      if r.Labels = {} ∧ r.Upstream = {} then some none else none := by
  have t1 : trimSuffix "labels" ",omitempty" = "labels" := by decide
  have t2 : trimSuffix "upstream" ",omitempty" = "upstream" := by decide
  simp only [Routes.reflect, embedElm]
  by_cases hl : r.Labels = {}
  · rw [embedFields_skip_zero _ _ _ _ _ (by simp [RValue.IsZero, labels_allZero, hl])]
    by_cases hz : r.Upstream = {}
    · rw [embedFields_skip_zero _ _ _ _ _ (by simp [RValue.IsZero, upstream_allZero, hz]),
        embedFields_tail]
      simp [hl, hz]
    · have hz2 : r.Upstream.reflect.allZero = false := by simp [upstream_allZero, hz]
      simp [embedFields, t2, RValue.IsZero, hz2, GoMap.get, GoMap.assign, hz]
  · have hl2 : r.Labels.reflect.allZero = false := by simp [labels_allZero, hl]
    simp [embedFields, t1, RValue.IsZero, hl2, GoMap.get, GoMap.assign, hl]

/-! ## Encoding -/

theorem ValueMap.get_encode (heap : Heap) (m : ValueMap) (k : String) :
    (m.encode heap).get k = (m.get k).map (Value.encode heap) := by
  induction m using ValueMap.induct with
  | nil => simp [ValueMap.encode, ValueMap.get]
  | cons k1 v1 rest ih =>
    by_cases h : k1 = k <;> simp [ValueMap.encode, ValueMap.get, h, ih]

/-! ## The constructors -/

theorem unmarshal_eq_ok {α : Type} {decode : Value → Option α} {setAll : α → GoMap → α}
    {data : Bytes} {v : α} (h : unmarshal decode setAll data = .ok v) :
    ∃ x v0 all, data = some x ∧ decode x = some v0 ∧ decodeMap x = some all ∧
      v = setAll v0 all := by
  cases data with
  | none => simp [unmarshal] at h
  | some x =>
    simp only [unmarshal] at h
    cases hd : decode x with
    | none => simp [hd] at h
    | some v0 =>
      cases hm : decodeMap x with
      | none => simp [hd, hm] at h
      | some all =>
        simp only [hd, hm, Except.ok.injEq] at h
        exact ⟨x, v0, all, rfl, hd, hm, h.symm⟩

theorem decodeObject_preserves {α β : Type} {store : α → String → Value → Option α}
    (proj : α → β) (hstore : ∀ a k v a1, store a k v = some a1 → proj a1 = proj a)
    (m : ValueMap) : ∀ a a1 : α, decodeObject store m a = some a1 → proj a1 = proj a := by
  induction m using ValueMap.induct with
  | nil =>
    intro a a1 h
    simp only [decodeObject, Option.some.injEq] at h
    rw [h]
  | cons k v rest ih =>
    intro a a1 h
    simp only [decodeObject] at h
    cases hs : store a k v with
    | none => simp [hs] at h
    | some a2 =>
      simp only [hs] at h
      rw [ih a2 a1 h, hstore a k v a2 hs]

theorem decodeMap_nil {x : Value} (h : decodeMap x = some none) : x = .nil := by
  cases x with
  | nil => rfl
  | map m =>
    cases hm : m.toInterface .nil with
    | none => simp [decodeMap, storeMap, hm] at h
    | some d => simp [decodeMap, storeMap, hm] at h
  | _ => simp [decodeMap, storeMap] at h

theorem decodeUpstreams_fixed {ups ups1 : Upstreams} {x : Value}
    (h : decodeUpstreams ups x = some ups1) :
    ups1.hasNodesAttr = ups.hasNodesAttr ∧ ups1.All = ups.All := by
  have key := @decodeObject_preserves Upstreams _ Upstreams.storeField
    (fun a : Upstreams => (a.hasNodesAttr, a.All)) (by
      intro a k v a1 h1
      simp only [Upstreams.storeField, Option.map_eq_some'] at h1
      obtain ⟨u, -, rfl⟩ := h1
      rfl)
  cases x with
  | nil =>
    simp only [decodeUpstreams, Option.some.injEq] at h
    subst h
    exact ⟨rfl, rfl⟩
  | map m =>
    have := key m ups ups1 h
    simp only [Prod.mk.injEq] at this
    exact this
  | _ => simp [decodeUpstreams] at h

theorem decodeRoutes_fixed {routes r : Routes} {x : Value}
    (h : decodeRoutes routes x = some r) :
    r.All = routes.All ∧ r.hasNodesAttr = routes.hasNodesAttr := by
  have key := @decodeObject_preserves Routes _ Routes.storeField
    (fun a : Routes => (a.All, a.hasNodesAttr)) (by
      intro a k v a1 h1
      simp only [Routes.storeField] at h1
      split_ifs at h1
      · simp only [Option.map_eq_some'] at h1
        obtain ⟨l, -, rfl⟩ := h1
        rfl
      · simp only [Option.map_eq_some'] at h1
        obtain ⟨u, -, rfl⟩ := h1
        rfl
      · simp only [Option.some.injEq] at h1
        rw [h1])
  cases x with
  | nil =>
    simp only [decodeRoutes, Option.some.injEq] at h
    subst h
    exact ⟨rfl, rfl⟩
  | map m =>
    have := key m routes r h
    simp only [Prod.mk.injEq] at this
    exact this
  | _ => simp [decodeRoutes] at h

theorem decodeServices_fixed {services s : Services} {x : Value}
    (h : decodeServices services x = some s) :
    s.All = services.All ∧ s.hasNodesAttr = services.hasNodesAttr := by
  have key := @decodeObject_preserves Services _ Services.storeField
    (fun a : Services => (a.All, a.hasNodesAttr)) (by
      intro a k v a1 h1
      simp only [Services.storeField] at h1
      split_ifs at h1
      · simp only [Option.map_eq_some'] at h1
        obtain ⟨u, -, rfl⟩ := h1
        rfl
      · simp only [Option.some.injEq] at h1
        rw [h1])
  cases x with
  | nil =>
    simp only [decodeServices, Option.some.injEq] at h
    subst h
    exact ⟨rfl, rfl⟩
  | map m =>
    have := key m services s h
    simp only [Prod.mk.injEq] at this
    exact this
  | _ => simp [decodeServices] at h

theorem NewUpstreams_ok {value : Bytes} {e : A6Conf} (h : NewUpstreams value = .ok e) :
    ∃ x u all, value = some x ∧
      decodeUpstreams { All := some .nil } x = some ⟨u, false, some .nil⟩ ∧
      decodeMap x = some all ∧
      e = .upstreams ⟨u, decide (u.Nodes ≠ .nil), all⟩ := by
  simp only [NewUpstreams] at h
  cases hu : unmarshal (decodeUpstreams { All := some .nil })
      (fun v all => { v with All := all }) value with
  | error err => simp [hu] at h
  | ok ups =>
    obtain ⟨x, v0, all, hv, hd, hm, hups⟩ := unmarshal_eq_ok hu
    obtain ⟨hf, ha⟩ := decodeUpstreams_fixed hd
    rcases v0 with ⟨u, f, a⟩
    simp only at hf ha
    subst hf ha hups
    refine ⟨x, u, all, hv, hd, hm, ?_⟩
    simp only [hu, Except.ok.injEq] at h
    by_cases hn : u.Nodes = .nil <;> simp [hn] at h ⊢ <;> exact h.symm

/-! ## Suppression -/

theorem upstreamWalk_get_discovery_type (u : Upstream) (m : ValueMap)
    (h : u.DiscoveryType ≠ "") : (upstreamWalk u m).get "discovery_type" = none := by
  have e1 : ∀ (x : ValueMap) (v : Value),
      (x.set "_discovery_type" v).get "discovery_type" = x.get "discovery_type" :=
    fun x v => ValueMap.get_set_ne x v (by decide)
  have e2 : ∀ (x : ValueMap) (v : Value),
      (x.set "_service_name" v).get "discovery_type" = x.get "discovery_type" :=
    fun x v => ValueMap.get_set_ne x v (by decide)
  have e3 : ∀ x : ValueMap,
      (x.delete "discovery_args").get "discovery_type" = x.get "discovery_type" :=
    fun x => ValueMap.get_delete_ne x (by decide)
  have e4 : ∀ x : ValueMap,
      (x.delete "service_name").get "discovery_type" = x.get "discovery_type" :=
    fun x => ValueMap.get_delete_ne x (by decide)
  simp only [upstreamWalk, h, if_false]
  split_ifs <;> simp [e1, e2, e3, e4, ValueMap.get_delete_self]

theorem upstreamWalk_get_discovery_args (u : Upstream) (m : ValueMap)
    (h : u.DiscoveryArgs ≠ none) : (upstreamWalk u m).get "discovery_args" = none := by
  have e2 : ∀ (x : ValueMap) (v : Value),
      (x.set "_service_name" v).get "discovery_args" = x.get "discovery_args" :=
    fun x v => ValueMap.get_set_ne x v (by decide)
  have e4 : ∀ x : ValueMap,
      (x.delete "service_name").get "discovery_args" = x.get "discovery_args" :=
    fun x => ValueMap.get_delete_ne x (by decide)
  simp only [upstreamWalk, h, if_false]
  split_ifs <;> simp [e2, e4, ValueMap.get_delete_self]

theorem upstreamWalk_get_service_name (u : Upstream) (m : ValueMap)
    (h : u.ServiceName ≠ "") : (upstreamWalk u m).get "service_name" = none := by
  simp only [upstreamWalk, h, if_false]
  exact ValueMap.get_delete_self _ _

/-- C1. For every Upstream entity produced by `NewUpstreams` whose overlay has
a non-empty `DiscoveryType`, a non-empty `ServiceName` or a non-nil
`DiscoveryArgs`, `Upstreams.Marshal` returns a document, and this document has
no top-level key `discovery_type`, `service_name`, `discovery_args`
respectively, whatever the input held under that key. -/
theorem upstreams_marshal_suppresses (value : Bytes) (ups : Upstreams) (heap : Heap)
    (hnew : NewUpstreams value = .ok (.upstreams ups))
    (hset : ups.Upstream.DiscoveryType ≠ "" ∨ ups.Upstream.ServiceName ≠ ""
      ∨ ups.Upstream.DiscoveryArgs ≠ none) :
    ∃ out doc, ups.Marshal heap = some out ∧ out.result = .ok (some (.map doc)) ∧
      (ups.Upstream.DiscoveryType ≠ "" → doc.get "discovery_type" = none) ∧
      (ups.Upstream.ServiceName ≠ "" → doc.get "service_name" = none) ∧
      (ups.Upstream.DiscoveryArgs ≠ none → doc.get "discovery_args" = none) := by
  obtain ⟨x, u, all, -, hd, hm, he⟩ := NewUpstreams_ok hnew
  injection he with he
  subst he
  cases all with
  | none =>
    have hx := decodeMap_nil hm
    subst hx
    simp only [decodeUpstreams, Option.some.injEq, Upstreams.mk.injEq, and_true] at hd
    subst hd
    simp at hset
  | some m =>
    refine ⟨⟨⟨u, decide (u.Nodes ≠ .nil), some (upstreamWalk u m)⟩, heap,
      .ok (jsonMarshal heap (some (upstreamWalk u m)))⟩, (upstreamWalk u m).encode heap,
      ?_, rfl, ?_, ?_, ?_⟩
    · simp [Upstreams.Marshal, embedElm_upstreams]
    · intro h
      simp [ValueMap.get_encode, upstreamWalk_get_discovery_type u m h]
    · intro h
      simp [ValueMap.get_encode, upstreamWalk_get_service_name u m h]
    · intro h
      simp [ValueMap.get_encode, upstreamWalk_get_discovery_args u m h]

theorem upstreams_marshal_suppresses_witness :
    ∃ out doc, suppressEntity.Marshal [] = some out ∧ out.result = .ok (some (.map doc)) ∧
      (suppressEntity.Upstream.DiscoveryType ≠ "" → doc.get "discovery_type" = none) ∧
      (suppressEntity.Upstream.ServiceName ≠ "" → doc.get "service_name" = none) ∧
      (suppressEntity.Upstream.DiscoveryArgs ≠ none → doc.get "discovery_args" = none) :=
  upstreams_marshal_suppresses suppressInput suppressEntity [] (by decide) (by decide)

/-! ## Routes -/

theorem NewRoutes_ok {value : Bytes} {e : A6Conf} (h : NewRoutes value = .ok e) :
    ∃ x l u all, value = some x ∧
      decodeRoutes { All := some .nil } x = some ⟨l, u, some .nil, false⟩ ∧
      decodeMap x = some all ∧
      e = .routes ⟨l, propagated all l u, all, decide (u.Nodes ≠ .nil)⟩ := by
  simp only [NewRoutes] at h
  cases hu : unmarshal (decodeRoutes { All := some .nil })
      (fun v all => { v with All := all }) value with
  | error err => simp [hu] at h
  | ok routes =>
    obtain ⟨x, v0, all, hv, hd, hm, hr⟩ := unmarshal_eq_ok hu
    obtain ⟨ha, hf⟩ := decodeRoutes_fixed hd
    rcases v0 with ⟨l, u, a, f⟩
    simp only at hf ha
    subst hf ha hr
    refine ⟨x, l, u, all, hv, hd, hm, ?_⟩
    simp only [hu, Except.ok.injEq] at h
    generalize hid : all.get "id" = idv at h
    simp only [propagated, hasStringId, hid]
    cases idv with
    | none =>
      by_cases hn : u.Nodes = .nil <;> simp [hn] at h ⊢ <;> exact h.symm
    | some v =>
      cases v <;> by_cases hn : u.Nodes = .nil <;> by_cases hs : l.ServiceName = "" <;>
        simp [hn, hs] at h ⊢ <;> exact h.symm

theorem Routes.Marshal_cases {routes : Routes} {heap : Heap} {out : Marshaled Routes}
    (h : routes.Marshal heap = some out) :
    (routes.Labels.ServiceGrpcPort ≠ "" ∧ routes.Upstream.Nodes ≠ .nil ∧
      ParseInt routes.Labels.ServiceGrpcPort = none ∧
      out = ⟨routes, heap, .error (.portParse routes.Labels.ServiceGrpcPort)⟩) ∨
    ∃ nodes1 all, embedElm (routes.Inject nodes1).reflect routes.All = some all ∧
      out.self = { routes.Inject nodes1 with All := all } ∧
      out.result = .ok (jsonMarshal out.heap all) := by
  have key : ∀ (r1 : Routes) (h1 : Heap) (nodes1 : Value), r1 = routes.Inject nodes1 →
      (match embedElm r1.reflect r1.All with
        | none => none
        | some all => some (⟨{ r1 with All := all }, h1, .ok (jsonMarshal h1 all)⟩ :
            Marshaled Routes)) = some out →
      ∃ nodes1 all, embedElm (routes.Inject nodes1).reflect routes.All = some all ∧
        out.self = { routes.Inject nodes1 with All := all } ∧
        out.result = .ok (jsonMarshal out.heap all) := by
    intro r1 h1 nodes1 hr1 hm
    subst hr1
    cases he : embedElm (routes.Inject nodes1).reflect (routes.Inject nodes1).All with
    | none => simp [he] at hm
    | some all =>
      simp only [he, Option.some.injEq] at hm
      subst hm
      exact ⟨nodes1, all, he, rfl, rfl⟩
  have hself : routes = routes.Inject routes.Upstream.Nodes := rfl
  unfold Routes.Marshal at h
  dsimp only at h
  by_cases hc : routes.Labels.ServiceGrpcPort ≠ "" ∧ routes.Upstream.Nodes ≠ .nil
  · rw [if_pos hc] at h
    cases hp : ParseInt routes.Labels.ServiceGrpcPort with
    | none =>
      simp only [hp, Option.some.injEq] at h
      exact Or.inl ⟨hc.1, hc.2, rfl, h.symm⟩
    | some p =>
      right
      simp only [hp] at h
      cases hn : routes.Upstream.Nodes with
      | nodes ps =>
        simp only [hn] at h
        cases hcp : copyNodes p heap ps heap with
        | none => simp [hcp] at h
        | some r =>
          obtain ⟨qs, h1⟩ := r
          simp only [hcp] at h
          exact key _ h1 (.nodes qs) rfl h
      | _ =>
        simp only [hn] at h
        exact key routes heap _ hself h
  · rw [if_neg hc] at h
    exact Or.inr (key routes heap _ hself h)

theorem Routes.Marshal_ok {routes : Routes} {heap : Heap} {out : Marshaled Routes}
    {bytes : Bytes} (h : routes.Marshal heap = some out) (hb : out.result = .ok bytes) :
    ∃ nodes1 all, embedElm (routes.Inject nodes1).reflect routes.All = some all ∧
      out.self = { routes.Inject nodes1 with All := all } ∧
      bytes = jsonMarshal out.heap all := by
  rcases Routes.Marshal_cases h with ⟨_, _, _, ho⟩ | ⟨nodes1, all, he, hs, hr⟩
  · subst ho
    simp at hb
  · rw [hr] at hb
    exact ⟨nodes1, all, he, hs, (Except.ok.inj hb).symm⟩

theorem childWalk_get_self {walk : ValueMap → ValueMap} {key : String} {m m1 : ValueMap}
    (h : childWalk walk key m = some m1) :
    ∃ c, m1.get key = some (.map (walk c)) ∧
      (m.get key = none ∧ c = .nil ∨ m.get key = some (.map c)) := by
  unfold childWalk at h
  cases hg : m.get key with
  | none =>
    simp only [hg, Option.some.injEq] at h
    exact ⟨.nil, by rw [← h, ValueMap.get_set_self], Or.inl ⟨rfl, rfl⟩⟩
  | some v =>
    cases v with
    | map c =>
      simp only [hg, Option.some.injEq] at h
      exact ⟨c, by rw [← h, ValueMap.get_set_self], Or.inr rfl⟩
    | _ => simp [hg] at h

theorem childWalk_get_ne {walk : ValueMap → ValueMap} {key k : String} {m m1 : ValueMap}
    (h : childWalk walk key m = some m1) (hk : key ≠ k) : m1.get k = m.get k := by
  unfold childWalk at h
  cases hg : m.get key with
  | none =>
    simp only [hg, Option.some.injEq] at h
    rw [← h, ValueMap.get_set_ne _ _ hk]
  | some v =>
    cases v with
    | map c =>
      simp only [hg, Option.some.injEq] at h
      rw [← h, ValueMap.get_set_ne _ _ hk]
    | _ => simp [hg] at h

theorem childWalk_isSome (walk : ValueMap → ValueMap) (key : String) (m : ValueMap)
    (h : m.get key = none ∨ ∃ c, m.get key = some (.map c)) :
    ∃ m1, childWalk walk key m = some m1 := by
  unfold childWalk
  rcases h with h | ⟨c, h⟩ <;> simp [h]

theorem childWalk_eq_self {walk : ValueMap → ValueMap} {key : String} {m c : ValueMap}
    (hg : m.get key = some (.map c)) (hw : walk c = c) : childWalk walk key m = some m := by
  simp only [childWalk, hg, hw, ValueMap.set_eq_self m hg]

theorem A6Conf.Marshal_routes {r : Routes} {heap : Heap} {out : Marshaled A6Conf}
    (h : (A6Conf.routes r).Marshal heap = some out) :
    ∃ o, r.Marshal heap = some o ∧ out = ⟨.routes o.self, o.heap, o.result⟩ := by
  simp only [A6Conf.Marshal] at h
  cases ho : r.Marshal heap with
  | none => simp [ho] at h
  | some o =>
    simp only [ho, Option.some.injEq] at h
    exact ⟨o, rfl, h.symm⟩

theorem propagated_of_trigger {all : GoMap} {l : Labels} (u : Upstream) {id : String}
    (hid : all.get "id" = some (.string id)) (hs0 : l.ServiceName ≠ "") :
    propagated all l u =
      { u with ServiceName := l.ServiceName, DiscoveryType := l.DiscoveryType,
               DiscoveryArgs := some { NamespaceID := l.DiscoveryArgsNamespaceID,
                                       GroupName := l.DiscoveryArgsGroupName } } := by
  have hsid : hasStringId all = true := by simp [hasStringId, hid]
  simp [propagated, hsid, hs0]

theorem routes_marshal_deletes_suppressed {r : Routes} (hs : r.Upstream.ServiceName ≠ "")
    (ht : r.Upstream.DiscoveryType ≠ "") {heap : Heap} {out : Marshaled A6Conf} {doc : Value}
    (hm : (A6Conf.routes r).Marshal heap = some out) (hres : out.result = .ok (some doc)) :
    ∃ um, doc.get "upstream" = some (.map um) ∧ um.get "discovery_type" = none ∧
      um.get "service_name" = none := by
  obtain ⟨o, ho, hout⟩ := A6Conf.Marshal_routes hm
  subst hout
  obtain ⟨nodes1, all, hemb, -, hbytes⟩ := Routes.Marshal_ok ho hres
  have hu1 : (r.Inject nodes1).Upstream ≠ {} := by
    intro hz
    have := congrArg Upstream.ServiceName hz
    exact hs this
  cases hall : r.All with
  | none =>
    rw [hall, embedElm_routes_nilmap, if_neg (fun hc => hu1 hc.2)] at hemb
    cases hemb
  | some m =>
    rw [hall, embedElm_routes] at hemb
    cases hw : routesWalk (r.Inject nodes1).Labels (r.Inject nodes1).Upstream m with
    | none => simp [hw] at hemb
    | some m2 =>
      simp only [hw, Option.map_some', Option.some.injEq] at hemb
      subst hemb
      unfold routesWalk at hw
      cases hc1 : (if (r.Inject nodes1).Labels = {} then some m
          else childWalk (labelsWalk (r.Inject nodes1).Labels) "labels" m) with
      | none => simp [hc1] at hw
      | some m1 =>
        simp only [hc1, upstreamFieldWalk, if_neg hu1] at hw
        obtain ⟨c, hget, -⟩ := childWalk_get_self hw
        simp only [jsonMarshal, Option.some.injEq] at hbytes
        subst hbytes
        refine ⟨(upstreamWalk (r.Inject nodes1).Upstream c).encode o.heap, ?_, ?_, ?_⟩
        · simp [Value.get, ValueMap.get_encode, hget, Value.encode]
        · have ht1 : (r.Inject nodes1).Upstream.DiscoveryType ≠ "" := ht
          rw [ValueMap.get_encode, upstreamWalk_get_discovery_type _ _ ht1]
          rfl
        · have hs1 : (r.Inject nodes1).Upstream.ServiceName ≠ "" := hs
          rw [ValueMap.get_encode, upstreamWalk_get_service_name _ _ hs1]
          rfl

theorem routes_marshal_returns {r : Routes} {m : ValueMap} (hall : r.All = some m)
    (hl : m.get "labels" = none ∨ ∃ lm, m.get "labels" = some (.map lm))
    (hup : m.get "upstream" = none ∨ ∃ um, m.get "upstream" = some (.map um))
    (hp0 : r.Labels.ServiceGrpcPort = "") (heap : Heap) :
    ∃ out doc, (A6Conf.routes r).Marshal heap = some out ∧ out.result = .ok (some doc) := by
  rcases r with ⟨l, u, all, flag⟩
  simp only at hall hp0
  subst hall
  have h1 : ∃ m1, (if l = {} then some m else childWalk (labelsWalk l) "labels" m) = some m1 ∧
      (m1.get "upstream" = none ∨ ∃ um, m1.get "upstream" = some (.map um)) := by
    by_cases hz : l = {}
    · exact ⟨m, by rw [if_pos hz], hup⟩
    · obtain ⟨m1, hc1⟩ := childWalk_isSome (labelsWalk l) "labels" m hl
      refine ⟨m1, by rw [if_neg hz, hc1], ?_⟩
      rw [childWalk_get_ne hc1 (by decide)]
      exact hup
  obtain ⟨m1, hc1, hup1⟩ := h1
  have h2 : ∃ m2, upstreamFieldWalk u m1 = some m2 := by
    unfold upstreamFieldWalk
    by_cases hz : u = {}
    · exact ⟨m1, by rw [if_pos hz]⟩
    · rw [if_neg hz]
      exact childWalk_isSome (upstreamWalk u) "upstream" m1 hup1
  obtain ⟨m2, hc2⟩ := h2
  have hemb : embedElm (Routes.reflect ⟨l, u, some m, flag⟩) (some m) = some (some m2) := by
    rw [embedElm_routes]
    simp only [routesWalk, hc1, hc2, Option.map_some']
  have hM : Routes.Marshal ⟨l, u, some m, flag⟩ heap
      = some ⟨⟨l, u, some m2, flag⟩, heap, .ok (jsonMarshal heap (some m2))⟩ := by
    unfold Routes.Marshal
    dsimp only
    rw [if_neg (by simp [hp0])]
    dsimp only
    rw [hemb]
  exact ⟨⟨.routes ⟨l, u, some m2, flag⟩, heap, .ok (jsonMarshal heap (some m2))⟩,
    .map (m2.encode heap), by simp only [A6Conf.Marshal, hM], rfl⟩

/-- C2, as the code has it. For every Route input that `NewRoutes` accepts,
whose document has an `id` that is a string and whose labels, as
`encoding/json` decodes them into the entity, have a non-empty service name
and a non-empty discovery type: the typed overlay returned by `NewRoutes` has
that service name and that discovery type; every document that `Marshal`
returns has an `upstream` mapping without the keys `discovery_type` and
`service_name`, because `embedElm` deletes them for the struct named
`Upstream`; and `Marshal` does return a document when the entries `labels`
and `upstream` of the document are absent or mappings and the labels have no
gRPC port. -/
theorem routes_propagation_suppressed (x : Value) (r : Routes) (id : String)
    (hnew : NewRoutes (some x) = .ok (.routes r))
    (hid : r.All.get "id" = some (.string id))
    (hs0 : r.Labels.ServiceName ≠ "") (ht0 : r.Labels.DiscoveryType ≠ "") :
    (A6Conf.routes r).GetUpstream.ServiceName = r.Labels.ServiceName ∧
    (A6Conf.routes r).GetUpstream.DiscoveryType = r.Labels.DiscoveryType ∧
    (∀ heap out doc, (A6Conf.routes r).Marshal heap = some out →
      out.result = .ok (some doc) →
      ∃ um, doc.get "upstream" = some (.map um) ∧ um.get "discovery_type" = none ∧
        um.get "service_name" = none) ∧
    ((r.All.get "labels" = none ∨ ∃ lm, r.All.get "labels" = some (.map lm)) →
      (r.All.get "upstream" = none ∨ ∃ um, r.All.get "upstream" = some (.map um)) →
      r.Labels.ServiceGrpcPort = "" →
      ∀ heap, ∃ out doc, (A6Conf.routes r).Marshal heap = some out ∧
        out.result = .ok (some doc)) := by
  obtain ⟨x0, l, u, all, -, -, -, he⟩ := NewRoutes_ok hnew
  injection he with he
  subst he
  simp only at hid hs0 ht0
  have hprop := propagated_of_trigger u hid hs0
  have h1 : (propagated all l u).ServiceName = l.ServiceName := by rw [hprop]
  have h2 : (propagated all l u).DiscoveryType = l.DiscoveryType := by rw [hprop]
  refine ⟨h1, h2, fun heap out doc hm hres => ?_, fun hl hup hp0 heap => ?_⟩
  · exact routes_marshal_deletes_suppressed (by rw [h1]; exact hs0) (by rw [h2]; exact ht0)
      hm hres
  · cases all with
    | none => simp [GoMap.get] at hid
    | some m => exact routes_marshal_returns rfl hl hup hp0 heap

/-- C2 fails as stated: on the route of the spec, with `id = "r1"`,
`labels.service_name = "svc-a"` and `labels.discovery_type = "nacos"`, the
document returned by `Marshal` after `NewRoutes` has an empty `upstream`
mapping: it has neither `upstream.discovery_type` nor `upstream.service_name`. -/
theorem routes_propagation_output_counterexample :
    ∃ e out doc, NewRoutes labelledRoute = .ok e ∧ e.Marshal [] = some out ∧
      out.result = .ok (some doc) ∧
      doc.get "upstream" = some (.map .nil) ∧
      (doc.get "upstream").bind (fun up => up.get "discovery_type") ≠ some (.string "nacos") ∧
      (doc.get "upstream").bind (fun up => up.get "service_name") ≠ some (.string "svc-a") :=
  ⟨.routes labelledEntity, labelledMarshaled, .map labelledDocument, by decide, by decide,
    by decide, by decide, by decide, by decide⟩

theorem routes_propagation_suppressed_witness :
    NewRoutes labelledRoute = .ok (.routes labelledEntity) ∧
    labelledEntity.Labels.ServiceName = "svc-a" ∧
    labelledEntity.Labels.DiscoveryType = "nacos" ∧
    (A6Conf.routes labelledEntity).GetUpstream.ServiceName = labelledEntity.Labels.ServiceName ∧
    (A6Conf.routes labelledEntity).GetUpstream.DiscoveryType
      = labelledEntity.Labels.DiscoveryType ∧
    (∀ heap out doc, (A6Conf.routes labelledEntity).Marshal heap = some out →
      out.result = .ok (some doc) →
      ∃ um, doc.get "upstream" = some (.map um) ∧ um.get "discovery_type" = none ∧
        um.get "service_name" = none) ∧
    ((labelledEntity.All.get "labels" = none ∨
        ∃ lm, labelledEntity.All.get "labels" = some (.map lm)) →
      (labelledEntity.All.get "upstream" = none ∨
        ∃ um, labelledEntity.All.get "upstream" = some (.map um)) →
      labelledEntity.Labels.ServiceGrpcPort = "" →
      ∀ heap, ∃ out doc, (A6Conf.routes labelledEntity).Marshal heap = some out ∧
        out.result = .ok (some doc)) :=
  ⟨by decide, by decide, by decide,
    routes_propagation_suppressed (.map labelledMap) labelledEntity "r1" (by decide)
      (by decide) (by decide) (by decide)⟩

/-! ## Label propagation on the overlay -/

/-- C3, as the code has it. For every Route input that `NewRoutes` accepts,
whose document has an `id` that is a string and whose labels, as
`encoding/json` decodes them into the entity, have a non-empty service name:
the labels of the entity are the labels decoded from the input, and the entity
has `GetUpstream().ServiceName` equal to the service name of the labels,
`GetUpstream().DiscoveryType` equal to their discovery type, and a non-nil
`GetUpstream().DiscoveryArgs` whose `NamespaceID` and `GroupName` are the
`discovery_args.namespace_id` and `discovery_args.group_name` of the labels
and whose `Metadata` is nil. -/
theorem propagation_on_string_id (x : Value) (r : Routes) (id : String)
    (hnew : NewRoutes (some x) = .ok (.routes r))
    (hid : r.All.get "id" = some (.string id)) (hs0 : r.Labels.ServiceName ≠ "") :
    (∃ r0, decodeRoutes { All := some .nil } x = some r0 ∧ r.Labels = r0.Labels) ∧
    (A6Conf.routes r).GetUpstream.ServiceName = r.Labels.ServiceName ∧
    (A6Conf.routes r).GetUpstream.DiscoveryType = r.Labels.DiscoveryType ∧
    (A6Conf.routes r).GetUpstream.DiscoveryArgs
      = some { NamespaceID := r.Labels.DiscoveryArgsNamespaceID,
               GroupName := r.Labels.DiscoveryArgsGroupName,
               Metadata := none } := by
  obtain ⟨x0, l, u, all, hv, hd, -, he⟩ := NewRoutes_ok hnew
  simp only [Option.some.injEq] at hv
  subst hv
  injection he with he
  subst he
  simp only at hid hs0
  have hprop := propagated_of_trigger u hid hs0
  refine ⟨⟨_, hd, rfl⟩, ?_, ?_, ?_⟩ <;>
    simp only [A6Conf.GetUpstream, Routes.GetUpstream, hprop]

theorem propagation_on_string_id_witness :
    NewRoutes labelledRoute = .ok (.routes labelledEntity) ∧
    labelledEntity.Labels.ServiceName = "svc-a" ∧
    (∃ r0, decodeRoutes { All := some .nil } (.map labelledMap) = some r0 ∧
      labelledEntity.Labels = r0.Labels) ∧
    (A6Conf.routes labelledEntity).GetUpstream.ServiceName = labelledEntity.Labels.ServiceName ∧
    (A6Conf.routes labelledEntity).GetUpstream.DiscoveryType
      = labelledEntity.Labels.DiscoveryType ∧
    (A6Conf.routes labelledEntity).GetUpstream.DiscoveryArgs
      = some { NamespaceID := labelledEntity.Labels.DiscoveryArgsNamespaceID,
               GroupName := labelledEntity.Labels.DiscoveryArgsGroupName,
               Metadata := none } :=
  ⟨by decide, by decide,
    propagation_on_string_id (.map labelledMap) labelledEntity "r1" (by decide) (by decide)
      (by decide)⟩

/-- C3 fails as stated: the route `{"id": 1, "labels": {"service_name":
"svc-a"}}` decodes, its document has the key `id` and its
`labels.service_name` is non-empty, but the entity returned by `NewRoutes` has
an empty `GetUpstream().ServiceName` and a nil `GetUpstream().DiscoveryArgs`. -/
theorem propagation_numeric_id_counterexample :
    ∃ e, NewRoutes numericIdRoute = .ok e ∧ e.GetAll.get "id" = some (.number 1) ∧
      (e.GetAll.get "labels").bind (fun l => l.get "service_name")
        = some (.string "svc-a") ∧
      e.GetUpstream.ServiceName = "" ∧ e.GetUpstream.ServiceName ≠ "svc-a" ∧
      e.GetUpstream.DiscoveryArgs = none :=
  ⟨.routes numericIdEntity, by decide, by decide, by decide, by decide, by decide, by decide⟩

/-! ## Unknown keys -/

theorem labels_tags (l : Labels) : l.reflect.tags = labelsKeys := by
  simp only [Labels.reflect, RFields.tags]
  decide

theorem upstream_tags (u : Upstream) : u.reflect.tags = upstreamKeys := by
  simp only [Upstream.reflect, RFields.tags]
  decide

theorem labelsWalk_get_ne (l : Labels) (m : ValueMap) {k : String} (hk : k ∉ labelsKeys) :
    (labelsWalk l m).get k = m.get k := by
  simp only [labelsKeys, List.mem_cons, List.mem_singleton, not_or, List.not_mem_nil,
    or_false] at hk
  obtain ⟨h1, h2, h3, h4, h5⟩ := hk
  simp only [labelsWalk]
  split_ifs <;>
    simp [ValueMap.get_set_ne _ _ (Ne.symm h1), ValueMap.get_set_ne _ _ (Ne.symm h2),
      ValueMap.get_set_ne _ _ (Ne.symm h3), ValueMap.get_set_ne _ _ (Ne.symm h4),
      ValueMap.get_set_ne _ _ (Ne.symm h5)]

theorem upstreamWalk_get_ne (u : Upstream) (m : ValueMap) {k : String}
    (hk : k ∉ upstreamKeys) : (upstreamWalk u m).get k = m.get k := by
  simp only [upstreamKeys, List.mem_cons, List.mem_singleton, not_or, List.not_mem_nil,
    or_false] at hk
  obtain ⟨h1, h2, h3, h4, h5, h6⟩ := hk
  simp only [upstreamWalk]
  split_ifs <;>
    simp [ValueMap.get_set_ne _ _ (Ne.symm h1), ValueMap.get_delete_ne _ (Ne.symm h2),
      ValueMap.get_set_ne _ _ (Ne.symm h3), ValueMap.get_delete_ne _ (Ne.symm h4),
      ValueMap.get_set_ne _ _ (Ne.symm h5), ValueMap.get_delete_ne _ (Ne.symm h6)]

theorem childWalk_frame {walk : ValueMap → ValueMap} {key k : String} {m m1 : ValueMap}
    (h : childWalk walk key m = some m1) (hw : ∀ c, (walk c).get k = c.get k) :
    (m1.get key).bind (fun c => c.get k) = (m.get key).bind (fun c => c.get k) := by
  obtain ⟨c, hget, hc⟩ := childWalk_get_self h
  rcases hc with ⟨h0, hnil⟩ | h0
  · subst hnil
    simp [hget, h0, Value.get, hw, ValueMap.get]
  · simp [hget, h0, Value.get, hw]

theorem upstreamFieldWalk_frame {u : Upstream} {m m1 : ValueMap} (k : String)
    (h : upstreamFieldWalk u m = some m1) :
    (k ≠ "upstream" → m1.get k = m.get k) ∧
    (k ∉ upstreamKeys →
      (m1.get "upstream").bind (fun c => c.get k) = (m.get "upstream").bind (fun c => c.get k)) := by
  unfold upstreamFieldWalk at h
  by_cases hz : u = {}
  · simp only [hz, if_true, Option.some.injEq] at h
    subst h
    exact ⟨fun _ => rfl, fun _ => rfl⟩
  · rw [if_neg hz] at h
    exact ⟨fun hk => childWalk_get_ne h (Ne.symm hk),
      fun hk => childWalk_frame h (fun c => upstreamWalk_get_ne u c hk)⟩

theorem routesWalk_frame {l : Labels} {u : Upstream} {m m2 : ValueMap} (k : String)
    (h : routesWalk l u m = some m2) :
    (k ≠ "labels" → k ≠ "upstream" → m2.get k = m.get k) ∧
    (k ∉ labelsKeys →
      (m2.get "labels").bind (fun c => c.get k) = (m.get "labels").bind (fun c => c.get k)) ∧
    (k ∉ upstreamKeys →
      (m2.get "upstream").bind (fun c => c.get k)
        = (m.get "upstream").bind (fun c => c.get k)) := by
  unfold routesWalk at h
  by_cases hz : l = {}
  · simp only [hz, if_true] at h
    have hf := fun k => upstreamFieldWalk_frame k h
    refine ⟨fun _ h2 => (hf k).1 h2, fun _ => ?_, (hf k).2⟩
    rw [(hf "labels").1 (by decide)]
  · simp only [hz, if_false] at h
    cases hc : childWalk (labelsWalk l) "labels" m with
    | none => simp [hc] at h
    | some m1 =>
      simp only [hc] at h
      have hf := fun k => upstreamFieldWalk_frame k h
      refine ⟨fun h1 h2 => ?_, fun hk => ?_, fun hk => ?_⟩
      · rw [(hf k).1 h2, childWalk_get_ne hc (Ne.symm h1)]
      · rw [(hf "labels").1 (by decide)]
        exact childWalk_frame hc (fun c => labelsWalk_get_ne l c hk)
      · rw [(hf k).2 hk, childWalk_get_ne hc (by decide)]

theorem embedElm_routes_frame {r : Routes} {all all1 : GoMap} (k : String)
    (h : embedElm r.reflect all = some all1) :
    (k ≠ "labels" → k ≠ "upstream" → all1.get k = all.get k) ∧
    (k ∉ labelsKeys →
      (all1.get "labels").bind (fun c => c.get k)
        = (all.get "labels").bind (fun c => c.get k)) ∧
    (k ∉ upstreamKeys →
      (all1.get "upstream").bind (fun c => c.get k)
        = (all.get "upstream").bind (fun c => c.get k)) := by
  cases all with
  | none =>
    rw [embedElm_routes_nilmap] at h
    split_ifs at h
    simp only [Option.some.injEq] at h
    subst h
    exact ⟨fun _ _ => rfl, fun _ => rfl, fun _ => rfl⟩
  | some m =>
    rw [embedElm_routes] at h
    cases hw : routesWalk r.Labels r.Upstream m with
    | none => simp [hw] at h
    | some m2 =>
      simp only [hw, Option.map_some', Option.some.injEq] at h
      subst h
      exact routesWalk_frame k hw

theorem embedElm_services_frame {s : Services} {all all1 : GoMap} (k : String)
    (h : embedElm s.reflect all = some all1) :
    (k ≠ "upstream" → all1.get k = all.get k) ∧
    (k ∉ upstreamKeys →
      (all1.get "upstream").bind (fun c => c.get k)
        = (all.get "upstream").bind (fun c => c.get k)) := by
  cases all with
  | none =>
    rw [embedElm_services_nilmap] at h
    split_ifs at h
    simp only [Option.some.injEq] at h
    subst h
    exact ⟨fun _ => rfl, fun _ => rfl⟩
  | some m =>
    rw [embedElm_services] at h
    cases hw : upstreamFieldWalk s.Upstream m with
    | none => simp [hw] at h
    | some m2 =>
      simp only [hw, Option.map_some', Option.some.injEq] at h
      subst h
      exact upstreamFieldWalk_frame k hw

theorem embedElm_upstreams_frame {ups : Upstreams} {all all1 : GoMap} {k : String}
    (h : embedElm ups.reflect all = some all1) (hk : k ∉ upstreamKeys) :
    all1.get k = all.get k := by
  cases all with
  | none =>
    rw [embedElm_upstreams_nilmap] at h
    split_ifs at h
    simp only [Option.some.injEq] at h
    subst h
    rfl
  | some m =>
    rw [embedElm_upstreams] at h
    simp only [Option.some.injEq] at h
    subst h
    exact upstreamWalk_get_ne _ _ hk

/-- C4. For every entity of every kind and every document, a call of
`Marshal` that returns leaves unchanged the value of every key that is not the
serialized name of a field of the overlay at that level: the top-level keys
other than `labels` and `upstream` for a Route, other than `upstream` for a
Service, other than the `Upstream` field names for an Upstream, and every key
inside the `labels` and `upstream` child mappings that is not a field name of
`Labels` and of `Upstream` respectively. -/
theorem marshal_preserves_unknown_keys (e : A6Conf) (heap : Heap) (out : Marshaled A6Conf)
    (k : String) (h : e.Marshal heap = some out) :
    (k ∉ e.fieldKeys → out.self.GetAll.get k = e.GetAll.get k) ∧
    (k ∉ labelsKeys →
      (out.self.GetAll.get "labels").bind (fun c => c.get k)
        = (e.GetAll.get "labels").bind (fun c => c.get k)) ∧
    (k ∉ upstreamKeys →
      (out.self.GetAll.get "upstream").bind (fun c => c.get k)
        = (e.GetAll.get "upstream").bind (fun c => c.get k)) := by
  cases e with
  | routes r =>
    obtain ⟨o, ho, hout⟩ := A6Conf.Marshal_routes h
    subst hout
    simp only [A6Conf.GetAll, Routes.GetAll, A6Conf.fieldKeys, List.mem_cons,
      List.mem_singleton, List.not_mem_nil, or_false, not_or]
    rcases Routes.Marshal_cases ho with ⟨_, _, _, hs⟩ | ⟨nodes1, all, he, hs, _⟩
    · subst hs
      exact ⟨fun _ => rfl, fun _ => rfl, fun _ => rfl⟩
    · rw [hs]
      have hf := embedElm_routes_frame k he
      exact ⟨fun hk => hf.1 hk.1 hk.2, hf.2.1, hf.2.2⟩
  | services s =>
    simp only [A6Conf.Marshal, Services.Marshal] at h
    cases he : embedElm s.reflect s.All with
    | none => simp [he] at h
    | some all =>
      simp only [he, Option.some.injEq] at h
      subst h
      simp only [A6Conf.GetAll, Services.GetAll, A6Conf.fieldKeys, List.mem_singleton]
      have hf := fun k => embedElm_services_frame k he
      refine ⟨(hf k).1, fun _ => ?_, (hf k).2⟩
      rw [(hf "labels").1 (by decide)]
  | upstreams u =>
    simp only [A6Conf.Marshal, Upstreams.Marshal] at h
    cases he : embedElm u.reflect u.All with
    | none => simp [he] at h
    | some all =>
      simp only [he, Option.some.injEq] at h
      subst h
      simp only [A6Conf.GetAll, Upstreams.GetAll, A6Conf.fieldKeys]
      refine ⟨fun hk => embedElm_upstreams_frame he hk, fun _ => ?_, fun _ => ?_⟩
      · rw [embedElm_upstreams_frame he (k := "labels") (by decide)]
      · rw [embedElm_upstreams_frame he (k := "upstream") (by decide)]

theorem marshal_preserves_unknown_keys_witness :
    ("id" ∉ (A6Conf.routes labelledEntity).fieldKeys →
      labelledMarshaled.self.GetAll.get "id" = (A6Conf.routes labelledEntity).GetAll.get "id") ∧
    ("id" ∉ labelsKeys →
      (labelledMarshaled.self.GetAll.get "labels").bind (fun c => c.get "id")
        = ((A6Conf.routes labelledEntity).GetAll.get "labels").bind (fun c => c.get "id")) ∧
    ("id" ∉ upstreamKeys →
      (labelledMarshaled.self.GetAll.get "upstream").bind (fun c => c.get "id")
        = ((A6Conf.routes labelledEntity).GetAll.get "upstream").bind
            (fun c => c.get "id")) :=
  marshal_preserves_unknown_keys (.routes labelledEntity) [] labelledMarshaled "id"
    (by decide)

/-! ## The port override -/

/-- C6. For every Route whose `labels.service_grpc_port` is non-empty and is
not a valid base-10 integer and whose node field holds a concrete node list,
`Routes.Marshal` returns an error and no bytes, and leaves the receiver (the
document `All` and the typed overlay with its node list) and the heap as they
were before the call. -/
theorem marshal_port_parse_failure (routes : Routes) (heap : Heap) (ps : List Nat)
    (hport : routes.Labels.ServiceGrpcPort ≠ "")
    (hparse : ParseInt routes.Labels.ServiceGrpcPort = none)
    (hnodes : routes.Upstream.Nodes = .nodes ps) :
    routes.Marshal heap
      = some ⟨routes, heap, .error (.portParse routes.Labels.ServiceGrpcPort)⟩ := by
  unfold Routes.Marshal
  dsimp only
  rw [if_pos ⟨hport, by simp [hnodes]⟩, hparse]

theorem marshal_port_parse_failure_witness :
    badPortRoute.Marshal oneNodeHeap
      = some ⟨badPortRoute, oneNodeHeap, .error (.portParse badPortRoute.Labels.ServiceGrpcPort)⟩ :=
  marshal_port_parse_failure badPortRoute oneNodeHeap [0] (by decide) (by decide) (by decide)

theorem marshal_pass_through_cases (routes : Routes) (heap : Heap)
    (hpass : ∀ ps, routes.Upstream.Nodes ≠ .nodes ps) :
    ((routes.Upstream.Nodes = .nil ∨ routes.Labels.ServiceGrpcPort = "" ∨
        (ParseInt routes.Labels.ServiceGrpcPort).isSome = true) →
      routes.Marshal heap = (embedElm routes.reflect routes.All).map
        (fun all => ⟨{ routes with All := all }, heap, .ok (jsonMarshal heap all)⟩)) ∧
    (routes.Upstream.Nodes ≠ .nil → routes.Labels.ServiceGrpcPort ≠ "" →
      ParseInt routes.Labels.ServiceGrpcPort = none →
      routes.Marshal heap
        = some ⟨routes, heap, .error (.portParse routes.Labels.ServiceGrpcPort)⟩) := by
  have hrec : (match embedElm routes.reflect routes.All with
      | none => none
      | some all => some (⟨{ routes with All := all }, heap, .ok (jsonMarshal heap all)⟩ :
          Marshaled Routes)) = (embedElm routes.reflect routes.All).map
        (fun all => ⟨{ routes with All := all }, heap, .ok (jsonMarshal heap all)⟩) := by
    cases embedElm routes.reflect routes.All <;> rfl
  constructor
  · intro h
    unfold Routes.Marshal
    dsimp only
    by_cases hc : routes.Labels.ServiceGrpcPort ≠ "" ∧ routes.Upstream.Nodes ≠ .nil
    · rw [if_pos hc]
      cases hp : ParseInt routes.Labels.ServiceGrpcPort with
      | none =>
        rcases h with h | h | h
        · exact absurd h hc.2
        · exact absurd h hc.1
        · simp [hp] at h
      | some p =>
        dsimp only
        cases hn : routes.Upstream.Nodes with
        | nodes ps => exact absurd hn (hpass ps)
        | _ => exact hrec
    · rw [if_neg hc]
      exact hrec
  · intro h1 h2 h3
    unfold Routes.Marshal
    dsimp only
    rw [if_pos ⟨h2, h1⟩, h3]

/-- C7, as the code has it. For every Route whose node field does not hold a
concrete node list: when the node field is nil, or the port label is empty, or
the port label parses as an integer, `Routes.Marshal` does exactly what the
reconciliation alone does (it panics when `embedElm` panics, and otherwise
returns the serialization of the reconciled document, with the overlay and
the heap unchanged); when the node field is a non-nil pass-through value and
the port label is non-empty and does not parse, `Routes.Marshal` returns the
port error and leaves the receiver unchanged. -/
theorem marshal_pass_through_nodes (routes : Routes) (heap : Heap)
    (hpass : ∀ ps, routes.Upstream.Nodes ≠ .nodes ps) :
    ((routes.Upstream.Nodes = .nil ∨ routes.Labels.ServiceGrpcPort = "" ∨
        (ParseInt routes.Labels.ServiceGrpcPort).isSome = true) →
      routes.Marshal heap = (embedElm routes.reflect routes.All).map
        (fun all => ⟨{ routes with All := all }, heap, .ok (jsonMarshal heap all)⟩)) ∧
    (routes.Upstream.Nodes ≠ .nil → routes.Labels.ServiceGrpcPort ≠ "" →
      ParseInt routes.Labels.ServiceGrpcPort = none →
      routes.Marshal heap
        = some ⟨routes, heap, .error (.portParse routes.Labels.ServiceGrpcPort)⟩) :=
  marshal_pass_through_cases routes heap hpass

theorem marshal_pass_through_nodes_witness :
    NewRoutes passThroughRoute = .ok (.routes passThroughEntity) ∧
    passThroughEntity.Upstream.Nodes = passThroughNodes ∧
    passThroughEntity.Labels.ServiceGrpcPort = "9000" ∧
    passThroughEntity.Marshal []
      = (embedElm passThroughEntity.reflect passThroughEntity.All).map
        (fun all => ⟨{ passThroughEntity with All := all }, [], .ok (jsonMarshal [] all)⟩) ∧
    passThroughEntity.Marshal [] = some ⟨passThroughEntity, [], .ok passThroughRoute⟩ ∧
    badPortPassThroughEntity.Marshal []
      = some ⟨badPortPassThroughEntity, [],
        .error (.portParse badPortPassThroughEntity.Labels.ServiceGrpcPort)⟩ :=
  ⟨by decide, by decide, by decide,
    (marshal_pass_through_nodes passThroughEntity []
      (by simp [passThroughEntity, passThroughNodes])).1 (Or.inr (Or.inr (by decide))),
    by decide,
    (marshal_pass_through_nodes badPortPassThroughEntity []
      (by simp [badPortPassThroughEntity])).2 (by decide) (by decide) (by decide)⟩

/-- C7 fails as stated: for the route `{"labels": {"service_grpc_port":
"abc"}, "upstream": {"nodes": []}}` the node field holds the list decoded from
the input, which is not a concrete node list, and `Marshal` fails with the
port error instead of producing the reconciled document. -/
theorem marshal_pass_through_bad_port_counterexample :
    NewRoutes badPortPassThrough = .ok (.routes badPortPassThroughEntity) ∧
    badPortPassThroughEntity.Upstream.Nodes = .list .nil ∧
    badPortPassThroughEntity.Marshal []
      = some ⟨badPortPassThroughEntity, [], .error (.portParse "abc")⟩ ∧
    (embedElm badPortPassThroughEntity.reflect badPortPassThroughEntity.All).isSome = true :=
  ⟨by decide, by decide, by decide, by decide⟩

/-! ## Inject -/

/-- C9. For every entity of each kind and every value `n`, after `Inject(n)`
the node field of `GetUpstream()` is `n`, every other field of the upstream
overlay is unchanged, the labels of a Route are unchanged, and the document
`All` and the flag `hasNodesAttr` are unchanged. -/
theorem inject_pure_setter (e : A6Conf) (n : Value) :
    (e.Inject n).GetUpstream = { e.GetUpstream with Nodes := n } ∧
    (e.Inject n).GetAll = e.GetAll ∧
    (e.Inject n).HasNodesAttr = e.HasNodesAttr ∧
    (∀ r, e = .routes r → ∃ r1, e.Inject n = .routes r1 ∧ r1.Labels = r.Labels) ∧
    (∀ u, e = .upstreams u → ∃ u1, e.Inject n = .upstreams u1) ∧
    (∀ s, e = .services s → ∃ s1, e.Inject n = .services s1) := by
  cases e with
  | routes r =>
    refine ⟨rfl, rfl, rfl, ?_, ?_, ?_⟩
    · intro r0 h
      injection h with h
      subst h
      exact ⟨_, rfl, rfl⟩
    · intro u h
      cases h
    · intro s h
      cases h
  | upstreams u =>
    refine ⟨rfl, rfl, rfl, ?_, ?_, ?_⟩
    · intro r h
      cases h
    · intro u0 _
      exact ⟨_, rfl⟩
    · intro s h
      cases h
  | services s =>
    refine ⟨rfl, rfl, rfl, ?_, ?_, ?_⟩
    · intro r h
      cases h
    · intro u h
      cases h
    · intro s0 _
      exact ⟨_, rfl⟩

/-! ## The flag `hasNodesAttr` -/

theorem NewServices_ok {value : Bytes} {e : A6Conf} (h : NewServices value = .ok e) :
    ∃ x u all, value = some x ∧
      decodeServices { All := some .nil } x = some ⟨u, some .nil, false⟩ ∧
      decodeMap x = some all ∧
      e = .services ⟨u, all, decide (u.Nodes ≠ .nil)⟩ := by
  simp only [NewServices] at h
  cases hu : unmarshal (decodeServices { All := some .nil })
      (fun v all => { v with All := all }) value with
  | error err => simp [hu] at h
  | ok services =>
    obtain ⟨x, v0, all, hv, hd, hm, hs⟩ := unmarshal_eq_ok hu
    obtain ⟨ha, hf⟩ := decodeServices_fixed hd
    rcases v0 with ⟨u, a, f⟩
    simp only at hf ha
    subst hf ha hs
    refine ⟨x, u, all, hv, hd, hm, ?_⟩
    simp only [hu, Except.ok.injEq] at h
    by_cases hn : u.Nodes = .nil <;> simp [hn] at h ⊢ <;> exact h.symm

theorem keyMatches_labels_upstream {k : String} (h : keyMatches k "labels" = true) :
    keyMatches k "upstream" = false := by
  simp only [keyMatches, decide_eq_true_eq, decide_eq_false_iff_not] at h ⊢
  rw [h]
  decide

theorem Value.toInterface_nil {v w : Value} (h : v.toInterface = some w) :
    w = .nil ↔ v = .nil := by
  cases v with
  | nil =>
    simp only [Value.toInterface, Option.some.injEq] at h
    simp [← h]
  | bool b =>
    simp only [Value.toInterface, Option.some.injEq] at h
    simp [← h]
  | string s =>
    simp only [Value.toInterface, Option.some.injEq] at h
    simp [← h]
  | number n =>
    simp only [Value.toInterface] at h
    cases hc : convertNumber n with
    | none => simp [hc] at h
    | some f =>
      simp only [hc, Option.some.injEq] at h
      simp [← h]
  | list xs =>
    simp only [Value.toInterface] at h
    cases hc : xs.toInterface with
    | none => simp [hc] at h
    | some ys =>
      simp only [hc, Option.some.injEq] at h
      simp [← h]
  | map m =>
    simp only [Value.toInterface] at h
    cases hc : m.toInterface .nil with
    | none => simp [hc] at h
    | some d =>
      simp only [hc, Option.some.injEq] at h
      simp [← h]
  | nodes ps => simp [Value.toInterface] at h

theorem Upstream.storeField_nodes {u u1 : Upstream} {k : String} {v : Value}
    (h : u.storeField k v = some u1) :
    (keyMatches k "nodes" = true → v.toInterface = some u1.Nodes) ∧
    (keyMatches k "nodes" = false → u1.Nodes = u.Nodes) := by
  simp only [Upstream.storeField] at h
  split_ifs at h with h1 h2 h3 h4 h5 h6
  · simp only [Option.map_eq_some'] at h
    obtain ⟨n, hn, rfl⟩ := h
    exact ⟨fun _ => hn, fun hc => by simp [h1] at hc⟩
  all_goals
    first
    | (simp only [Option.map_eq_some'] at h
       obtain ⟨n, -, rfl⟩ := h
       exact ⟨fun hc => absurd hc h1, fun _ => rfl⟩)
    | (simp only [Option.some.injEq] at h
       subst h
       exact ⟨fun hc => absurd hc h1, fun _ => rfl⟩)

theorem decodeObject_nodes (m : ValueMap) : ∀ u u1 : Upstream,
    decodeObject Upstream.storeField m u = some u1 →
    match m.lastEntry "nodes" with
    | some v => v.toInterface = some u1.Nodes
    | none => u1.Nodes = u.Nodes := by
  induction m using ValueMap.induct with
  | nil =>
    intro u u1 h
    simp only [decodeObject, Option.some.injEq] at h
    simp [ValueMap.lastEntry, h]
  | cons k v rest ih =>
    intro u u1 h
    simp only [decodeObject] at h
    cases hs : Upstream.storeField u k v with
    | none => simp [hs] at h
    | some u2 =>
      simp only [hs] at h
      have hrest := ih u2 u1 h
      obtain ⟨hyes, hno⟩ := Upstream.storeField_nodes hs
      simp only [ValueMap.lastEntry]
      cases hl : rest.lastEntry "nodes" with
      | some w =>
        simp only [hl] at hrest ⊢
        exact hrest
      | none =>
        simp only [hl] at hrest ⊢
        by_cases hk : keyMatches k "nodes" = true
        · simp only [hk, if_true]
          rw [hrest]
          exact hyes hk
        · simp only [hk, Bool.false_eq_true, if_false]
          rw [hrest]
          exact hno (by simpa using hk)

theorem decodeObject_append {α : Type} (store : α → String → Value → Option α)
    (m m2 : ValueMap) : ∀ a : α,
    decodeObject store (m.append m2) a = (decodeObject store m a).bind (decodeObject store m2) := by
  induction m using ValueMap.induct with
  | nil =>
    intro a
    simp [ValueMap.append, decodeObject]
  | cons k v rest ih =>
    intro a
    simp only [ValueMap.append, decodeObject]
    cases store a k v with
    | none => rfl
    | some a1 => exact ih a1

theorem decodeObject_upstreams (m : ValueMap) : ∀ ups ups1 : Upstreams,
    decodeObject Upstreams.storeField m ups = some ups1 →
    decodeObject Upstream.storeField m ups.Upstream = some ups1.Upstream := by
  induction m using ValueMap.induct with
  | nil =>
    intro ups ups1 h
    simp only [decodeObject, Option.some.injEq] at h ⊢
    rw [h]
  | cons k v rest ih =>
    intro ups ups1 h
    simp only [decodeObject] at h ⊢
    cases hs : Upstreams.storeField ups k v with
    | none => simp [hs] at h
    | some ups2 =>
      simp only [hs] at h
      simp only [Upstreams.storeField, Option.map_eq_some'] at hs
      obtain ⟨u2, hu2, rfl⟩ := hs
      simp only [hu2]
      exact ih _ ups1 h

theorem storeUpstream_blocks {u u2 : Upstream} {v : Value} (rest : ValueMap)
    (h : storeUpstream u v = some u2) :
    decodeObject Upstream.storeField (v.entries.append rest) u
      = decodeObject Upstream.storeField rest u2 := by
  cases v with
  | nil =>
    simp only [storeUpstream, Option.some.injEq] at h
    subst h
    rfl
  | map b =>
    simp only [storeUpstream] at h
    simp only [Value.entries, decodeObject_append, h, Option.some_bind]
  | _ => simp [storeUpstream] at h

theorem decodeObject_routes_upstream (m : ValueMap) : ∀ r r1 : Routes,
    decodeObject Routes.storeField m r = some r1 →
    decodeObject Upstream.storeField (m.blocks "upstream") r.Upstream = some r1.Upstream := by
  induction m using ValueMap.induct with
  | nil =>
    intro r r1 h
    simp only [decodeObject, Option.some.injEq] at h
    simp [ValueMap.blocks, decodeObject, h]
  | cons k v rest ih =>
    intro r r1 h
    simp only [decodeObject] at h
    cases hs : Routes.storeField r k v with
    | none => simp [hs] at h
    | some r2 =>
      simp only [hs] at h
      have hrest := ih r2 r1 h
      simp only [Routes.storeField] at hs
      simp only [ValueMap.blocks]
      split_ifs at hs with h1 h2
      · simp only [Option.map_eq_some'] at hs
        obtain ⟨l, -, rfl⟩ := hs
        rw [keyMatches_labels_upstream h1]
        exact hrest
      · simp only [Option.map_eq_some'] at hs
        obtain ⟨u2, hu2, rfl⟩ := hs
        rw [if_pos h2, storeUpstream_blocks _ hu2]
        exact hrest
      · simp only [Option.some.injEq] at hs
        subst hs
        rw [if_neg h2]
        exact hrest

theorem decodeObject_services_upstream (m : ValueMap) : ∀ s s1 : Services,
    decodeObject Services.storeField m s = some s1 →
    decodeObject Upstream.storeField (m.blocks "upstream") s.Upstream = some s1.Upstream := by
  induction m using ValueMap.induct with
  | nil =>
    intro s s1 h
    simp only [decodeObject, Option.some.injEq] at h
    simp [ValueMap.blocks, decodeObject, h]
  | cons k v rest ih =>
    intro s s1 h
    simp only [decodeObject] at h
    cases hs : Services.storeField s k v with
    | none => simp [hs] at h
    | some s2 =>
      simp only [hs] at h
      have hrest := ih s2 s1 h
      simp only [Services.storeField] at hs
      simp only [ValueMap.blocks]
      split_ifs at hs with h2
      · simp only [Option.map_eq_some'] at hs
        obtain ⟨u2, hu2, rfl⟩ := hs
        rw [if_pos h2, storeUpstream_blocks _ hu2]
        exact hrest
      · simp only [Option.some.injEq] at hs
        subst hs
        rw [if_neg h2]
        exact hrest

theorem nodes_flag {m : ValueMap} {u : Upstream}
    (h : decodeObject Upstream.storeField m {} = some u) :
    ((m.lastEntry "nodes" = none ∨ m.lastEntry "nodes" = some .nil) →
      decide (u.Nodes ≠ .nil) = false) ∧
    (∀ xs, m.lastEntry "nodes" = some (.list xs) → decide (u.Nodes ≠ .nil) = true) := by
  have hn := decodeObject_nodes m {} u h
  refine ⟨fun h0 => ?_, fun xs hx => ?_⟩
  · rcases h0 with h0 | h0
    · simp only [h0] at hn
      simp [hn]
    · simp only [h0] at hn
      have := (Value.toInterface_nil hn).2 rfl
      simp [this]
  · simp only [hx] at hn
    have hne : u.Nodes ≠ .nil := fun hc => by
      have := (Value.toInterface_nil hn).1 hc
      cases this
    simp [hne]

theorem decodeUpstreams_entries {x : Value} {ups : Upstreams}
    (h : decodeUpstreams { All := some .nil } x = some ups) :
    decodeObject Upstream.storeField x.entries {} = some ups.Upstream := by
  cases x with
  | nil =>
    simp only [decodeUpstreams, Option.some.injEq] at h
    subst h
    rfl
  | map m => exact decodeObject_upstreams m _ _ h
  | _ => simp [decodeUpstreams] at h

theorem decodeRoutes_entries {x : Value} {r : Routes}
    (h : decodeRoutes { All := some .nil } x = some r) :
    decodeObject Upstream.storeField (x.entries.blocks "upstream") {} = some r.Upstream := by
  cases x with
  | nil =>
    simp only [decodeRoutes, Option.some.injEq] at h
    subst h
    rfl
  | map m => exact decodeObject_routes_upstream m _ _ h
  | _ => simp [decodeRoutes] at h

theorem decodeServices_entries {x : Value} {s : Services}
    (h : decodeServices { All := some .nil } x = some s) :
    decodeObject Upstream.storeField (x.entries.blocks "upstream") {} = some s.Upstream := by
  cases x with
  | nil =>
    simp only [decodeServices, Option.some.injEq] at h
    subst h
    rfl
  | map m => exact decodeObject_services_upstream m _ _ h
  | _ => simp [decodeServices] at h

theorem Value.get_map (m : ValueMap) (k : String) : (Value.map m).get k = m.get k := rfl

theorem propagated_nodes (all : GoMap) (l : Labels) (u : Upstream) :
    (propagated all l u).Nodes = u.Nodes := by
  unfold propagated
  split_ifs <;> rfl

theorem A6Conf.hasNodesAttr_inject (e : A6Conf) (n : Value) :
    (e.Inject n).HasNodesAttr = e.HasNodesAttr := by
  cases e <;> rfl

theorem A6Conf.hasNodesAttr_injects (injected : List Value) (e : A6Conf) :
    (injected.foldl A6Conf.Inject e).HasNodesAttr = e.HasNodesAttr := by
  induction injected generalizing e with
  | nil => rfl
  | cons n rest ih => rw [List.foldl_cons, ih, A6Conf.hasNodesAttr_inject]

/-- C8. For each of `NewUpstreams`, `NewRoutes` and `NewServices`,
`HasNodesAttr()` is false when the `nodes` field of the input (of its
`upstream` for a Route and a Service) is absent or null, and true when it is a
list, empty or not; and after every sequence of `Inject` calls, with any
values, `HasNodesAttr()` returns what it returned right after parsing.  The
`nodes` field of an object is the value of the last entry whose key selects
the field `nodes`, keys being compared as `encoding/json` compares them; for a
Route and a Service the entries are those of every object that the input
gives to `upstream`. -/
theorem hasNodesAttr_fixed_at_parse (x : Value) (e : A6Conf) (injected : List Value) :
    (NewUpstreams (some x) = .ok e →
      ((x.entries.lastEntry "nodes" = none ∨ x.entries.lastEntry "nodes" = some .nil) →
        e.HasNodesAttr = false) ∧
      (∀ xs, x.entries.lastEntry "nodes" = some (.list xs) → e.HasNodesAttr = true)) ∧
    (NewRoutes (some x) = .ok e →
      (((x.entries.blocks "upstream").lastEntry "nodes" = none ∨
          (x.entries.blocks "upstream").lastEntry "nodes" = some .nil) →
        e.HasNodesAttr = false) ∧
      (∀ xs, (x.entries.blocks "upstream").lastEntry "nodes" = some (.list xs) →
        e.HasNodesAttr = true)) ∧
    (NewServices (some x) = .ok e →
      (((x.entries.blocks "upstream").lastEntry "nodes" = none ∨
          (x.entries.blocks "upstream").lastEntry "nodes" = some .nil) →
        e.HasNodesAttr = false) ∧
      (∀ xs, (x.entries.blocks "upstream").lastEntry "nodes" = some (.list xs) →
        e.HasNodesAttr = true)) ∧
    (injected.foldl A6Conf.Inject e).HasNodesAttr = e.HasNodesAttr := by
  refine ⟨?_, ?_, ?_, A6Conf.hasNodesAttr_injects injected e⟩
  · intro h
    obtain ⟨x0, u, all, hv, hd, -, he⟩ := NewUpstreams_ok h
    simp only [Option.some.injEq] at hv
    subst hv he
    exact nodes_flag (decodeUpstreams_entries hd)
  · intro h
    obtain ⟨x0, l, u, all, hv, hd, -, he⟩ := NewRoutes_ok h
    simp only [Option.some.injEq] at hv
    subst hv he
    exact nodes_flag (decodeRoutes_entries hd)
  · intro h
    obtain ⟨x0, u, all, hv, hd, -, he⟩ := NewServices_ok h
    simp only [Option.some.injEq] at hv
    subst hv he
    exact nodes_flag (decodeServices_entries hd)

theorem hasNodesAttr_fixed_at_parse_witness :
    (A6Conf.upstreams emptyNodesEntity).HasNodesAttr = true ∧
    (A6Conf.routes passThroughEntity).HasNodesAttr = true ∧
    (A6Conf.routes nullUpstreamEntity).HasNodesAttr = false ∧
    (A6Conf.services namedServiceEntity).HasNodesAttr = true ∧
    ([Value.nil, Value.nodes [0]].foldl A6Conf.Inject
      (.upstreams emptyNodesEntity)).HasNodesAttr
      = (A6Conf.upstreams emptyNodesEntity).HasNodesAttr :=
  ⟨((hasNodesAttr_fixed_at_parse emptyNodesUpstream (.upstreams emptyNodesEntity)
      []).1 (by decide)).2 .nil (by decide),
    ((hasNodesAttr_fixed_at_parse (.map passThroughMap) (.routes passThroughEntity)
      []).2.1 (by decide)).2
      (.cons (.map (.ofList [("host", .string "a"), ("port", .number 80),
        ("weight", .number 1)])) .nil) (by decide),
    ((hasNodesAttr_fixed_at_parse
      (.map (.ofList [("labels", .map (.ofList [("service_grpc_port", .string "9000")])),
        ("upstream", .nil)]))
      (.routes nullUpstreamEntity) []).2.1 (by decide)).1 (Or.inl (by decide)),
    ((hasNodesAttr_fixed_at_parse
      (.map (.ofList [("upstream",
        .map (.ofList [("service_name", .string "svc"), ("nodes", .list .nil)]))]))
      (.services namedServiceEntity) []).2.2.1 (by decide)).2 .nil (by decide),
    (hasNodesAttr_fixed_at_parse emptyNodesUpstream (.upstreams emptyNodesEntity)
      [Value.nil, Value.nodes [0]]).2.2.2⟩

/-! ## The port override on a concrete node list -/

theorem copyNodes_from (p : Int) (old : Heap) :
    ∀ (ps : List Nat) (ns : List Node) (heap : Heap),
      List.Forall₂ (fun a n => old[a]? = some n) ps ns →
      copyNodes p old ps heap = some (List.range' heap.length ps.length,
        heap ++ ns.map (fun n => ⟨n.Host, n.Weight, p⟩))
  | [], ns, heap, h => by
    cases h
    simp [copyNodes]
  | a :: ps, ns, heap, h => by
    cases h with
    | cons ha hrest =>
      rename_i n0 ns1
      have ih := copyNodes_from p old ps ns1 (heap ++ [(⟨n0.Host, n0.Weight, p⟩ : Node)]) hrest
      simp only [copyNodes, ha, ih, List.length_append, List.length_singleton, List.length_cons,
        List.map_cons, List.append_assoc, List.singleton_append, List.range'_succ,
        List.length_nil, Nat.zero_add]

theorem copyNodes_eq (p : Int) (ps : List Nat) (ns : List Node) (heap : Heap)
    (h : List.Forall₂ (fun a n => heap[a]? = some n) ps ns) :
    copyNodes p heap ps heap = some (List.range' heap.length ps.length,
      heap ++ ns.map (fun n => ⟨n.Host, n.Weight, p⟩)) :=
  copyNodes_from p heap ps ns heap h

theorem copyNodes_reads (p : Int) (old : Heap) :
    ∀ (ps : List Nat) (heap : Heap) (r : List Nat × Heap), copyNodes p old ps heap = some r →
      ∃ ns, List.Forall₂ (fun a n => old[a]? = some n) ps ns
  | [], _, _, _ => ⟨[], List.Forall₂.nil⟩
  | a :: ps, heap, r, h => by
    cases ha : old[a]? with
    | none => simp [copyNodes, ha] at h
    | some n =>
      cases hc : copyNodes p old ps (heap ++ [(⟨n.Host, n.Weight, p⟩ : Node)]) with
      | none => simp [copyNodes, ha, hc] at h
      | some r1 =>
        obtain ⟨ns, hns⟩ := copyNodes_reads p old ps _ r1 hc
        exact ⟨n :: ns, List.Forall₂.cons ha hns⟩

theorem encode_copies (heap copies : Heap) :
    (List.range' heap.length copies.length).map (encodeNode (heap ++ copies))
      = copies.map nodeJSON := by
  induction copies generalizing heap with
  | nil => simp
  | cons x rest ih =>
    have h0 : encodeNode (heap ++ x :: rest) heap.length = nodeJSON x := by
      unfold encodeNode
      rw [List.getElem?_append_right (le_refl _)]
      simp
    have ih1 := ih (heap ++ [x])
    simp only [List.length_append, List.length_singleton, List.append_assoc,
      List.singleton_append] at ih1
    simp only [List.length_cons, List.range'_succ, List.map_cons, h0, ih1]

theorem upstreamWalk_get_nodes (u : Upstream) (m : ValueMap) (h : u.Nodes ≠ .nil) :
    (upstreamWalk u m).get "nodes" = some u.Nodes := by
  have e1 : ∀ (x : ValueMap) (v : Value),
      (x.set "_discovery_type" v).get "nodes" = x.get "nodes" :=
    fun x v => ValueMap.get_set_ne x v (by decide)
  have e2 : ∀ (x : ValueMap) (v : Value),
      (x.set "_service_name" v).get "nodes" = x.get "nodes" :=
    fun x v => ValueMap.get_set_ne x v (by decide)
  have e3 : ∀ x : ValueMap, (x.delete "discovery_args").get "nodes" = x.get "nodes" :=
    fun x => ValueMap.get_delete_ne x (by decide)
  have e4 : ∀ x : ValueMap, (x.delete "service_name").get "nodes" = x.get "nodes" :=
    fun x => ValueMap.get_delete_ne x (by decide)
  have e5 : ∀ x : ValueMap, (x.delete "discovery_type").get "nodes" = x.get "nodes" :=
    fun x => ValueMap.get_delete_ne x (by decide)
  simp only [upstreamWalk, h, if_false]
  split_ifs <;> simp [e1, e2, e3, e4, e5, ValueMap.get_set_self]

/-- The port override on documents whose `labels` entry is a mapping and whose
`upstream` entry is absent or a mapping: for every Route whose port label
parses as `p` and whose node field holds a list of pointers to the nodes `ns`,
`Routes.Marshal` returns a document whose `upstream.nodes` is the list of the
nodes of `ns`, in order, with their host and weight and with port `p`, and
the pointers of the original list still point to the nodes `ns`. -/
theorem marshal_overrides_port (routes : Routes) (heap : Heap) (ps : List Nat)
    (ns : List Node) (p : Int) (m lm : ValueMap)
    (hport : ParseInt routes.Labels.ServiceGrpcPort = some p)
    (hnodes : routes.Upstream.Nodes = .nodes ps)
    (hns : List.Forall₂ (fun a n => heap[a]? = some n) ps ns)
    (hall : routes.All = some m) (hl : m.get "labels" = some (.map lm))
    (hup : m.get "upstream" = none ∨ ∃ um, m.get "upstream" = some (.map um)) :
    ∃ out doc um, routes.Marshal heap = some out ∧ out.result = .ok (some doc) ∧
      doc.get "upstream" = some (.map um) ∧
      um.get "nodes" = some (.list (ValueList.ofList
        (ns.map (fun n => nodeJSON ⟨n.Host, n.Weight, p⟩)))) ∧
      List.Forall₂ (fun a n => out.heap[a]? = some n) ps ns := by
  rcases routes with ⟨l, u, all, flag⟩
  simp only at hport hnodes hall
  subst hall
  have hp0 : l.ServiceGrpcPort ≠ "" := by
    intro h0
    have hnone : ParseInt "" = none := by decide
    rw [h0, hnone] at hport
    cases hport
  have hlz : l ≠ {} := by
    intro hz
    rw [hz] at hp0
    exact hp0 rfl
  let copies : Heap := ns.map (fun n => ⟨n.Host, n.Weight, p⟩)
  let u1 : Upstream := { u with Nodes := .nodes (List.range' heap.length ps.length) }
  have hu1 : u1 ≠ {} := by
    intro hz
    have := congrArg Upstream.Nodes hz
    simp [u1] at this
  obtain ⟨m1, hc1⟩ := childWalk_isSome (labelsWalk l) "labels" m (Or.inr ⟨lm, hl⟩)
  have hup1 : m1.get "upstream" = none ∨ ∃ c, m1.get "upstream" = some (.map c) := by
    rw [childWalk_get_ne hc1 (by decide)]
    exact hup
  obtain ⟨m2, hc2⟩ := childWalk_isSome (upstreamWalk u1) "upstream" m1 hup1
  obtain ⟨c, hget, -⟩ := childWalk_get_self hc2
  have hemb : embedElm (Routes.reflect ⟨l, u1, some m, flag⟩) (some m) = some (some m2) := by
    rw [embedElm_routes]
    simp [routesWalk, hlz, hc1, upstreamFieldWalk, hu1, hc2]
  have hlen : ps.length = ns.length := hns.length_eq
  have hM : Routes.Marshal ⟨l, u, some m, flag⟩ heap = some ⟨⟨l, u1, some m2, flag⟩,
      heap ++ copies, .ok (jsonMarshal (heap ++ copies) (some m2))⟩ := by
    unfold Routes.Marshal
    dsimp only
    rw [if_pos ⟨hp0, by simp [hnodes]⟩, hport]
    simp only [hnodes, copyNodes_eq p ps ns heap hns]
    rw [hemb]
  refine ⟨_, _, (upstreamWalk u1 c).encode (heap ++ copies), hM, rfl, ?_, ?_, ?_⟩
  · simp [Value.get, ValueMap.get_encode, hget, Value.encode]
  · rw [ValueMap.get_encode, upstreamWalk_get_nodes u1 c (by simp [u1])]
    have henc := encode_copies heap copies
    simp only [copies, List.length_map, ← hlen] at henc
    simp only [u1, Option.map_some', Value.encode, henc, copies, List.map_map]
    rfl
  · refine hns.imp ?_
    intro a n ha
    obtain ⟨hlt, _⟩ := List.getElem?_eq_some.1 ha
    show (heap ++ copies)[a]? = some n
    rw [List.getElem?_append_left hlt, ha]

/-- The value of C5 at the input that breaks it: the route `{"labels":
{"service_grpc_port": "9000"}, "upstream": null}` is accepted by `NewRoutes`;
after `Inject` of the concrete node list `[{a, 1, 80}]`, `Marshal` panics in
`embedElm`, at the assertion that the `upstream` entry of the document is a
mapping, instead of returning a document with nodes `[{a, 1, 9000}]`. -/
theorem port_override_null_upstream_panics :
    NewRoutes nullUpstreamRoute = .ok (.routes nullUpstreamEntity) ∧
    ParseInt nullUpstreamEntity.Labels.ServiceGrpcPort = some 9000 ∧
    ((A6Conf.routes nullUpstreamEntity).Inject (.nodes [0])).GetUpstream.Nodes = .nodes [0] ∧
    ((A6Conf.routes nullUpstreamEntity).Inject (.nodes [0])).Marshal oneNodeHeap = none :=
  ⟨by decide, by decide, by decide, by decide⟩

/-- The example of the spec: with the node `{a, 1, 80}` and the port label
`9000`, `Marshal` serializes the node list `[{a, 1, 9000}]`, and the original
node keeps the port 80. -/
theorem port_override_example :
    ∃ out doc, grpcRoute.Marshal oneNodeHeap = some out ∧ out.result = .ok (some doc) ∧
      (doc.get "upstream").bind (fun up => up.get "nodes")
        = some (.list (.cons (nodeJSON ⟨"a", 1, 9000⟩) .nil)) ∧
      out.heap[0]? = some ⟨"a", 1, 80⟩ :=
  ⟨_, _, rfl, rfl, by decide, by decide⟩

/-! ## The kind of an entity and the factory -/

theorem suffix_exclusive {s a b : String} (ha : HasSuffix s a = true)
    (hb : HasSuffix s b = true) (hlen : a.data.length ≤ b.data.length) :
    a.data <:+ b.data :=
  List.suffix_of_suffix_length_le (List.isSuffixOf_iff_suffix.1 ha)
    (List.isSuffixOf_iff_suffix.1 hb) hlen

theorem not_routes_and_upstreams (s : String) :
    ¬ (HasSuffix s "routes" = true ∧ HasSuffix s "upstreams" = true) := by
  rintro ⟨h1, h2⟩
  exact absurd (suffix_exclusive h1 h2 (by decide)) (by decide)

theorem not_routes_and_services (s : String) :
    ¬ (HasSuffix s "routes" = true ∧ HasSuffix s "services" = true) := by
  rintro ⟨h1, h2⟩
  exact absurd (suffix_exclusive h1 h2 (by decide)) (by decide)

theorem not_services_and_upstreams (s : String) :
    ¬ (HasSuffix s "services" = true ∧ HasSuffix s "upstreams" = true) := by
  rintro ⟨h1, h2⟩
  exact absurd (suffix_exclusive h1 h2 (by decide)) (by decide)

/-- C11. For every collection name, `ToA6Type` is `A6UpstreamsConf` (1) when
the name ends with `upstreams`, `A6ServicesConf` (2) when it ends with
`services`, and `A6RoutesConf` (0) otherwise, in particular when it ends with
`routes`; no name ends with two of the three suffixes, so the tests can be
made in any order: testing `services` first, then `upstreams`, gives the same
result. -/
theorem toA6Type_by_suffix (pfx : String) :
    (HasSuffix pfx "upstreams" = true → ToA6Type pfx = A6UpstreamsConf) ∧
    (HasSuffix pfx "services" = true → ToA6Type pfx = A6ServicesConf) ∧
    (HasSuffix pfx "upstreams" = false → HasSuffix pfx "services" = false →
      ToA6Type pfx = A6RoutesConf) ∧
    (HasSuffix pfx "routes" = true → ToA6Type pfx = A6RoutesConf) ∧
    ¬ (HasSuffix pfx "routes" = true ∧ HasSuffix pfx "upstreams" = true) ∧
    ¬ (HasSuffix pfx "routes" = true ∧ HasSuffix pfx "services" = true) ∧
    ¬ (HasSuffix pfx "services" = true ∧ HasSuffix pfx "upstreams" = true) ∧
    ToA6Type pfx =
      (if HasSuffix pfx "services" then A6ServicesConf
        else if HasSuffix pfx "upstreams" then A6UpstreamsConf
        else A6RoutesConf) := by
  have e1 := not_routes_and_upstreams pfx
  have e2 := not_routes_and_services pfx
  have e3 := not_services_and_upstreams pfx
  refine ⟨?_, ?_, ?_, ?_, e1, e2, e3, ?_⟩
  · intro h
    have hr : HasSuffix pfx "routes" = false := by
      cases hq : HasSuffix pfx "routes"
      · rfl
      · exact absurd ⟨hq, h⟩ e1
    simp [ToA6Type, h, hr]
  · intro h
    have hr : HasSuffix pfx "routes" = false := by
      cases hq : HasSuffix pfx "routes"
      · rfl
      · exact absurd ⟨hq, h⟩ e2
    have hu : HasSuffix pfx "upstreams" = false := by
      cases hq : HasSuffix pfx "upstreams"
      · rfl
      · exact absurd ⟨h, hq⟩ e3
    simp [ToA6Type, h, hr, hu]
  · intro hu hs
    simp [ToA6Type, hu, hs]
  · intro h
    simp [ToA6Type, h]
  · cases hr : HasSuffix pfx "routes" <;> cases hu : HasSuffix pfx "upstreams" <;>
      cases hs : HasSuffix pfx "services" <;> simp_all [ToA6Type]

/-- C12. For every input and every integer kind `k`, `NewA6Conf` is
`NewUpstreams` when `k = 1`, `NewServices` when `k = 2`, and `NewRoutes` for
every other `k`: for 0 and for every unrecognized value. -/
theorem newA6Conf_dispatch (v : Bytes) (k : Int) :
    (k = 1 → NewA6Conf v k = NewUpstreams v) ∧
    (k = 2 → NewA6Conf v k = NewServices v) ∧
    (k ≠ 1 → k ≠ 2 → NewA6Conf v k = NewRoutes v) := by
  refine ⟨?_, ?_, ?_⟩
  · intro h
    subst h
    simp [NewA6Conf, A6RoutesConf, A6UpstreamsConf]
  · intro h
    subst h
    simp [NewA6Conf, A6RoutesConf, A6UpstreamsConf, A6ServicesConf]
  · intro h1 h2
    simp only [NewA6Conf, A6RoutesConf, A6UpstreamsConf, A6ServicesConf]
    split_ifs <;> rfl

/-! ## Failure of the constructors -/

theorem unmarshal_error {α : Type} (decode : Value → Option α) (setAll : α → GoMap → α)
    (data : Bytes) (h : decodeFails decode data = true) :
    unmarshal decode setAll data = .error .decode := by
  cases data with
  | none => rfl
  | some x =>
    simp only [decodeFails, Bool.or_eq_true, Option.isNone_iff_eq_none] at h
    simp only [unmarshal]
    cases hd : decode x with
    | none => rfl
    | some v =>
      rcases h with h | h
      · rw [hd] at h
        cases h
      · simp [h]

theorem unmarshal_ok {α : Type} (decode : Value → Option α) (setAll : α → GoMap → α)
    (data : Bytes) (h : decodeFails decode data = false) :
    ∃ v, unmarshal decode setAll data = .ok v := by
  cases data with
  | none => simp [decodeFails] at h
  | some x =>
    simp only [decodeFails, Bool.or_eq_false_iff] at h
    simp only [unmarshal]
    cases hd : decode x with
    | none => simp [hd] at h
    | some v =>
      cases hm : decodeMap x with
      | none => simp [hm] at h
      | some all => exact ⟨_, rfl⟩

/-- C13. For each of `NewUpstreams`, `NewRoutes` and `NewServices` and every
input: if the decode into the typed overlay or the decode into the generic
document fails, the constructor returns the decode error and no entity;
otherwise it returns an entity and no error. -/
theorem constructors_fail_atomically (value : Bytes) :
    (decodeFails (decodeUpstreams { All := some .nil }) value = true →
      NewUpstreams value = .error .decode) ∧
    (decodeFails (decodeUpstreams { All := some .nil }) value = false →
      ∃ e, NewUpstreams value = .ok e) ∧
    (decodeFails (decodeRoutes { All := some .nil }) value = true →
      NewRoutes value = .error .decode) ∧
    (decodeFails (decodeRoutes { All := some .nil }) value = false →
      ∃ e, NewRoutes value = .ok e) ∧
    (decodeFails (decodeServices { All := some .nil }) value = true →
      NewServices value = .error .decode) ∧
    (decodeFails (decodeServices { All := some .nil }) value = false →
      ∃ e, NewServices value = .ok e) := by
  refine ⟨?_, ?_, ?_, ?_, ?_, ?_⟩
  · intro h
    simp only [NewUpstreams, unmarshal_error _ _ _ h]
  · intro h
    obtain ⟨v, hv⟩ := unmarshal_ok (decodeUpstreams { All := some .nil })
      (fun v all => { v with All := all }) value h
    simp only [NewUpstreams, hv]
    exact ⟨_, rfl⟩
  · intro h
    simp only [NewRoutes, unmarshal_error _ _ _ h]
  · intro h
    obtain ⟨v, hv⟩ := unmarshal_ok (decodeRoutes { All := some .nil })
      (fun v all => { v with All := all }) value h
    simp only [NewRoutes, hv]
    exact ⟨_, rfl⟩
  · intro h
    simp only [NewServices, unmarshal_error _ _ _ h]
  · intro h
    obtain ⟨v, hv⟩ := unmarshal_ok (decodeServices { All := some .nil })
      (fun v all => { v with All := all }) value h
    simp only [NewServices, hv]
    exact ⟨_, rfl⟩

theorem convertNumber_overflow (n : Int) (h : 2 ^ 1024 ≤ n.natAbs) :
    convertNumber n = none := by
  have ha0 : n.natAbs ≠ 0 := by
    intro h0
    rw [h0] at h
    exact Nat.not_succ_le_zero _ (le_trans Nat.one_le_two_pow h)
  have hlog : 1024 ≤ Nat.log2 n.natAbs := (Nat.le_log2 ha0).2 h
  have hself := Nat.log2_self_le ha0
  have h53 : ¬ n.natAbs ≤ 2 ^ 53 := by
    intro hc
    have h2 : (2 : Nat) ^ 1024 ≤ 2 ^ 53 := le_trans h hc
    have h3 := (Nat.pow_le_pow_iff_right (by norm_num)).1 h2
    omega
  unfold convertNumber
  simp only [h53, if_false]
  have hq : 2 ^ 52 ≤ n.natAbs / 2 ^ (Nat.log2 n.natAbs - 52) := by
    rw [Nat.le_div_iff_mul_le (by positivity), ← pow_add]
    have h2 : 52 + (Nat.log2 n.natAbs - 52) = Nat.log2 n.natAbs := by omega
    rw [h2]
    exact hself
  have hf : ∀ q1, n.natAbs / 2 ^ (Nat.log2 n.natAbs - 52) ≤ q1 →
      2 ^ 1024 ≤ q1 * 2 ^ (Nat.log2 n.natAbs - 52) := by
    intro q1 hq1
    calc 2 ^ 1024 ≤ 2 ^ (52 + (Nat.log2 n.natAbs - 52)) :=
          Nat.pow_le_pow_right (by norm_num) (by omega)
      _ = 2 ^ 52 * 2 ^ (Nat.log2 n.natAbs - 52) := pow_add _ _ _
      _ ≤ q1 * 2 ^ (Nat.log2 n.natAbs - 52) := Nat.mul_le_mul_right _ (le_trans hq hq1)
  split_ifs with hc h1 h2
  · rfl
  · exact absurd (hf _ (Nat.le_succ _)) (by simpa using h1)
  · rfl
  · exact absurd (hf _ (le_refl _)) (by simpa using h2)

theorem document_decode_overflow (n : Int) (h : 2 ^ 1024 ≤ n.natAbs) :
    (decodeUpstreams { All := some .nil } (unknownNumberInput n)).isSome = true ∧
    decodeMap (unknownNumberInput n) = none ∧
    decodeFails (decodeUpstreams { All := some .nil }) (some (unknownNumberInput n)) = true := by
  have h2 : decodeMap (unknownNumberInput n) = none := by
    simp only [decodeMap, storeMap, unknownNumberInput, ValueMap.ofList, ValueMap.toInterface,
      Value.toInterface, convertNumber_overflow n h]
  exact ⟨rfl, h2, by simp only [decodeFails, h2, Option.isNone_none, Bool.or_true]⟩

theorem constructors_fail_atomically_witness :
    (∃ n : Int, n = Int.ofNat (2 ^ 1024) ∧
      (decodeUpstreams { All := some .nil } (unknownNumberInput n)).isSome = true ∧
      decodeMap (unknownNumberInput n) = none ∧
      NewUpstreams (some (unknownNumberInput n)) = .error .decode) ∧
    decodeUpstreams { All := some .nil } numericNameInput = none ∧
    (decodeMap numericNameInput).isSome = true ∧
    NewUpstreams (some numericNameInput) = .error .decode ∧
    NewRoutes none = .error .decode ∧
    (∃ e, NewServices namedService = .ok e) :=
  ⟨⟨_, rfl, (document_decode_overflow _ (le_of_eq (Int.natAbs_ofNat _).symm)).1,
      (document_decode_overflow _ (le_of_eq (Int.natAbs_ofNat _).symm)).2.1,
      (constructors_fail_atomically (some (unknownNumberInput (Int.ofNat (2 ^ 1024))))).1
        (document_decode_overflow _ (le_of_eq (Int.natAbs_ofNat _).symm)).2.2⟩,
    by decide, by decide,
    (constructors_fail_atomically (some numericNameInput)).1 (by decide),
    (constructors_fail_atomically none).2.2.1 (by decide),
    (constructors_fail_atomically namedService).2.2.2.2.2 (by decide)⟩

/-! ## The trigger of the label propagation -/

/-- C18. For every Route input that decodes successfully, with the overlay
`r0` and the document as `encoding/json` decodes them from the input: if the
`id` of the document is not a string or the service name of the labels is
empty, the upstream overlay returned by `NewRoutes` is exactly the decoded
one; if the `id` is a string and the service name of the labels is not empty,
the overlay is the decoded one with `ServiceName`, `DiscoveryType` and
`DiscoveryArgs` replaced by the label values, also when the upstream block
had its own (`DiscoveryType` is the label's, empty when the label is empty,
and `DiscoveryArgs` is non-nil with a nil `Metadata`), the node field and the
other fields being unchanged. -/
theorem propagation_only_under_trigger (x : Value) (e : A6Conf)
    (hnew : NewRoutes (some x) = .ok e) :
    ∃ r0, decodeRoutes { All := some .nil } x = some r0 ∧ decodeMap x = some e.GetAll ∧
      (((∀ s, e.GetAll.get "id" ≠ some (.string s)) ∨ r0.Labels.ServiceName = "") →
        e.GetUpstream = r0.Upstream) ∧
      ((∃ s, e.GetAll.get "id" = some (.string s)) → r0.Labels.ServiceName ≠ "" →
        e.GetUpstream =
          { r0.Upstream with
            ServiceName := r0.Labels.ServiceName
            DiscoveryType := r0.Labels.DiscoveryType
            DiscoveryArgs := some { NamespaceID := r0.Labels.DiscoveryArgsNamespaceID,
                                    GroupName := r0.Labels.DiscoveryArgsGroupName,
                                    Metadata := none } } ∧
        e.GetUpstream.Nodes = r0.Upstream.Nodes) := by
  obtain ⟨x0, l, u, all, hv, hd, hm, he⟩ := NewRoutes_ok hnew
  simp only [Option.some.injEq] at hv
  subst hv he
  refine ⟨_, hd, hm, ?_, ?_⟩
  · intro h
    simp only [A6Conf.GetUpstream, Routes.GetUpstream, A6Conf.GetAll, Routes.GetAll] at h ⊢
    unfold propagated
    rw [if_neg]
    rintro ⟨hid, hs⟩
    rcases h with h | h
    · unfold hasStringId at hid
      split at hid
      · rename_i s hs1
        exact h s hs1
      · cases hid
    · exact hs h
  · intro hid hs
    obtain ⟨s, hs1⟩ := hid
    simp only [A6Conf.GetUpstream, Routes.GetUpstream, A6Conf.GetAll, Routes.GetAll] at hs1 ⊢
    rw [propagated_of_trigger u hs1 hs]
    exact ⟨rfl, rfl⟩

theorem propagation_only_under_trigger_witness :
    NewRoutes labelledRoute = .ok (.routes labelledEntity) ∧
    NewRoutes numericIdRoute = .ok (.routes numericIdEntity) ∧
    (A6Conf.routes labelledEntity).GetUpstream =
      { ServiceName := "svc-a", DiscoveryType := "nacos", DiscoveryArgs := some {} } ∧
    (A6Conf.routes numericIdEntity).GetUpstream = {} ∧
    (∃ r0, decodeRoutes { All := some .nil } (.map labelledMap) = some r0 ∧
      decodeMap (.map labelledMap) = some (A6Conf.routes labelledEntity).GetAll ∧
      (((∀ s, (A6Conf.routes labelledEntity).GetAll.get "id" ≠ some (.string s)) ∨
          r0.Labels.ServiceName = "") →
        (A6Conf.routes labelledEntity).GetUpstream = r0.Upstream) ∧
      ((∃ s, (A6Conf.routes labelledEntity).GetAll.get "id" = some (.string s)) →
        r0.Labels.ServiceName ≠ "" →
        (A6Conf.routes labelledEntity).GetUpstream =
          { r0.Upstream with
            ServiceName := r0.Labels.ServiceName
            DiscoveryType := r0.Labels.DiscoveryType
            DiscoveryArgs := some { NamespaceID := r0.Labels.DiscoveryArgsNamespaceID,
                                    GroupName := r0.Labels.DiscoveryArgsGroupName,
                                    Metadata := none } } ∧
        (A6Conf.routes labelledEntity).GetUpstream.Nodes = r0.Upstream.Nodes)) :=
  ⟨by decide, by decide, by decide, by decide,
    propagation_only_under_trigger (.map labelledMap) (.routes labelledEntity) (by decide)⟩

/-! ## Panics of `Marshal` -/

/-- The value of C16 at the input it names: the route `{"id": "r1",
"labels": {"service_name": "svc-a"}, "upstream": null}` is returned without
error by `NewRoutes`, the propagation makes its upstream overlay non-zero, and
`Marshal` then aborts: `embedElm` finds the key `upstream` present in the
document with a value that is not a mapping, and the cast panics. -/
theorem marshal_panics_on_null_upstream :
    NewRoutes nullUpstreamLabelled = .ok (.routes nullUpstreamLabelledEntity) ∧
    nullUpstreamLabelledEntity.All.get "upstream" = some .nil ∧
    (A6Conf.routes nullUpstreamLabelledEntity).Marshal [] = none :=
  ⟨by decide, by decide, by decide⟩

theorem marshal_panics_on_null_document :
    NewRoutes (some .nil) = .ok (.routes { All := none }) ∧
    ((A6Conf.routes { All := none }).Inject (.list .nil)).Marshal [] = none :=
  ⟨by decide, by decide⟩

/-! ## Deletions in Routes and Services -/

theorem ValueMap.isSome_get_set (m : ValueMap) (k k2 : String) (v : Value)
    (h : (m.get k).isSome = true) : ((m.set k2 v).get k).isSome = true := by
  by_cases hk : k2 = k
  · subst hk
    rw [ValueMap.get_set_self]
    rfl
  · rw [ValueMap.get_set_ne _ _ hk]
    exact h

theorem labelsWalk_keeps (l : Labels) (m : ValueMap) (k : String)
    (h : (m.get k).isSome = true) : ((labelsWalk l m).get k).isSome = true := by
  simp only [labelsWalk]
  split_ifs <;> repeat (first | exact h | apply ValueMap.isSome_get_set)

theorem upstreamWalk_keeps (u : Upstream) (m : ValueMap) {k : String}
    (hk : k ∉ suppressedKeys) (h : (m.get k).isSome = true) :
    ((upstreamWalk u m).get k).isSome = true := by
  simp only [suppressedKeys, List.mem_cons, List.mem_singleton, not_or, List.not_mem_nil,
    or_false] at hk
  obtain ⟨h1, h2, h3⟩ := hk
  have d1 : ∀ x : ValueMap, (x.delete "discovery_type").get k = x.get k :=
    fun x => ValueMap.get_delete_ne x (Ne.symm h1)
  have d2 : ∀ x : ValueMap, (x.delete "service_name").get k = x.get k :=
    fun x => ValueMap.get_delete_ne x (Ne.symm h2)
  have d3 : ∀ x : ValueMap, (x.delete "discovery_args").get k = x.get k :=
    fun x => ValueMap.get_delete_ne x (Ne.symm h3)
  simp only [upstreamWalk]
  split_ifs <;>
    repeat (first | exact h | rw [d1] | rw [d2] | rw [d3] | apply ValueMap.isSome_get_set)

theorem childWalk_keeps_top {walk : ValueMap → ValueMap} {key : String} {m m1 : ValueMap}
    (k : String) (h : childWalk walk key m = some m1) (hk : (m.get k).isSome = true) :
    (m1.get k).isSome = true := by
  unfold childWalk at h
  cases hg : m.get key with
  | none =>
    simp only [hg, Option.some.injEq] at h
    rw [← h]
    exact ValueMap.isSome_get_set _ _ _ _ hk
  | some v =>
    cases v with
    | map c =>
      simp only [hg, Option.some.injEq] at h
      rw [← h]
      exact ValueMap.isSome_get_set _ _ _ _ hk
    | _ => simp [hg] at h

theorem childWalk_keeps_child {walk : ValueMap → ValueMap} {key : String} {m m1 : ValueMap}
    (k : String) (h : childWalk walk key m = some m1)
    (hw : ∀ c, (c.get k).isSome = true → ((walk c).get k).isSome = true)
    (hk : ((m.get key).bind (fun c => c.get k)).isSome = true) :
    ((m1.get key).bind (fun c => c.get k)).isSome = true := by
  obtain ⟨c, hget, hc⟩ := childWalk_get_self h
  rcases hc with ⟨h0, _⟩ | h0
  · simp [h0] at hk
  · rw [h0] at hk
    rw [hget]
    exact hw c hk

theorem upstreamFieldWalk_keeps {u : Upstream} {m m1 : ValueMap} (k : String)
    (h : upstreamFieldWalk u m = some m1) :
    ((m.get k).isSome = true → (m1.get k).isSome = true) ∧
    (k ∉ suppressedKeys → ((m.get "upstream").bind (fun c => c.get k)).isSome = true →
      ((m1.get "upstream").bind (fun c => c.get k)).isSome = true) := by
  unfold upstreamFieldWalk at h
  by_cases hz : u = {}
  · simp only [hz, if_true, Option.some.injEq] at h
    subst h
    exact ⟨id, fun _ => id⟩
  · rw [if_neg hz] at h
    exact ⟨childWalk_keeps_top k h,
      fun hk hs => childWalk_keeps_child k h (fun c hc => upstreamWalk_keeps u c hk hc) hs⟩

theorem upstreamFieldWalk_suppresses {u : Upstream} {m m1 : ValueMap}
    (h : upstreamFieldWalk u m = some m1) :
    (u.DiscoveryType ≠ "" →
      (m1.get "upstream").bind (fun c => c.get "discovery_type") = none) ∧
    (u.ServiceName ≠ "" →
      (m1.get "upstream").bind (fun c => c.get "service_name") = none) ∧
    (u.DiscoveryArgs ≠ none →
      (m1.get "upstream").bind (fun c => c.get "discovery_args") = none) := by
  unfold upstreamFieldWalk at h
  by_cases hz : u = {}
  · subst hz
    exact ⟨fun h0 => absurd rfl h0, fun h0 => absurd rfl h0, fun h0 => absurd rfl h0⟩
  · rw [if_neg hz] at h
    obtain ⟨c, hget, -⟩ := childWalk_get_self h
    rw [hget]
    exact ⟨fun h0 => upstreamWalk_get_discovery_type u c h0,
      fun h0 => upstreamWalk_get_service_name u c h0,
      fun h0 => upstreamWalk_get_discovery_args u c h0⟩

theorem routesWalk_keeps {l : Labels} {u : Upstream} {m m2 : ValueMap} (k : String)
    (h : routesWalk l u m = some m2) :
    ((m.get k).isSome = true → (m2.get k).isSome = true) ∧
    (((m.get "labels").bind (fun c => c.get k)).isSome = true →
      ((m2.get "labels").bind (fun c => c.get k)).isSome = true) ∧
    (k ∉ suppressedKeys → ((m.get "upstream").bind (fun c => c.get k)).isSome = true →
      ((m2.get "upstream").bind (fun c => c.get k)).isSome = true) ∧
    (u.DiscoveryType ≠ "" →
      (m2.get "upstream").bind (fun c => c.get "discovery_type") = none) ∧
    (u.ServiceName ≠ "" →
      (m2.get "upstream").bind (fun c => c.get "service_name") = none) ∧
    (u.DiscoveryArgs ≠ none →
      (m2.get "upstream").bind (fun c => c.get "discovery_args") = none) := by
  unfold routesWalk at h
  by_cases hz : l = {}
  · simp only [hz, if_true] at h
    have hk := upstreamFieldWalk_keeps k h
    have hs := upstreamFieldWalk_suppresses h
    refine ⟨hk.1, fun hl => ?_, hk.2, hs.1, hs.2.1, hs.2.2⟩
    rw [(upstreamFieldWalk_frame "labels" h).1 (by decide)]
    exact hl
  · simp only [hz, if_false] at h
    cases hc : childWalk (labelsWalk l) "labels" m with
    | none => simp [hc] at h
    | some m1 =>
      simp only [hc] at h
      have hk := upstreamFieldWalk_keeps k h
      have hs := upstreamFieldWalk_suppresses h
      refine ⟨fun h0 => hk.1 (childWalk_keeps_top k hc h0), fun hl => ?_, fun h1 h2 => ?_,
        hs.1, hs.2.1, hs.2.2⟩
      · rw [(upstreamFieldWalk_frame "labels" h).1 (by decide)]
        exact childWalk_keeps_child k hc (fun c => labelsWalk_keeps l c k) hl
      · refine hk.2 h1 ?_
        rw [childWalk_get_ne hc (by decide)]
        exact h2

/-- C15, as the code has it. For every Route or Service entity on which
`Marshal` returns bytes: no top-level key of the document is deleted, no key
of its `labels` child mapping is deleted, and no key of its `upstream` child
mapping other than `discovery_type`, `service_name` and `discovery_args` is
deleted; each of these three keys is absent from the `upstream` child mapping
after the call when the nested upstream overlay holds a non-zero value in the
matching field, exactly as at the top level of an entity of kind Upstream. -/
theorem nested_upstream_is_suppressed (e : A6Conf) (heap : Heap) (out : Marshaled A6Conf)
    (bytes : Bytes) (k : String)
    (hkind : (∃ r, e = .routes r) ∨ ∃ s, e = .services s)
    (h : e.Marshal heap = some out) (hres : out.result = .ok bytes) :
    ((e.GetAll.get k).isSome = true → (out.self.GetAll.get k).isSome = true) ∧
    (((e.GetAll.get "labels").bind (fun c => c.get k)).isSome = true →
      ((out.self.GetAll.get "labels").bind (fun c => c.get k)).isSome = true) ∧
    (k ∉ suppressedKeys →
      ((e.GetAll.get "upstream").bind (fun c => c.get k)).isSome = true →
      ((out.self.GetAll.get "upstream").bind (fun c => c.get k)).isSome = true) ∧
    (e.GetUpstream.DiscoveryType ≠ "" →
      (out.self.GetAll.get "upstream").bind (fun c => c.get "discovery_type") = none) ∧
    (e.GetUpstream.ServiceName ≠ "" →
      (out.self.GetAll.get "upstream").bind (fun c => c.get "service_name") = none) ∧
    (e.GetUpstream.DiscoveryArgs ≠ none →
      (out.self.GetAll.get "upstream").bind (fun c => c.get "discovery_args") = none) := by
  rcases hkind with ⟨r, he⟩ | ⟨sv, he⟩
  · subst he
    obtain ⟨o, ho, hout⟩ := A6Conf.Marshal_routes h
    subst hout
    obtain ⟨nodes1, all, hemb, hself, -⟩ := Routes.Marshal_ok ho hres
    simp only [A6Conf.GetAll, Routes.GetAll, A6Conf.GetUpstream, Routes.GetUpstream, hself]
    cases hall : r.All with
    | none =>
      rw [hall, embedElm_routes_nilmap] at hemb
      split_ifs at hemb with hzero
      simp only [Option.some.injEq] at hemb
      subst hemb
      have hu0 : r.Upstream.DiscoveryType = "" ∧ r.Upstream.ServiceName = ""
          ∧ r.Upstream.DiscoveryArgs = none := by
        have h1 := congrArg Upstream.DiscoveryType hzero.2
        have h2 := congrArg Upstream.ServiceName hzero.2
        have h3 := congrArg Upstream.DiscoveryArgs hzero.2
        exact ⟨h1, h2, h3⟩
      exact ⟨id, id, fun _ => id, fun h0 => absurd hu0.1 h0, fun h0 => absurd hu0.2.1 h0,
        fun h0 => absurd hu0.2.2 h0⟩
    | some m =>
      rw [hall, embedElm_routes] at hemb
      cases hw : routesWalk (r.Inject nodes1).Labels (r.Inject nodes1).Upstream m with
      | none => simp [hw] at hemb
      | some m2 =>
        simp only [hw, Option.map_some', Option.some.injEq] at hemb
        subst hemb
        exact routesWalk_keeps (u := (r.Inject nodes1).Upstream) k hw
  · subst he
    simp only [A6Conf.Marshal, Services.Marshal] at h
    cases hemb : embedElm sv.reflect sv.All with
    | none => simp [hemb] at h
    | some all =>
      simp only [hemb, Option.some.injEq] at h
      subst h
      simp only [A6Conf.GetAll, Services.GetAll, A6Conf.GetUpstream, Services.GetUpstream]
      cases hall : sv.All with
      | none =>
        rw [hall, embedElm_services_nilmap] at hemb
        split_ifs at hemb with hzero
        simp only [Option.some.injEq] at hemb
        subst hemb
        have h1 := congrArg Upstream.DiscoveryType hzero
        have h2 := congrArg Upstream.ServiceName hzero
        have h3 := congrArg Upstream.DiscoveryArgs hzero
        exact ⟨id, id, fun _ => id, fun h0 => absurd h1 h0, fun h0 => absurd h2 h0,
          fun h0 => absurd h3 h0⟩
      | some m =>
        rw [hall, embedElm_services] at hemb
        cases hw : upstreamFieldWalk sv.Upstream m with
        | none => simp [hw] at hemb
        | some m2 =>
          simp only [hw, Option.map_some', Option.some.injEq] at hemb
          subst hemb
          have hk := upstreamFieldWalk_keeps k hw
          have hs := upstreamFieldWalk_suppresses hw
          refine ⟨hk.1, fun hl => ?_, hk.2, hs.1, hs.2.1, hs.2.2⟩
          simp only [GoMap.get] at hl ⊢
          rw [(upstreamFieldWalk_frame "labels" hw).1 (by decide)]
          exact hl

theorem nested_upstream_is_suppressed_witness :
    (((A6Conf.services namedServiceEntity).GetAll.get "upstream").isSome = true →
      (namedServiceMarshaled.self.GetAll.get "upstream").isSome = true) ∧
    ((((A6Conf.services namedServiceEntity).GetAll.get "labels").bind
        (fun c => c.get "upstream")).isSome = true →
      ((namedServiceMarshaled.self.GetAll.get "labels").bind
        (fun c => c.get "upstream")).isSome = true) ∧
    ("upstream" ∉ suppressedKeys →
      (((A6Conf.services namedServiceEntity).GetAll.get "upstream").bind
        (fun c => c.get "upstream")).isSome = true →
      ((namedServiceMarshaled.self.GetAll.get "upstream").bind
        (fun c => c.get "upstream")).isSome = true) ∧
    ((A6Conf.services namedServiceEntity).GetUpstream.DiscoveryType ≠ "" →
      (namedServiceMarshaled.self.GetAll.get "upstream").bind
        (fun c => c.get "discovery_type") = none) ∧
    ((A6Conf.services namedServiceEntity).GetUpstream.ServiceName ≠ "" →
      (namedServiceMarshaled.self.GetAll.get "upstream").bind
        (fun c => c.get "service_name") = none) ∧
    ((A6Conf.services namedServiceEntity).GetUpstream.DiscoveryArgs ≠ none →
      (namedServiceMarshaled.self.GetAll.get "upstream").bind
        (fun c => c.get "discovery_args") = none) :=
  nested_upstream_is_suppressed (.services namedServiceEntity) [] namedServiceMarshaled
    (some (.map (.ofList [("upstream", .map (.ofList [("nodes", .list .nil)]))]))) "upstream"
    (Or.inr ⟨namedServiceEntity, rfl⟩) (by decide) (by decide)

/-- C15 fails as stated: the service `{"upstream": {"service_name": "svc",
"nodes": []}}` has a nested upstream overlay with a non-empty `ServiceName`,
and `Services.Marshal` deletes the key `service_name` from the `upstream`
child mapping of the document: the output is `{"upstream": {"nodes": []}}`. -/
theorem service_upstream_key_deleted_counterexample :
    NewServices namedService = .ok (.services namedServiceEntity) ∧
    (namedServiceEntity.All.get "upstream").bind (fun c => c.get "service_name")
      = some (.string "svc") ∧
    (A6Conf.services namedServiceEntity).Marshal [] = some namedServiceMarshaled ∧
    (namedServiceMarshaled.self.GetAll.get "upstream").bind (fun c => c.get "service_name")
      = none ∧
    namedServiceMarshaled.result
      = .ok (some (.map (.ofList [("upstream", .map (.ofList [("nodes", .list .nil)]))]))) :=
  ⟨by decide, by decide, by decide, by decide, by decide⟩

/-! ## Zero fields -/

theorem upstream_zeroAt {u : Upstream} {k : String} (h : u.reflect.zeroAt k = true) :
    (k = "nodes" ∧ u.Nodes = .nil) ∨ (k = "discovery_type" ∧ u.DiscoveryType = "") ∨
    (k = "_discovery_type" ∧ u.DupDiscoveryType = "") ∨
    (k = "discovery_args" ∧ u.DiscoveryArgs = none) ∨
    (k = "_service_name" ∧ u.DupServiceName = "") ∨
    (k = "service_name" ∧ u.ServiceName = "") := by
  have t1 : trimSuffix "nodes,omitempty" ",omitempty" = "nodes" := by decide
  have t2 : trimSuffix "discovery_type,omitempty" ",omitempty" = "discovery_type" := by decide
  have t3 : trimSuffix "_discovery_type,omitempty" ",omitempty" = "_discovery_type" := by decide
  have t4 : trimSuffix "discovery_args,omitempty" ",omitempty" = "discovery_args" := by decide
  have t5 : trimSuffix "_service_name,omitempty" ",omitempty" = "_service_name" := by decide
  have t6 : trimSuffix "service_name,omitempty" ",omitempty" = "service_name" := by decide
  rcases u with ⟨n, dt, ddt, args, dsn, sn⟩
  cases args <;>
    simp only [Upstream.reflect, RFields.zeroAt, t1, t2, t3, t4, t5, t6, RValue.IsZero,
      reflectArgs, Bool.or_eq_true, Bool.and_eq_true, beq_iff_eq, Bool.or_false,
      Bool.and_false, Bool.and_true, or_false, false_or] at h ⊢ <;>
    · rcases h with h | h | h | h | h <;> rcases h with h | h <;> simp_all

theorem labels_zeroAt {l : Labels} {k : String} (h : l.reflect.zeroAt k = true) :
    (k = "discovery_type" ∧ l.DiscoveryType = "") ∨ (k = "service_name" ∧ l.ServiceName = "") ∨
    (k = "discovery_args.namespace_id" ∧ l.DiscoveryArgsNamespaceID = "") ∨
    (k = "discovery_args.group_name" ∧ l.DiscoveryArgsGroupName = "") ∨
    (k = "service_grpc_port" ∧ l.ServiceGrpcPort = "") := by
  have t1 : trimSuffix "discovery_type,omitempty" ",omitempty" = "discovery_type" := by decide
  have t2 : trimSuffix "service_name,omitempty" ",omitempty" = "service_name" := by decide
  have t3 : trimSuffix "discovery_args.namespace_id,omitempty" ",omitempty"
      = "discovery_args.namespace_id" := by decide
  have t4 : trimSuffix "discovery_args.group_name,omitempty" ",omitempty"
      = "discovery_args.group_name" := by decide
  have t5 : trimSuffix "service_grpc_port,omitempty" ",omitempty" = "service_grpc_port" := by
    decide
  rcases l with ⟨dt, sn, ns, g, port⟩
  simp only [Labels.reflect, RFields.zeroAt, t1, t2, t3, t4, t5, RValue.IsZero,
    Bool.or_eq_true, Bool.and_eq_true, beq_iff_eq, Bool.or_false, or_false] at h ⊢
  rcases h with h | h | h | h | h <;> simp_all

theorem ValueMap.get_ite_set (c : Prop) [Decidable c] (m : ValueMap) (k key : String)
    (v : Value) (h : k = key → c) : (if c then m else m.set key v).get k = m.get k := by
  by_cases hc : c
  · rw [if_pos hc]
  · rw [if_neg hc]
    exact ValueMap.get_set_ne _ _ (fun e => hc (h e.symm))

theorem ValueMap.get_ite_delete (c : Prop) [Decidable c] (m : ValueMap) (k key : String)
    (h : k = key → c) : (if c then m else m.delete key).get k = m.get k := by
  by_cases hc : c
  · rw [if_pos hc]
  · rw [if_neg hc]
    exact ValueMap.get_delete_ne _ (fun e => hc (h e.symm))

theorem upstreamWalk_get_of (u : Upstream) (m : ValueMap) (k : String)
    (h1 : k = "nodes" → u.Nodes = .nil) (h2 : k = "discovery_type" → u.DiscoveryType = "")
    (h3 : k = "_discovery_type" → u.DupDiscoveryType = "")
    (h4 : k = "discovery_args" → u.DiscoveryArgs = none)
    (h5 : k = "_service_name" → u.DupServiceName = "")
    (h6 : k = "service_name" → u.ServiceName = "") : (upstreamWalk u m).get k = m.get k := by
  unfold upstreamWalk
  dsimp only
  rw [ValueMap.get_ite_delete _ _ _ _ h6, ValueMap.get_ite_set _ _ _ _ _ h5,
    ValueMap.get_ite_delete _ _ _ _ h4, ValueMap.get_ite_set _ _ _ _ _ h3,
    ValueMap.get_ite_delete _ _ _ _ h2, ValueMap.get_ite_set _ _ _ _ _ h1]

theorem labelsWalk_get_of (l : Labels) (m : ValueMap) (k : String)
    (h1 : k = "discovery_type" → l.DiscoveryType = "")
    (h2 : k = "service_name" → l.ServiceName = "")
    (h3 : k = "discovery_args.namespace_id" → l.DiscoveryArgsNamespaceID = "")
    (h4 : k = "discovery_args.group_name" → l.DiscoveryArgsGroupName = "")
    (h5 : k = "service_grpc_port" → l.ServiceGrpcPort = "") :
    (labelsWalk l m).get k = m.get k := by
  unfold labelsWalk
  dsimp only
  rw [ValueMap.get_ite_set _ _ _ _ _ h5, ValueMap.get_ite_set _ _ _ _ _ h4,
    ValueMap.get_ite_set _ _ _ _ _ h3, ValueMap.get_ite_set _ _ _ _ _ h2,
    ValueMap.get_ite_set _ _ _ _ _ h1]

theorem upstreamWalk_skips (u : Upstream) (m : ValueMap) {k : String}
    (h : u.reflect.zeroAt k = true) : (upstreamWalk u m).get k = m.get k := by
  rcases upstream_zeroAt h with ⟨hk, hz⟩ | ⟨hk, hz⟩ | ⟨hk, hz⟩ | ⟨hk, hz⟩ | ⟨hk, hz⟩
      | ⟨hk, hz⟩ <;>
    · refine upstreamWalk_get_of u m k ?_ ?_ ?_ ?_ ?_ ?_ <;> intro e <;>
        first
        | exact hz
        | exact absurd (hk.symm.trans e) (by decide)

theorem labelsWalk_skips (l : Labels) (m : ValueMap) {k : String}
    (h : l.reflect.zeroAt k = true) : (labelsWalk l m).get k = m.get k := by
  rcases labels_zeroAt h with ⟨hk, hz⟩ | ⟨hk, hz⟩ | ⟨hk, hz⟩ | ⟨hk, hz⟩ | ⟨hk, hz⟩ <;>
    · refine labelsWalk_get_of l m k ?_ ?_ ?_ ?_ ?_ <;> intro e <;>
        first
        | exact hz
        | exact absurd (hk.symm.trans e) (by decide)

theorem upstreamFieldWalk_skips {u : Upstream} {m m1 : ValueMap} (k : String)
    (h : upstreamFieldWalk u m = some m1) :
    (u = {} → m1 = m) ∧
    (u.reflect.zeroAt k = true →
      (m1.get "upstream").bind (fun c => c.get k)
        = (m.get "upstream").bind (fun c => c.get k)) := by
  unfold upstreamFieldWalk at h
  by_cases hz : u = {}
  · simp only [hz, if_true, Option.some.injEq] at h
    subst h
    exact ⟨fun _ => rfl, fun _ => rfl⟩
  · rw [if_neg hz] at h
    exact ⟨fun h0 => absurd h0 hz,
      fun hk => childWalk_frame h (fun c => upstreamWalk_skips u c hk)⟩

theorem routesWalk_skips {l : Labels} {u : Upstream} {m m2 : ValueMap} (k : String)
    (h : routesWalk l u m = some m2) :
    (l = {} → m2.get "labels" = m.get "labels") ∧
    (u = {} → m2.get "upstream" = m.get "upstream") ∧
    (l = {} → u = {} → m2 = m) ∧
    (l.reflect.zeroAt k = true →
      (m2.get "labels").bind (fun c => c.get k) = (m.get "labels").bind (fun c => c.get k)) ∧
    (u.reflect.zeroAt k = true →
      (m2.get "upstream").bind (fun c => c.get k)
        = (m.get "upstream").bind (fun c => c.get k)) := by
  unfold routesWalk at h
  by_cases hz : l = {}
  · simp only [hz, if_true] at h
    have hf := upstreamFieldWalk_frame "labels" h
    have hs := upstreamFieldWalk_skips k h
    refine ⟨fun _ => hf.1 (by decide), fun h0 => by rw [hs.1 h0], fun _ h0 => hs.1 h0,
      fun _ => ?_, hs.2⟩
    rw [hf.1 (by decide)]
  · simp only [hz, if_false] at h
    cases hc : childWalk (labelsWalk l) "labels" m with
    | none => simp [hc] at h
    | some m1 =>
      simp only [hc] at h
      have hf := upstreamFieldWalk_frame "labels" h
      have hs := upstreamFieldWalk_skips k h
      refine ⟨fun h0 => absurd h0 hz, fun h0 => ?_, fun h0 => absurd h0 hz, fun hk => ?_,
        fun hk => ?_⟩
      · rw [hs.1 h0, childWalk_get_ne hc (by decide)]
      · rw [hf.1 (by decide)]
        exact childWalk_frame hc (fun c => labelsWalk_skips l c hk)
      · rw [hs.2 hk, childWalk_get_ne hc (by decide)]

theorem labels_eq_zero {l : Labels} (h : l.reflect.allZero = true) : l = {} := by
  rw [labels_allZero] at h
  exact of_decide_eq_true h

theorem upstream_eq_zero {u : Upstream} (h : u.reflect.allZero = true) : u = {} := by
  rw [upstream_allZero] at h
  exact of_decide_eq_true h

/-- C14. Zero fields are never projected.  For every document `all` on which
`embedElm` returns `all1` and every key `k`: for an `Upstreams`, if the field
of `Upstream` with serialized name `k` is zero, the entry `k` of the document
is unchanged; for a `Services` and a `Routes`, if the nested struct `Upstream`
(or `Labels`) is all zero, the entry `upstream` (or `labels`) is unchanged, and
if the field with serialized name `k` of the nested struct is zero, the entry
`k` of the child mapping is unchanged (absent stays absent, present keeps its
value), the suppressed fields included.  An overlay whose fields are all zero
leaves the whole document unchanged, and `embedElm` returns on it. -/
theorem zero_fields_not_projected (k : String) (all all1 : GoMap) :
    (∀ ups : Upstreams, embedElm ups.reflect all = some all1 →
      ups.Upstream.reflect.zeroAt k = true → all1.get k = all.get k) ∧
    (∀ s : Services, embedElm s.reflect all = some all1 →
      (s.Upstream.reflect.allZero = true → all1.get "upstream" = all.get "upstream") ∧
      (s.Upstream.reflect.zeroAt k = true →
        (all1.get "upstream").bind (fun c => c.get k)
          = (all.get "upstream").bind (fun c => c.get k))) ∧
    (∀ r : Routes, embedElm r.reflect all = some all1 →
      (r.Labels.reflect.allZero = true → all1.get "labels" = all.get "labels") ∧
      (r.Upstream.reflect.allZero = true → all1.get "upstream" = all.get "upstream") ∧
      (r.Labels.reflect.zeroAt k = true →
        (all1.get "labels").bind (fun c => c.get k)
          = (all.get "labels").bind (fun c => c.get k)) ∧
      (r.Upstream.reflect.zeroAt k = true →
        (all1.get "upstream").bind (fun c => c.get k)
          = (all.get "upstream").bind (fun c => c.get k))) ∧
    (∀ ups : Upstreams, ups.Upstream.reflect.allZero = true →
      embedElm ups.reflect all = some all) ∧
    (∀ s : Services, s.Upstream.reflect.allZero = true →
      embedElm s.reflect all = some all) ∧
    (∀ r : Routes, r.Labels.reflect.allZero = true → r.Upstream.reflect.allZero = true →
      embedElm r.reflect all = some all) := by
  refine ⟨fun ups h hk => ?_, fun s h => ?_, fun r h => ?_, fun ups hz => ?_, fun s hz => ?_,
    fun r hl hz => ?_⟩
  · cases all with
    | none =>
      rw [embedElm_upstreams_nilmap] at h
      split_ifs at h
      simp only [Option.some.injEq] at h
      subst h
      rfl
    | some m =>
      rw [embedElm_upstreams] at h
      simp only [Option.some.injEq] at h
      subst h
      exact upstreamWalk_skips _ _ hk
  · cases all with
    | none =>
      rw [embedElm_services_nilmap] at h
      split_ifs at h
      simp only [Option.some.injEq] at h
      subst h
      exact ⟨fun _ => rfl, fun _ => rfl⟩
    | some m =>
      rw [embedElm_services] at h
      cases hw : upstreamFieldWalk s.Upstream m with
      | none => simp [hw] at h
      | some m2 =>
        simp only [hw, Option.map_some', Option.some.injEq] at h
        subst h
        have hs := upstreamFieldWalk_skips k hw
        exact ⟨fun h0 => by rw [hs.1 (upstream_eq_zero h0)], hs.2⟩
  · cases all with
    | none =>
      rw [embedElm_routes_nilmap] at h
      split_ifs at h
      simp only [Option.some.injEq] at h
      subst h
      exact ⟨fun _ => rfl, fun _ => rfl, fun _ => rfl, fun _ => rfl⟩
    | some m =>
      rw [embedElm_routes] at h
      cases hw : routesWalk r.Labels r.Upstream m with
      | none => simp [hw] at h
      | some m2 =>
        simp only [hw, Option.map_some', Option.some.injEq] at h
        subst h
        have hs := routesWalk_skips k hw
        exact ⟨fun h0 => hs.1 (labels_eq_zero h0), fun h0 => hs.2.1 (upstream_eq_zero h0),
          hs.2.2.2.1, hs.2.2.2.2⟩
  · have h0 := upstream_eq_zero hz
    cases all with
    | none => rw [embedElm_upstreams_nilmap]; simp [h0]
    | some m => rw [embedElm_upstreams, h0, upstreamWalk_zero]
  · have h0 := upstream_eq_zero hz
    cases all with
    | none => rw [embedElm_services_nilmap]; simp [h0]
    | some m => rw [embedElm_services]; simp [upstreamFieldWalk, h0]
  · have h0 := upstream_eq_zero hz
    have h1 := labels_eq_zero hl
    cases all with
    | none => rw [embedElm_routes_nilmap]; simp [h0, h1]
    | some m => rw [embedElm_routes]; simp [routesWalk, upstreamFieldWalk, h0, h1]

theorem zero_fields_not_projected_witness :
    embedElm nullNodesEntity.reflect nullNodesEntity.All
      = some (some (.ofList [("nodes", .nil)])) ∧
    nullNodesEntity.Upstream.reflect.zeroAt "nodes" = true ∧
    GoMap.get (some (.ofList [("nodes", .nil)])) "nodes" = nullNodesEntity.All.get "nodes" ∧
    nullNodesEntity.All.get "nodes" = some .nil :=
  ⟨by decide, by decide,
    (zero_fields_not_projected "nodes" nullNodesEntity.All
      (some (.ofList [("nodes", .nil)]))).1 nullNodesEntity (by decide) (by decide),
    by decide⟩

/-! ## Idempotence of `embedElm` -/

theorem ValueMap.ite_set_eq_self (c : Prop) [Decidable c] (m : ValueMap) (k : String)
    (v : Value) (h : ¬ c → m.get k = some v) : (if c then m else m.set k v) = m := by
  by_cases hc : c
  · rw [if_pos hc]
  · rw [if_neg hc]
    exact ValueMap.set_eq_self m (h hc)

theorem ValueMap.ite_delete_eq_self (c : Prop) [Decidable c] (m : ValueMap) (k : String)
    (h : ¬ c → m.get k = none) : (if c then m else m.delete k) = m := by
  by_cases hc : c
  · rw [if_pos hc]
  · rw [if_neg hc]
    exact ValueMap.delete_eq_self m (h hc)

theorem upstreamWalk_get_dup_discovery_type (u : Upstream) (m : ValueMap)
    (h : u.DupDiscoveryType ≠ "") :
    (upstreamWalk u m).get "_discovery_type" = some (.string u.DupDiscoveryType) := by
  simp only [upstreamWalk]
  rw [ValueMap.get_ite_delete _ _ "_discovery_type" "service_name" (fun e => absurd e (by decide)),
    ValueMap.get_ite_set _ _ "_discovery_type" "_service_name" _ (fun e => absurd e (by decide)),
    ValueMap.get_ite_delete _ _ "_discovery_type" "discovery_args" (fun e => absurd e (by decide)),
    if_neg h,
    ValueMap.get_set_self]

theorem upstreamWalk_get_dup_service_name (u : Upstream) (m : ValueMap)
    (h : u.DupServiceName ≠ "") :
    (upstreamWalk u m).get "_service_name" = some (.string u.DupServiceName) := by
  simp only [upstreamWalk]
  rw [ValueMap.get_ite_delete _ _ "_service_name" "service_name" (fun e => absurd e (by decide)),
    if_neg h,
    ValueMap.get_set_self]

theorem labelsWalk_get_discovery_type (l : Labels) (m : ValueMap)
    (h : l.DiscoveryType ≠ "") :
    (labelsWalk l m).get "discovery_type" = some (.string l.DiscoveryType) := by
  simp only [labelsWalk]
  rw [ValueMap.get_ite_set _ _ "discovery_type" "service_grpc_port" _ (fun e => absurd e (by decide)),
    ValueMap.get_ite_set _ _ "discovery_type" "discovery_args.group_name" _ (fun e => absurd e (by decide)),
    ValueMap.get_ite_set _ _ "discovery_type" "discovery_args.namespace_id" _ (fun e => absurd e (by decide)),
    ValueMap.get_ite_set _ _ "discovery_type" "service_name" _ (fun e => absurd e (by decide)),
    if_neg h,
    ValueMap.get_set_self]

theorem labelsWalk_get_service_name (l : Labels) (m : ValueMap)
    (h : l.ServiceName ≠ "") :
    (labelsWalk l m).get "service_name" = some (.string l.ServiceName) := by
  simp only [labelsWalk]
  rw [ValueMap.get_ite_set _ _ "service_name" "service_grpc_port" _ (fun e => absurd e (by decide)),
    ValueMap.get_ite_set _ _ "service_name" "discovery_args.group_name" _ (fun e => absurd e (by decide)),
    ValueMap.get_ite_set _ _ "service_name" "discovery_args.namespace_id" _ (fun e => absurd e (by decide)),
    if_neg h,
    ValueMap.get_set_self]

theorem labelsWalk_get_namespace_id (l : Labels) (m : ValueMap)
    (h : l.DiscoveryArgsNamespaceID ≠ "") :
    (labelsWalk l m).get "discovery_args.namespace_id" = some (.string l.DiscoveryArgsNamespaceID) := by
  simp only [labelsWalk]
  rw [ValueMap.get_ite_set _ _ "discovery_args.namespace_id" "service_grpc_port" _ (fun e => absurd e (by decide)),
    ValueMap.get_ite_set _ _ "discovery_args.namespace_id" "discovery_args.group_name" _ (fun e => absurd e (by decide)),
    if_neg h,
    ValueMap.get_set_self]

theorem labelsWalk_get_group_name (l : Labels) (m : ValueMap)
    (h : l.DiscoveryArgsGroupName ≠ "") :
    (labelsWalk l m).get "discovery_args.group_name" = some (.string l.DiscoveryArgsGroupName) := by
  simp only [labelsWalk]
  rw [ValueMap.get_ite_set _ _ "discovery_args.group_name" "service_grpc_port" _ (fun e => absurd e (by decide)),
    if_neg h,
    ValueMap.get_set_self]

theorem labelsWalk_get_grpc_port (l : Labels) (m : ValueMap)
    (h : l.ServiceGrpcPort ≠ "") :
    (labelsWalk l m).get "service_grpc_port" = some (.string l.ServiceGrpcPort) := by
  simp only [labelsWalk]
  rw [if_neg h,
    ValueMap.get_set_self]

theorem upstreamWalk_fix (u : Upstream) (w : ValueMap)
    (h1 : u.Nodes ≠ .nil → w.get "nodes" = some u.Nodes)
    (h2 : u.DiscoveryType ≠ "" → w.get "discovery_type" = none)
    (h3 : u.DupDiscoveryType ≠ "" → w.get "_discovery_type" = some (.string u.DupDiscoveryType))
    (h4 : u.DiscoveryArgs ≠ none → w.get "discovery_args" = none)
    (h5 : u.DupServiceName ≠ "" → w.get "_service_name" = some (.string u.DupServiceName))
    (h6 : u.ServiceName ≠ "" → w.get "service_name" = none) : upstreamWalk u w = w := by
  simp only [upstreamWalk]
  rw [ValueMap.ite_set_eq_self _ _ _ _ h1, ValueMap.ite_delete_eq_self _ _ _ h2,
    ValueMap.ite_set_eq_self _ _ _ _ h3, ValueMap.ite_delete_eq_self _ _ _ h4,
    ValueMap.ite_set_eq_self _ _ _ _ h5, ValueMap.ite_delete_eq_self _ _ _ h6]

theorem upstreamWalk_idem (u : Upstream) (m : ValueMap) :
    upstreamWalk u (upstreamWalk u m) = upstreamWalk u m :=
  upstreamWalk_fix u _ (upstreamWalk_get_nodes u m) (upstreamWalk_get_discovery_type u m)
    (upstreamWalk_get_dup_discovery_type u m) (upstreamWalk_get_discovery_args u m)
    (upstreamWalk_get_dup_service_name u m) (upstreamWalk_get_service_name u m)

theorem labelsWalk_idem (l : Labels) (m : ValueMap) :
    labelsWalk l (labelsWalk l m) = labelsWalk l m := by
  generalize hw : labelsWalk l m = w
  have h1 := labelsWalk_get_discovery_type l m
  have h2 := labelsWalk_get_service_name l m
  have h3 := labelsWalk_get_namespace_id l m
  have h4 := labelsWalk_get_group_name l m
  have h5 := labelsWalk_get_grpc_port l m
  rw [hw] at h1 h2 h3 h4 h5
  simp only [labelsWalk]
  rw [ValueMap.ite_set_eq_self _ _ _ _ h1, ValueMap.ite_set_eq_self _ _ _ _ h2,
    ValueMap.ite_set_eq_self _ _ _ _ h3, ValueMap.ite_set_eq_self _ _ _ _ h4,
    ValueMap.ite_set_eq_self _ _ _ _ h5]

theorem childWalk_idem {walk : ValueMap → ValueMap} {key : String} {m m1 : ValueMap}
    (hw : ∀ c, walk (walk c) = walk c) (h : childWalk walk key m = some m1) :
    childWalk walk key m1 = some m1 := by
  obtain ⟨c, hget, -⟩ := childWalk_get_self h
  exact childWalk_eq_self hget (hw c)

theorem upstreamFieldWalk_idem {u : Upstream} {m m1 : ValueMap}
    (h : upstreamFieldWalk u m = some m1) : upstreamFieldWalk u m1 = some m1 := by
  unfold upstreamFieldWalk at h ⊢
  by_cases hz : u = {}
  · rw [if_pos hz]
  · rw [if_neg hz] at h ⊢
    exact childWalk_idem (upstreamWalk_idem u) h

theorem routesWalk_idem {l : Labels} {u : Upstream} {m m2 : ValueMap}
    (h : routesWalk l u m = some m2) : routesWalk l u m2 = some m2 := by
  unfold routesWalk at h ⊢
  by_cases hz : l = {}
  · simp only [hz, if_true] at h ⊢
    exact upstreamFieldWalk_idem h
  · simp only [hz, if_false] at h ⊢
    cases hc : childWalk (labelsWalk l) "labels" m with
    | none => simp [hc] at h
    | some m1 =>
      simp only [hc] at h
      obtain ⟨c, hget, -⟩ := childWalk_get_self hc
      have hget2 : m2.get "labels" = some (.map (labelsWalk l c)) := by
        rw [(upstreamFieldWalk_frame "labels" h).1 (by decide), hget]
      rw [childWalk_eq_self hget2 (labelsWalk_idem l c)]
      exact upstreamFieldWalk_idem h

theorem embedElm_upstreams_idem {ups : Upstreams} {all all1 : GoMap}
    (h : embedElm ups.reflect all = some all1) : embedElm ups.reflect all1 = some all1 := by
  cases all with
  | none =>
    rw [embedElm_upstreams_nilmap] at h
    split_ifs at h with hc
    simp only [Option.some.injEq] at h
    subst h
    rw [embedElm_upstreams_nilmap, if_pos hc]
  | some m =>
    rw [embedElm_upstreams] at h
    simp only [Option.some.injEq] at h
    subst h
    rw [embedElm_upstreams, upstreamWalk_idem]

theorem embedElm_services_idem {s : Services} {all all1 : GoMap}
    (h : embedElm s.reflect all = some all1) : embedElm s.reflect all1 = some all1 := by
  cases all with
  | none =>
    rw [embedElm_services_nilmap] at h
    split_ifs at h with hc
    simp only [Option.some.injEq] at h
    subst h
    rw [embedElm_services_nilmap, if_pos hc]
  | some m =>
    rw [embedElm_services] at h
    cases hw : upstreamFieldWalk s.Upstream m with
    | none => simp [hw] at h
    | some m1 =>
      simp only [hw, Option.map_some', Option.some.injEq] at h
      subst h
      rw [embedElm_services, upstreamFieldWalk_idem hw]
      rfl

theorem embedElm_routes_idem {r : Routes} {all all1 : GoMap}
    (h : embedElm r.reflect all = some all1) : embedElm r.reflect all1 = some all1 := by
  cases all with
  | none =>
    rw [embedElm_routes_nilmap] at h
    split_ifs at h with hc
    simp only [Option.some.injEq] at h
    subst h
    rw [embedElm_routes_nilmap, if_pos hc]
  | some m =>
    rw [embedElm_routes] at h
    cases hw : routesWalk r.Labels r.Upstream m with
    | none => simp [hw] at h
    | some m1 =>
      simp only [hw, Option.map_some', Option.some.injEq] at h
      subst h
      rw [embedElm_routes, routesWalk_idem hw]
      rfl

/-! ## Encoding and the walk -/

theorem Value.encode_eq_nil (heap : Heap) (v : Value) : v.encode heap = .nil ↔ v = .nil := by
  cases v <;> simp [Value.encode]

theorem ValueMap.encode_set (heap : Heap) (m : ValueMap) (k : String) (v : Value) :
    (m.set k v).encode heap = (m.encode heap).set k (v.encode heap) := by
  induction m using ValueMap.induct with
  | nil => simp [ValueMap.set, ValueMap.encode]
  | cons k1 v1 rest ih =>
    by_cases h : k1 = k <;> simp [ValueMap.set, ValueMap.encode, h, ih]

theorem ValueMap.encode_delete (heap : Heap) (m : ValueMap) (k : String) :
    (m.delete k).encode heap = (m.encode heap).delete k := by
  induction m using ValueMap.induct with
  | nil => simp [ValueMap.delete, ValueMap.encode]
  | cons k1 v1 rest ih =>
    by_cases h : k1 = k <;> simp [ValueMap.delete, ValueMap.encode, h, ih]

theorem ValueMap.encode_ite_set (heap : Heap) (c : Prop) [Decidable c] (m : ValueMap)
    (k : String) (v : Value) :
    (if c then m else m.set k v).encode heap
      = if c then m.encode heap else (m.encode heap).set k (v.encode heap) := by
  split_ifs
  · rfl
  · exact ValueMap.encode_set heap m k v

theorem ValueMap.encode_ite_delete (heap : Heap) (c : Prop) [Decidable c] (m : ValueMap)
    (k : String) :
    (if c then m else m.delete k).encode heap
      = if c then m.encode heap else (m.encode heap).delete k := by
  split_ifs
  · rfl
  · exact ValueMap.encode_delete heap m k

theorem upstreamWalk_encode (heap : Heap) (u : Upstream) (m : ValueMap) :
    (upstreamWalk u m).encode heap = upstreamWalk (u.encoded heap) (m.encode heap) := by
  have hn : (u.Nodes.encode heap = .nil) = (u.Nodes = .nil) :=
    propext (Value.encode_eq_nil heap u.Nodes)
  simp only [upstreamWalk, Upstream.encoded, ValueMap.encode_ite_set,
    ValueMap.encode_ite_delete, Value.encode, hn]

theorem labelsWalk_encode (heap : Heap) (l : Labels) (m : ValueMap) :
    (labelsWalk l m).encode heap = labelsWalk l (m.encode heap) := by
  simp only [labelsWalk, ValueMap.encode_ite_set, Value.encode]

theorem childWalk_encode (heap : Heap) {walk walk2 : ValueMap → ValueMap} (key : String)
    (m : ValueMap) (hw : ∀ c, (walk c).encode heap = walk2 (c.encode heap)) :
    (childWalk walk key m).map (ValueMap.encode heap) = childWalk walk2 key (m.encode heap) := by
  unfold childWalk
  rw [ValueMap.get_encode]
  cases hg : m.get key with
  | none => simp [ValueMap.encode_set, Value.encode, hw, ValueMap.encode]
  | some v => cases v <;> simp [ValueMap.encode_set, Value.encode, hw]

theorem Upstream.encoded_eq_zero (heap : Heap) (u : Upstream) : u.encoded heap = {} ↔ u = {} := by
  rcases u with ⟨n, a, b, c, d, e⟩
  simp only [Upstream.encoded]
  constructor
  · intro h
    injection h with h1 h2 h3 h4 h5 h6
    rw [(Value.encode_eq_nil heap n).1 h1, h2, h3, h4, h5, h6]
  · intro h
    injection h with h1 h2 h3 h4 h5 h6
    rw [h1, h2, h3, h4, h5, h6]
    simp [Value.encode]

theorem upstreamFieldWalk_encode (heap : Heap) (u : Upstream) (m : ValueMap) :
    (upstreamFieldWalk u m).map (ValueMap.encode heap)
      = upstreamFieldWalk (u.encoded heap) (m.encode heap) := by
  unfold upstreamFieldWalk
  by_cases hz : u = {}
  · rw [if_pos hz, if_pos ((Upstream.encoded_eq_zero heap u).2 hz)]
    rfl
  · rw [if_neg hz, if_neg (mt (Upstream.encoded_eq_zero heap u).1 hz)]
    exact childWalk_encode heap "upstream" m (upstreamWalk_encode heap u)

theorem routesWalk_encode (heap : Heap) (l : Labels) (u : Upstream) (m : ValueMap) :
    (routesWalk l u m).map (ValueMap.encode heap)
      = routesWalk l (u.encoded heap) (m.encode heap) := by
  unfold routesWalk
  by_cases hz : l = {}
  · simp only [hz, if_true]
    exact upstreamFieldWalk_encode heap u m
  · simp only [hz, if_false]
    rw [← childWalk_encode heap "labels" m (labelsWalk_encode heap l)]
    cases childWalk (labelsWalk l) "labels" m with
    | none => rfl
    | some m1 => exact upstreamFieldWalk_encode heap u m1

/-! ## Node lists and the heap -/

theorem encode_reads {heap : Heap} {qs : List Nat} {ns : List Node}
    (h : List.Forall₂ (fun a n => heap[a]? = some n) qs ns) (ext : Heap) :
    qs.map (encodeNode (heap ++ ext)) = ns.map nodeJSON := by
  induction h with
  | nil => rfl
  | cons ha _ ih =>
    obtain ⟨hlt, _⟩ := List.getElem?_eq_some.1 ha
    simp only [List.map_cons, ih]
    congr 1
    unfold encodeNode
    rw [List.getElem?_append_left hlt, ha]

theorem range_reads (heap copies : Heap) :
    List.Forall₂ (fun a n => (heap ++ copies)[a]? = some n)
      (List.range' heap.length copies.length) copies := by
  induction copies generalizing heap with
  | nil => exact List.Forall₂.nil
  | cons x rest ih =>
    have h0 : (heap ++ x :: rest)[heap.length]? = some x := by
      rw [List.getElem?_append_right (le_refl _)]
      simp
    have ih1 := ih (heap ++ [x])
    simp only [List.length_append, List.length_singleton, List.append_assoc,
      List.singleton_append] at ih1
    simp only [List.length_cons, List.range'_succ]
    exact List.Forall₂.cons h0 ih1

theorem encodeNode_append (heap ext : Heap) {p : Nat} (h : p < heap.length) :
    encodeNode (heap ++ ext) p = encodeNode heap p := by
  unfold encodeNode
  rw [List.getElem?_append_left h]

mutual
theorem Value.encode_append (heap ext : Heap) :
    ∀ v : Value, v.allocated heap = true → v.encode (heap ++ ext) = v.encode heap
  | .nil, _ => rfl
  | .bool _, _ => rfl
  | .number _, _ => rfl
  | .string _, _ => rfl
  | .nodes ps, h => by
    simp only [Value.allocated, List.all_eq_true, decide_eq_true_eq] at h
    simp only [Value.encode]
    congr 2
    exact List.map_congr_left (fun p hp => encodeNode_append heap ext (h p hp))
  | .list xs, h => by
    rw [Value.encode, Value.encode,
      ValueList.encodeList_append heap ext xs (by simpa [Value.allocated] using h)]
  | .map m, h => by
    rw [Value.encode, Value.encode,
      ValueMap.encodeMap_append heap ext m (by simpa [Value.allocated] using h)]
theorem ValueList.encodeList_append (heap ext : Heap) :
    ∀ xs : ValueList, xs.allocated heap = true → xs.encode (heap ++ ext) = xs.encode heap
  | .nil, _ => rfl
  | .cons v rest, h => by
    simp only [ValueList.allocated, Bool.and_eq_true] at h
    rw [ValueList.encode, ValueList.encode, Value.encode_append heap ext v h.1,
      ValueList.encodeList_append heap ext rest h.2]
theorem ValueMap.encodeMap_append (heap ext : Heap) :
    ∀ m : ValueMap, m.allocated heap = true → m.encode (heap ++ ext) = m.encode heap
  | .nil, _ => rfl
  | .cons k v rest, h => by
    simp only [ValueMap.allocated, Bool.and_eq_true] at h
    rw [ValueMap.encode, ValueMap.encode, Value.encode_append heap ext v h.1,
      ValueMap.encodeMap_append heap ext rest h.2]
end

/-! ## Round trip -/

theorem ValueMap.append_nil (m : ValueMap) : m.append .nil = m := by
  induction m using ValueMap.induct with
  | nil => rfl
  | cons k v rest ih => simp [ValueMap.append, ih]

theorem ValueMap.set_append (acc : ValueMap) (k : String) (v : Value) (rest : ValueMap)
    (h : acc.get k = none) : (acc.set k v).append rest = acc.append (.cons k v rest) := by
  induction acc using ValueMap.induct with
  | nil => rfl
  | cons k1 v1 r ih =>
    by_cases hk : k1 = k
    · simp [ValueMap.get, hk] at h
    · simp only [ValueMap.get, hk, if_false] at h
      simp only [ValueMap.set, hk, if_false, ValueMap.append, ih h]

theorem convertNumber_exact {n : Int} (h : n.natAbs ≤ 2 ^ 53) : convertNumber n = some n := by
  simp only [convertNumber]
  rw [if_pos h]

theorem formatFloat_exact {n : Int} (h : n.natAbs ≤ 2 ^ 53) : formatFloat n = n := by
  simp only [formatFloat]
  rw [if_pos h]

mutual
theorem Value.toInterface_canonical : ∀ v : Value, v.canonical = true → v.toInterface = some v
  | .nil, _ => rfl
  | .bool _, _ => rfl
  | .string _, _ => rfl
  | .number n, h => by
    simp only [Value.canonical, decide_eq_true_eq] at h
    simp only [Value.toInterface, convertNumber_exact h]
  | .nodes _, h => by simp [Value.canonical] at h
  | .list xs, h => by
    simp only [Value.toInterface,
      ValueList.toInterfaceList_canonical xs (by simpa [Value.canonical] using h)]
  | .map m, h => by
    simp only [Value.toInterface,
      ValueMap.toInterfaceMap_canonical m .nil (by simpa [Value.canonical] using h)
        (fun _ _ => rfl), ValueMap.append]
theorem ValueList.toInterfaceList_canonical :
    ∀ xs : ValueList, xs.canonical = true → xs.toInterface = some xs
  | .nil, _ => rfl
  | .cons v rest, h => by
    simp only [ValueList.canonical, Bool.and_eq_true] at h
    simp only [ValueList.toInterface, Value.toInterface_canonical v h.1,
      ValueList.toInterfaceList_canonical rest h.2]
theorem ValueMap.toInterfaceMap_canonical :
    ∀ (m acc : ValueMap), m.canonical = true → (∀ k, m.get k ≠ none → acc.get k = none) →
      m.toInterface acc = some (acc.append m)
  | .nil, acc, _, _ => by simp [ValueMap.toInterface, ValueMap.append_nil]
  | .cons k v rest, acc, h, hacc => by
    simp only [ValueMap.canonical, Bool.and_eq_true, Option.isNone_iff_eq_none] at h
    have hk : acc.get k = none := hacc k (by simp [ValueMap.get])
    simp only [ValueMap.toInterface, Value.toInterface_canonical v h.1.1]
    rw [ValueMap.toInterfaceMap_canonical rest (acc.set k v) h.1.2, ValueMap.set_append acc k v rest hk]
    intro k2 hk2
    have hne : k ≠ k2 := fun e => hk2 (e ▸ h.2)
    rw [ValueMap.get_set_ne acc v hne]
    exact hacc k2 (by simpa [ValueMap.get, hne] using hk2)
end

mutual
theorem Value.encode_canonical (heap : Heap) :
    ∀ v : Value, v.canonical = true → v.encode heap = v
  | .nil, _ => rfl
  | .bool _, _ => rfl
  | .string _, _ => rfl
  | .number n, h => by
    simp only [Value.canonical, decide_eq_true_eq] at h
    simp only [Value.encode, formatFloat_exact h]
  | .nodes _, h => by simp [Value.canonical] at h
  | .list xs, h => by
    rw [Value.encode, ValueList.encodeList_canonical heap xs (by simpa [Value.canonical] using h)]
  | .map m, h => by
    rw [Value.encode, ValueMap.encodeMap_canonical heap m (by simpa [Value.canonical] using h)]
theorem ValueList.encodeList_canonical (heap : Heap) :
    ∀ xs : ValueList, xs.canonical = true → xs.encode heap = xs
  | .nil, _ => rfl
  | .cons v rest, h => by
    simp only [ValueList.canonical, Bool.and_eq_true] at h
    rw [ValueList.encode, Value.encode_canonical heap v h.1,
      ValueList.encodeList_canonical heap rest h.2]
theorem ValueMap.encodeMap_canonical (heap : Heap) :
    ∀ m : ValueMap, m.canonical = true → m.encode heap = m
  | .nil, _ => rfl
  | .cons k v rest, h => by
    simp only [ValueMap.canonical, Bool.and_eq_true] at h
    rw [ValueMap.encode, Value.encode_canonical heap v h.1.1,
      ValueMap.encodeMap_canonical heap rest h.1.2]
end

theorem ValueMap.canonical_get {m : ValueMap} {k : String} {v : Value}
    (hm : m.canonical = true) (h : m.get k = some v) : v.canonical = true := by
  induction m using ValueMap.induct with
  | nil => simp [ValueMap.get] at h
  | cons k1 v1 rest ih =>
    simp only [ValueMap.canonical, Bool.and_eq_true] at hm
    by_cases h1 : k1 = k
    · simp only [ValueMap.get, h1, if_true, Option.some.injEq] at h
      rw [← h]
      exact hm.1.1
    · simp only [ValueMap.get, h1, if_false] at h
      exact ih hm.1.2 h

theorem keyMatches_self (k : String) : keyMatches k k = true := by
  simp [keyMatches]

theorem decodeObject_field {α β : Type} {store : α → String → Value → Option α}
    (proj : α → β) (upd : β → Value → Option β) (tag : String)
    (hstore : ∀ a k v a1, store a k v = some a1 →
      (keyMatches k tag = true → upd (proj a) v = some (proj a1)) ∧
      (keyMatches k tag = false → proj a1 = proj a))
    (tags : List String) (ht : tag ∈ tags) (m : ValueMap) :
    ∀ a a1 : α, decodeObject store m a = some a1 → m.canonical = true →
      m.spells tags = true →
      (∀ v, m.get tag = some v → upd (proj a) v = some (proj a1)) ∧
      (m.get tag = none → proj a1 = proj a) := by
  induction m using ValueMap.induct with
  | nil =>
    intro a a1 h _ _
    simp only [decodeObject, Option.some.injEq] at h
    simp [ValueMap.get, h]
  | cons k v rest ih =>
    intro a a1 h hc hs
    simp only [decodeObject] at h
    cases hst : store a k v with
    | none => simp [hst] at h
    | some a2 =>
      simp only [hst] at h
      simp only [ValueMap.canonical, Bool.and_eq_true, Option.isNone_iff_eq_none] at hc
      simp only [ValueMap.spells, Bool.and_eq_true, List.all_eq_true, Bool.or_eq_true,
        Bool.not_eq_true', decide_eq_true_eq] at hs
      obtain ⟨hrs, hrn⟩ := ih a2 a1 h hc.1.2 hs.2
      obtain ⟨hyes, hno⟩ := hstore a k v a2 hst
      by_cases hk : k = tag
      · subst hk
        have hp := hrn hc.2
        refine ⟨fun w hw => ?_, fun hn => ?_⟩
        · simp only [ValueMap.get, if_true, Option.some.injEq] at hw
          subst hw
          rw [hp]
          exact hyes (keyMatches_self k)
        · simp [ValueMap.get] at hn
      · have hkm : keyMatches k tag = false := by
          rcases hs.1 tag ht with h1 | h1
          · exact h1
          · exact absurd h1 hk
        have hp := hno hkm
        simp only [ValueMap.get, hk, if_false]
        rw [← hp]
        exact ⟨hrs, hrn⟩

theorem keyMatches_excl {k a b : String} (ha : keyMatches k a = true)
    (hb : keyMatches k b = true) : foldName a = foldName b := by
  simp only [keyMatches, decide_eq_true_eq] at ha hb
  rw [← ha, ← hb]

theorem Upstream.storeField_dup_discovery_type {u u1 : Upstream} {k : String} {v : Value}
    (h : u.storeField k v = some u1) :
    (keyMatches k "_discovery_type" = true →
      storeString u.DupDiscoveryType v = some u1.DupDiscoveryType) ∧
    (keyMatches k "_discovery_type" = false → u1.DupDiscoveryType = u.DupDiscoveryType) := by
  simp only [Upstream.storeField] at h
  split_ifs at h with h1 h2 h3 h4 h5 h6
  all_goals
    refine ⟨fun hc => ?_, fun hc => ?_⟩
  all_goals
    first
    | exact absurd (keyMatches_excl h1 hc) (by decide)
    | exact absurd (keyMatches_excl h2 hc) (by decide)
    | exact absurd (keyMatches_excl h4 hc) (by decide)
    | exact absurd (keyMatches_excl h5 hc) (by decide)
    | exact absurd (keyMatches_excl h6 hc) (by decide)
    | exact absurd hc h3
    | (simp only [Option.map_eq_some'] at h
       obtain ⟨s, hs, rfl⟩ := h
       exact hs)
    | (simp only [Option.map_eq_some'] at h
       obtain ⟨s, -, rfl⟩ := h
       rfl)
    | (simp only [Option.some.injEq] at h
       subst h
       rfl)
    | (rw [h3] at hc
       cases hc)

theorem Upstream.storeField_dup_service_name {u u1 : Upstream} {k : String} {v : Value}
    (h : u.storeField k v = some u1) :
    (keyMatches k "_service_name" = true →
      storeString u.DupServiceName v = some u1.DupServiceName) ∧
    (keyMatches k "_service_name" = false → u1.DupServiceName = u.DupServiceName) := by
  simp only [Upstream.storeField] at h
  split_ifs at h with h1 h2 h3 h4 h5 h6
  all_goals
    refine ⟨fun hc => ?_, fun hc => ?_⟩
  all_goals
    first
    | exact absurd (keyMatches_excl h1 hc) (by decide)
    | exact absurd (keyMatches_excl h2 hc) (by decide)
    | exact absurd (keyMatches_excl h3 hc) (by decide)
    | exact absurd (keyMatches_excl h4 hc) (by decide)
    | exact absurd (keyMatches_excl h6 hc) (by decide)
    | exact absurd hc h5
    | (simp only [Option.map_eq_some'] at h
       obtain ⟨s, hs, rfl⟩ := h
       exact hs)
    | (simp only [Option.map_eq_some'] at h
       obtain ⟨s, -, rfl⟩ := h
       rfl)
    | (simp only [Option.some.injEq] at h
       subst h
       rfl)
    | (rw [h5] at hc
       cases hc)

theorem Labels.storeField_discovery_type {l l1 : Labels} {k : String} {v : Value}
    (h : l.storeField k v = some l1) :
    (keyMatches k "discovery_type" = true →
      storeString l.DiscoveryType v = some l1.DiscoveryType) ∧
    (keyMatches k "discovery_type" = false → l1.DiscoveryType = l.DiscoveryType) := by
  simp only [Labels.storeField] at h
  split_ifs at h with h1 h2 h3 h4 h5
  all_goals
    refine ⟨fun hc => ?_, fun hc => ?_⟩
  all_goals
    first
    | exact absurd (keyMatches_excl h2 hc) (by decide)
    | exact absurd (keyMatches_excl h3 hc) (by decide)
    | exact absurd (keyMatches_excl h4 hc) (by decide)
    | exact absurd (keyMatches_excl h5 hc) (by decide)
    | exact absurd hc h1
    | (simp only [Option.map_eq_some'] at h
       obtain ⟨s, hs, rfl⟩ := h
       exact hs)
    | (simp only [Option.map_eq_some'] at h
       obtain ⟨s, -, rfl⟩ := h
       rfl)
    | (simp only [Option.some.injEq] at h
       subst h
       rfl)
    | (rw [h1] at hc
       cases hc)

theorem Labels.storeField_service_name {l l1 : Labels} {k : String} {v : Value}
    (h : l.storeField k v = some l1) :
    (keyMatches k "service_name" = true →
      storeString l.ServiceName v = some l1.ServiceName) ∧
    (keyMatches k "service_name" = false → l1.ServiceName = l.ServiceName) := by
  simp only [Labels.storeField] at h
  split_ifs at h with h1 h2 h3 h4 h5
  all_goals
    refine ⟨fun hc => ?_, fun hc => ?_⟩
  all_goals
    first
    | exact absurd (keyMatches_excl h1 hc) (by decide)
    | exact absurd (keyMatches_excl h3 hc) (by decide)
    | exact absurd (keyMatches_excl h4 hc) (by decide)
    | exact absurd (keyMatches_excl h5 hc) (by decide)
    | exact absurd hc h2
    | (simp only [Option.map_eq_some'] at h
       obtain ⟨s, hs, rfl⟩ := h
       exact hs)
    | (simp only [Option.map_eq_some'] at h
       obtain ⟨s, -, rfl⟩ := h
       rfl)
    | (simp only [Option.some.injEq] at h
       subst h
       rfl)
    | (rw [h2] at hc
       cases hc)

theorem Labels.storeField_namespace_id {l l1 : Labels} {k : String} {v : Value}
    (h : l.storeField k v = some l1) :
    (keyMatches k "discovery_args.namespace_id" = true →
      storeString l.DiscoveryArgsNamespaceID v = some l1.DiscoveryArgsNamespaceID) ∧
    (keyMatches k "discovery_args.namespace_id" = false → l1.DiscoveryArgsNamespaceID = l.DiscoveryArgsNamespaceID) := by
  simp only [Labels.storeField] at h
  split_ifs at h with h1 h2 h3 h4 h5
  all_goals
    refine ⟨fun hc => ?_, fun hc => ?_⟩
  all_goals
    first
    | exact absurd (keyMatches_excl h1 hc) (by decide)
    | exact absurd (keyMatches_excl h2 hc) (by decide)
    | exact absurd (keyMatches_excl h4 hc) (by decide)
    | exact absurd (keyMatches_excl h5 hc) (by decide)
    | exact absurd hc h3
    | (simp only [Option.map_eq_some'] at h
       obtain ⟨s, hs, rfl⟩ := h
       exact hs)
    | (simp only [Option.map_eq_some'] at h
       obtain ⟨s, -, rfl⟩ := h
       rfl)
    | (simp only [Option.some.injEq] at h
       subst h
       rfl)
    | (rw [h3] at hc
       cases hc)

theorem Labels.storeField_group_name {l l1 : Labels} {k : String} {v : Value}
    (h : l.storeField k v = some l1) :
    (keyMatches k "discovery_args.group_name" = true →
      storeString l.DiscoveryArgsGroupName v = some l1.DiscoveryArgsGroupName) ∧
    (keyMatches k "discovery_args.group_name" = false → l1.DiscoveryArgsGroupName = l.DiscoveryArgsGroupName) := by
  simp only [Labels.storeField] at h
  split_ifs at h with h1 h2 h3 h4 h5
  all_goals
    refine ⟨fun hc => ?_, fun hc => ?_⟩
  all_goals
    first
    | exact absurd (keyMatches_excl h1 hc) (by decide)
    | exact absurd (keyMatches_excl h2 hc) (by decide)
    | exact absurd (keyMatches_excl h3 hc) (by decide)
    | exact absurd (keyMatches_excl h5 hc) (by decide)
    | exact absurd hc h4
    | (simp only [Option.map_eq_some'] at h
       obtain ⟨s, hs, rfl⟩ := h
       exact hs)
    | (simp only [Option.map_eq_some'] at h
       obtain ⟨s, -, rfl⟩ := h
       rfl)
    | (simp only [Option.some.injEq] at h
       subst h
       rfl)
    | (rw [h4] at hc
       cases hc)

theorem Labels.storeField_grpc_port {l l1 : Labels} {k : String} {v : Value}
    (h : l.storeField k v = some l1) :
    (keyMatches k "service_grpc_port" = true →
      storeString l.ServiceGrpcPort v = some l1.ServiceGrpcPort) ∧
    (keyMatches k "service_grpc_port" = false → l1.ServiceGrpcPort = l.ServiceGrpcPort) := by
  simp only [Labels.storeField] at h
  split_ifs at h with h1 h2 h3 h4 h5
  all_goals
    refine ⟨fun hc => ?_, fun hc => ?_⟩
  all_goals
    first
    | exact absurd (keyMatches_excl h1 hc) (by decide)
    | exact absurd (keyMatches_excl h2 hc) (by decide)
    | exact absurd (keyMatches_excl h3 hc) (by decide)
    | exact absurd (keyMatches_excl h4 hc) (by decide)
    | exact absurd hc h5
    | (simp only [Option.map_eq_some'] at h
       obtain ⟨s, hs, rfl⟩ := h
       exact hs)
    | (simp only [Option.map_eq_some'] at h
       obtain ⟨s, -, rfl⟩ := h
       rfl)
    | (simp only [Option.some.injEq] at h
       subst h
       rfl)
    | (rw [h5] at hc
       cases hc)

theorem Routes.storeField_labels {r r1 : Routes} {k : String} {v : Value}
    (h : r.storeField k v = some r1) :
    (keyMatches k "labels" = true →
      storeLabels r.Labels v = some r1.Labels) ∧
    (keyMatches k "labels" = false → r1.Labels = r.Labels) := by
  simp only [Routes.storeField] at h
  split_ifs at h with h1 h2
  all_goals
    refine ⟨fun hc => ?_, fun hc => ?_⟩
  all_goals
    first
    | exact absurd (keyMatches_excl h2 hc) (by decide)
    | exact absurd hc h1
    | (simp only [Option.map_eq_some'] at h
       obtain ⟨s, hs, rfl⟩ := h
       exact hs)
    | (simp only [Option.map_eq_some'] at h
       obtain ⟨s, -, rfl⟩ := h
       rfl)
    | (simp only [Option.some.injEq] at h
       subst h
       rfl)
    | (rw [h1] at hc
       cases hc)

theorem Routes.storeField_routes_upstream {r r1 : Routes} {k : String} {v : Value}
    (h : r.storeField k v = some r1) :
    (keyMatches k "upstream" = true →
      storeUpstream r.Upstream v = some r1.Upstream) ∧
    (keyMatches k "upstream" = false → r1.Upstream = r.Upstream) := by
  simp only [Routes.storeField] at h
  split_ifs at h with h1 h2
  all_goals
    refine ⟨fun hc => ?_, fun hc => ?_⟩
  all_goals
    first
    | exact absurd (keyMatches_excl h1 hc) (by decide)
    | exact absurd hc h2
    | (simp only [Option.map_eq_some'] at h
       obtain ⟨s, hs, rfl⟩ := h
       exact hs)
    | (simp only [Option.map_eq_some'] at h
       obtain ⟨s, -, rfl⟩ := h
       rfl)
    | (simp only [Option.some.injEq] at h
       subst h
       rfl)
    | (rw [h2] at hc
       cases hc)

theorem Services.storeField_services_upstream {s s1 : Services} {k : String} {v : Value}
    (h : s.storeField k v = some s1) :
    (keyMatches k "upstream" = true →
      storeUpstream s.Upstream v = some s1.Upstream) ∧
    (keyMatches k "upstream" = false → s1.Upstream = s.Upstream) := by
  simp only [Services.storeField] at h
  split_ifs at h with h1
  · simp only [Option.map_eq_some'] at h
    obtain ⟨u, hu, rfl⟩ := h
    exact ⟨fun _ => hu, fun hc => by rw [h1] at hc; cases hc⟩
  · simp only [Option.some.injEq] at h
    subst h
    exact ⟨fun hc => absurd hc h1, fun _ => rfl⟩

theorem storeString_ne_empty {v : Value} {s : String} (h : storeString "" v = some s)
    (hs : s ≠ "") : v = .string s := by
  cases v with
  | nil =>
    simp only [storeString, Option.some.injEq] at h
    exact absurd h.symm hs
  | string t =>
    simp only [storeString, Option.some.injEq] at h
    rw [h]
  | _ => simp [storeString] at h

theorem string_field_get {α : Type} {store : α → String → Value → Option α}
    (proj : α → String) (tag : String)
    (hstore : ∀ a k v a1, store a k v = some a1 →
      (keyMatches k tag = true → storeString (proj a) v = some (proj a1)) ∧
      (keyMatches k tag = false → proj a1 = proj a))
    (tags : List String) (ht : tag ∈ tags) {m : ValueMap} {a a1 : α}
    (hd : decodeObject store m a = some a1) (hc : m.canonical = true)
    (hs : m.spells tags = true) (ha : proj a = "") (hne : proj a1 ≠ "") :
    m.get tag = some (.string (proj a1)) := by
  obtain ⟨hyes, hno⟩ := decodeObject_field proj storeString tag hstore tags ht m a a1 hd hc hs
  cases hg : m.get tag with
  | none => exact absurd ((hno hg).trans ha) hne
  | some v =>
    have h := hyes v hg
    rw [ha] at h
    rw [storeString_ne_empty h hne]

theorem upstream_nodes_get {um : ValueMap} {u : Upstream}
    (hd : decodeObject Upstream.storeField um {} = some u) (hc : um.canonical = true)
    (hs : um.spells upstreamKeys = true) (hne : u.Nodes ≠ .nil) :
    um.get "nodes" = some u.Nodes := by
  obtain ⟨hyes, hno⟩ := decodeObject_field (fun a : Upstream => a.Nodes)
    (fun _ v => v.toInterface) "nodes" (fun a k v a1 h => Upstream.storeField_nodes h)
    upstreamKeys (by simp [upstreamKeys]) um {} u hd hc hs
  cases hg : um.get "nodes" with
  | none => exact absurd (hno hg) hne
  | some v =>
    have h := hyes v hg
    simp only [Value.toInterface_canonical v (ValueMap.canonical_get hc hg),
      Option.some.injEq] at h
    rw [h]

theorem upstreamWalk_decoded {um : ValueMap} {u : Upstream}
    (hd : decodeObject Upstream.storeField um {} = some u) (hc : um.canonical = true)
    (hs : um.spells upstreamKeys = true) (h1 : u.DiscoveryType = "")
    (h2 : u.ServiceName = "") (h3 : u.DiscoveryArgs = none) : upstreamWalk u um = um :=
  upstreamWalk_fix u um (upstream_nodes_get hd hc hs) (fun h => absurd h1 h)
    (string_field_get (fun a : Upstream => a.DupDiscoveryType) "_discovery_type"
      (fun _ _ _ _ h => Upstream.storeField_dup_discovery_type h) upstreamKeys
      (by simp [upstreamKeys]) hd hc hs rfl)
    (fun h => absurd h3 h)
    (string_field_get (fun a : Upstream => a.DupServiceName) "_service_name"
      (fun _ _ _ _ h => Upstream.storeField_dup_service_name h) upstreamKeys
      (by simp [upstreamKeys]) hd hc hs rfl)
    (fun h => absurd h2 h)

theorem labelsWalk_decoded {lm : ValueMap} {l : Labels}
    (hd : decodeObject Labels.storeField lm {} = some l) (hc : lm.canonical = true)
    (hs : lm.spells labelsKeys = true) : labelsWalk l lm = lm := by
  simp only [labelsWalk]
  rw [ValueMap.ite_set_eq_self _ _ _ _
      (string_field_get (fun a : Labels => a.DiscoveryType) "discovery_type"
        (fun _ _ _ _ h => Labels.storeField_discovery_type h) labelsKeys
        (by simp [labelsKeys]) hd hc hs rfl),
    ValueMap.ite_set_eq_self _ _ _ _
      (string_field_get (fun a : Labels => a.ServiceName) "service_name"
        (fun _ _ _ _ h => Labels.storeField_service_name h) labelsKeys
        (by simp [labelsKeys]) hd hc hs rfl),
    ValueMap.ite_set_eq_self _ _ _ _
      (string_field_get (fun a : Labels => a.DiscoveryArgsNamespaceID)
        "discovery_args.namespace_id"
        (fun _ _ _ _ h => Labels.storeField_namespace_id h) labelsKeys
        (by simp [labelsKeys]) hd hc hs rfl),
    ValueMap.ite_set_eq_self _ _ _ _
      (string_field_get (fun a : Labels => a.DiscoveryArgsGroupName)
        "discovery_args.group_name"
        (fun _ _ _ _ h => Labels.storeField_group_name h) labelsKeys
        (by simp [labelsKeys]) hd hc hs rfl),
    ValueMap.ite_set_eq_self _ _ _ _
      (string_field_get (fun a : Labels => a.ServiceGrpcPort) "service_grpc_port"
        (fun _ _ _ _ h => Labels.storeField_grpc_port h) labelsKeys
        (by simp [labelsKeys]) hd hc hs rfl)]

theorem storeUpstream_nonzero {v : Value} {u : Upstream} (h : storeUpstream {} v = some u)
    (hz : u ≠ {}) : ∃ um, v = .map um ∧ decodeObject Upstream.storeField um {} = some u := by
  cases v with
  | nil =>
    simp only [storeUpstream, Option.some.injEq] at h
    exact absurd h.symm hz
  | map um => exact ⟨um, rfl, h⟩
  | _ => simp [storeUpstream] at h

theorem storeLabels_nonzero {v : Value} {l : Labels} (h : storeLabels {} v = some l)
    (hz : l ≠ {}) : ∃ lm, v = .map lm ∧ decodeObject Labels.storeField lm {} = some l := by
  cases v with
  | nil =>
    simp only [storeLabels, Option.some.injEq] at h
    exact absurd h.symm hz
  | map lm => exact ⟨lm, rfl, h⟩
  | _ => simp [storeLabels] at h

theorem upstreamFieldWalk_decoded {α : Type} {store : α → String → Value → Option α}
    (proj : α → Upstream)
    (hstore : ∀ a k v a1, store a k v = some a1 →
      (keyMatches k "upstream" = true → storeUpstream (proj a) v = some (proj a1)) ∧
      (keyMatches k "upstream" = false → proj a1 = proj a))
    (tags : List String) (ht : "upstream" ∈ tags) {m : ValueMap} {a a1 : α}
    (hd : decodeObject store m a = some a1) (ha : proj a = {}) (hc : m.canonical = true)
    (hs : m.spells tags = true)
    (hsu : ((m.get "upstream").getD .nil).entries.spells upstreamKeys = true)
    (h1 : (proj a1).DiscoveryType = "") (h2 : (proj a1).ServiceName = "")
    (h3 : (proj a1).DiscoveryArgs = none) : upstreamFieldWalk (proj a1) m = some m := by
  unfold upstreamFieldWalk
  by_cases hz : proj a1 = {}
  · rw [if_pos hz]
  · rw [if_neg hz]
    obtain ⟨hyes, hno⟩ := decodeObject_field proj storeUpstream "upstream" hstore tags ht
      m a a1 hd hc hs
    cases hg : m.get "upstream" with
    | none => exact absurd ((hno hg).trans ha) hz
    | some v =>
      have h := hyes v hg
      rw [ha] at h
      obtain ⟨um, rfl, hu⟩ := storeUpstream_nonzero h hz
      have hcu : um.canonical = true := by
        simpa [Value.canonical] using ValueMap.canonical_get hc hg
      simp only [hg, Option.getD_some, Value.entries] at hsu
      exact childWalk_eq_self hg (upstreamWalk_decoded hu hcu hsu h1 h2 h3)

theorem routesWalk_decoded {m : ValueMap} {r0 r : Routes}
    (hd : decodeObject Routes.storeField m r0 = some r) (hl0 : r0.Labels = {})
    (hu0 : r0.Upstream = {}) (hc : m.canonical = true)
    (hs : m.spells ["labels", "upstream"] = true)
    (hsl : ((m.get "labels").getD .nil).entries.spells labelsKeys = true)
    (hsu : ((m.get "upstream").getD .nil).entries.spells upstreamKeys = true)
    (h1 : r.Upstream.DiscoveryType = "") (h2 : r.Upstream.ServiceName = "")
    (h3 : r.Upstream.DiscoveryArgs = none) : routesWalk r.Labels r.Upstream m = some m := by
  have hu := upstreamFieldWalk_decoded (fun a : Routes => a.Upstream)
    (fun _ _ _ _ h => Routes.storeField_routes_upstream h) ["labels", "upstream"] (by simp)
    hd hu0 hc hs hsu h1 h2 h3
  unfold routesWalk
  by_cases hz : r.Labels = {}
  · simp only [hz, if_true]
    simp only [hz] at hu
    exact hu
  · simp only [hz, if_false]
    obtain ⟨hyes, hno⟩ := decodeObject_field (fun a : Routes => a.Labels) storeLabels "labels"
      (fun _ _ _ _ h => Routes.storeField_labels h) ["labels", "upstream"] (by simp)
      m r0 r hd hc hs
    cases hg : m.get "labels" with
    | none => exact absurd ((hno hg).trans hl0) hz
    | some v =>
      have h := hyes v hg
      simp only [hl0] at h
      obtain ⟨lm, rfl, hl⟩ := storeLabels_nonzero h hz
      have hcl : lm.canonical = true := by
        simpa [Value.canonical] using ValueMap.canonical_get hc hg
      simp only [hg, Option.getD_some, Value.entries] at hsl
      rw [childWalk_eq_self hg (labelsWalk_decoded hl hcl hsl)]
      exact hu

theorem decodeMap_canonical {x : Value} {all : GoMap} (hc : x.canonical = true)
    (h : decodeMap x = some all) :
    (x = .nil ∧ all = none) ∨ ∃ m, x = .map m ∧ all = some m ∧ m.canonical = true := by
  cases x with
  | nil =>
    simp only [decodeMap, storeMap, Option.some.injEq] at h
    exact Or.inl ⟨rfl, h.symm⟩
  | map m =>
    have hm : m.canonical = true := by simpa [Value.canonical] using hc
    simp only [decodeMap, storeMap, Option.getD_some,
      ValueMap.toInterfaceMap_canonical m .nil hm (fun _ _ => rfl), ValueMap.append,
      Option.some.injEq] at h
    exact Or.inr ⟨m, rfl, h.symm, hm⟩
  | _ => simp [decodeMap, storeMap] at h

theorem jsonMarshal_canonical (heap : Heap) {m : ValueMap} (h : m.canonical = true) :
    jsonMarshal heap (some m) = some (.map m) := by
  simp [jsonMarshal, ValueMap.encodeMap_canonical heap m h]

theorem propagated_eq_self {all : GoMap} {l : Labels} {u : Upstream}
    (h : (propagated all l u).ServiceName = "") : propagated all l u = u := by
  unfold propagated at h ⊢
  split_ifs at h ⊢ with hc
  · exact absurd h hc.2
  · rfl

theorem round_trip_upstreams {x : Value} {e : A6Conf} (heap : Heap)
    (hc : x.canonical = true) (hs : x.entries.spells upstreamKeys = true)
    (hnew : NewUpstreams (some x) = .ok e)
    (h1 : e.GetUpstream.DiscoveryType = "") (h2 : e.GetUpstream.ServiceName = "")
    (h3 : e.GetUpstream.DiscoveryArgs = none) :
    ∃ out, e.Marshal heap = some out ∧ out.result = .ok (some x) := by
  obtain ⟨x1, u, all, hv, hd, hm, he⟩ := NewUpstreams_ok hnew
  simp only [Option.some.injEq] at hv
  subst hv he
  simp only [A6Conf.GetUpstream, Upstreams.GetUpstream] at h1 h2 h3
  rcases decodeMap_canonical hc hm with ⟨rfl, rfl⟩ | ⟨m, rfl, rfl, hcm⟩
  · simp only [decodeUpstreams, Option.some.injEq, Upstreams.mk.injEq] at hd
    obtain ⟨hu, -, -⟩ := hd
    subst hu
    refine ⟨⟨.upstreams ⟨{}, decide (({} : Upstream).Nodes ≠ .nil), none⟩, heap,
      .ok (some .nil)⟩, ?_, rfl⟩
    simp [A6Conf.Marshal, Upstreams.Marshal, embedElm_upstreams_nilmap, jsonMarshal]
  · have hu := decodeUpstreams_entries hd
    simp only [Value.entries] at hu hs
    refine ⟨⟨.upstreams ⟨u, decide (u.Nodes ≠ .nil), some m⟩, heap, .ok (some (.map m))⟩,
      ?_, rfl⟩
    simp only [A6Conf.Marshal, Upstreams.Marshal, embedElm_upstreams,
      upstreamWalk_decoded hu hcm hs h1 h2 h3, jsonMarshal_canonical heap hcm]

theorem round_trip_services {x : Value} {e : A6Conf} (heap : Heap)
    (hc : x.canonical = true) (hs : x.entries.spells ["upstream"] = true)
    (hsu : ((x.get "upstream").getD .nil).entries.spells upstreamKeys = true)
    (hnew : NewServices (some x) = .ok e)
    (h1 : e.GetUpstream.DiscoveryType = "") (h2 : e.GetUpstream.ServiceName = "")
    (h3 : e.GetUpstream.DiscoveryArgs = none) :
    ∃ out, e.Marshal heap = some out ∧ out.result = .ok (some x) := by
  obtain ⟨x1, u, all, hv, hd, hm, he⟩ := NewServices_ok hnew
  simp only [Option.some.injEq] at hv
  subst hv he
  simp only [A6Conf.GetUpstream, Services.GetUpstream] at h1 h2 h3
  rcases decodeMap_canonical hc hm with ⟨rfl, rfl⟩ | ⟨m, rfl, rfl, hcm⟩
  · simp only [decodeServices, Option.some.injEq, Services.mk.injEq] at hd
    obtain ⟨hu, -, -⟩ := hd
    subst hu
    refine ⟨⟨.services ⟨{}, none, decide (({} : Upstream).Nodes ≠ .nil)⟩, heap,
      .ok (some .nil)⟩, ?_, rfl⟩
    simp [A6Conf.Marshal, Services.Marshal, embedElm_services_nilmap, jsonMarshal]
  · simp only [decodeServices] at hd
    simp only [Value.entries, Value.get_map] at hs hsu
    have hw := upstreamFieldWalk_decoded (fun a : Services => a.Upstream)
      (fun _ _ _ _ h => Services.storeField_services_upstream h) ["upstream"] (by simp)
      hd rfl hcm hs hsu h1 h2 h3
    simp only at hw
    refine ⟨⟨.services ⟨u, some m, decide (u.Nodes ≠ .nil)⟩, heap, .ok (some (.map m))⟩,
      ?_, rfl⟩
    simp only [A6Conf.Marshal, Services.Marshal, embedElm_services, hw, Option.map_some',
      jsonMarshal_canonical heap hcm]

theorem decoded_nodes_not_concrete {m : ValueMap} {u : Upstream}
    (h : decodeObject Upstream.storeField m {} = some u) : ∀ ps, u.Nodes ≠ .nodes ps := by
  intro ps hps
  have hn := decodeObject_nodes m {} u h
  cases hl : m.lastEntry "nodes" with
  | none =>
    simp only [hl] at hn
    rw [hps] at hn
    cases hn
  | some v =>
    simp only [hl] at hn
    rw [hps] at hn
    cases v with
    | number n =>
      simp only [Value.toInterface] at hn
      cases hcn : convertNumber n <;> simp [hcn] at hn
    | list xs =>
      simp only [Value.toInterface] at hn
      cases hcn : xs.toInterface <;> simp [hcn] at hn
    | map d =>
      simp only [Value.toInterface] at hn
      cases hcn : d.toInterface .nil <;> simp [hcn] at hn
    | _ => simp [Value.toInterface] at hn

theorem round_trip_routes {x : Value} {e : A6Conf} (heap : Heap)
    (hc : x.canonical = true) (hs : x.entries.spells ["labels", "upstream"] = true)
    (hsl : ((x.get "labels").getD .nil).entries.spells labelsKeys = true)
    (hsu : ((x.get "upstream").getD .nil).entries.spells upstreamKeys = true)
    (hnew : NewRoutes (some x) = .ok e)
    (h1 : e.GetUpstream.DiscoveryType = "") (h2 : e.GetUpstream.ServiceName = "")
    (h3 : e.GetUpstream.DiscoveryArgs = none) :
    ∃ out, e.Marshal heap = some out ∧
      (out.result = .ok (some x) ∨
        ∃ r, e = .routes r ∧ r.Labels.ServiceGrpcPort ≠ "" ∧ r.Upstream.Nodes ≠ .nil ∧
          ParseInt r.Labels.ServiceGrpcPort = none ∧
          out.result = .error (.portParse r.Labels.ServiceGrpcPort)) := by
  obtain ⟨x1, l, u, all, hv, hd, hm, he⟩ := NewRoutes_ok hnew
  simp only [Option.some.injEq] at hv
  subst hv he
  simp only [A6Conf.GetUpstream, Routes.GetUpstream] at h1 h2 h3
  have hp := propagated_eq_self h2
  rw [hp] at h1 h2 h3 ⊢
  have hnodes : ∀ ps, u.Nodes ≠ .nodes ps := decoded_nodes_not_concrete (decodeRoutes_entries hd)
  rcases decodeMap_canonical hc hm with ⟨rfl, rfl⟩ | ⟨m, rfl, rfl, hcm⟩
  · simp only [decodeRoutes, Option.some.injEq, Routes.mk.injEq] at hd
    obtain ⟨hl, hu, -, -⟩ := hd
    subst hl hu
    refine ⟨⟨.routes ⟨{}, {}, none, decide (({} : Upstream).Nodes ≠ .nil)⟩, heap,
      .ok (some .nil)⟩, ?_, Or.inl rfl⟩
    have hM : Routes.Marshal ⟨{}, {}, none, decide (({} : Upstream).Nodes ≠ .nil)⟩ heap
        = some ⟨⟨{}, {}, none, decide (({} : Upstream).Nodes ≠ .nil)⟩, heap,
          .ok (some .nil)⟩ := by
      have hq := (marshal_pass_through_cases
        ⟨{}, {}, none, decide (({} : Upstream).Nodes ≠ .nil)⟩ heap (by simp)).1 (Or.inl rfl)
      rw [hq, embedElm_routes_nilmap]
      rfl
    simp only [A6Conf.Marshal, hM]
  · simp only [decodeRoutes] at hd
    simp only [Value.entries, Value.get_map] at hs hsl hsu
    have hw := routesWalk_decoded hd rfl rfl hcm hs hsl hsu h1 h2 h3
    simp only at hw
    have hemb : embedElm (Routes.reflect ⟨l, u, some m, decide (u.Nodes ≠ .nil)⟩) (some m)
        = some (some m) := by
      rw [embedElm_routes, hw]
      rfl
    have hpass := (marshal_pass_through_cases ⟨l, u, some m, decide (u.Nodes ≠ .nil)⟩ heap
      hnodes)
    by_cases hcase : u.Nodes ≠ .nil ∧ l.ServiceGrpcPort ≠ "" ∧
        ParseInt l.ServiceGrpcPort = none
    · refine ⟨⟨.routes ⟨l, u, some m, decide (u.Nodes ≠ .nil)⟩, heap,
        .error (.portParse l.ServiceGrpcPort)⟩, ?_,
        Or.inr ⟨_, rfl, hcase.2.1, hcase.1, hcase.2.2, rfl⟩⟩
      simp only [A6Conf.Marshal, hpass.2 hcase.1 hcase.2.1 hcase.2.2]
    · have hor : u.Nodes = .nil ∨ l.ServiceGrpcPort = "" ∨
          (ParseInt l.ServiceGrpcPort).isSome = true := by
        by_cases a : u.Nodes = .nil
        · exact Or.inl a
        · by_cases b : l.ServiceGrpcPort = ""
          · exact Or.inr (Or.inl b)
          · right; right
            cases hpi : ParseInt l.ServiceGrpcPort with
            | none => exact absurd ⟨a, b, hpi⟩ hcase
            | some _ => rfl
      refine ⟨⟨.routes ⟨l, u, some m, decide (u.Nodes ≠ .nil)⟩, heap, .ok (some (.map m))⟩,
        ?_, Or.inl rfl⟩
      have := hpass.1 hor
      simp only [hemb, Option.map_some', jsonMarshal_canonical heap hcm] at this
      simp only [A6Conf.Marshal, this]

/-- C10, as the code has it. For every input `x` in the form in which
`json.Marshal` writes a document (no object repeats a key, every number is an
integer of magnitude at most `2 ^ 53`) whose keys that select a field of the
overlay are spelled as the serialized names of the fields, and every entity
kind `k` for which the parsed upstream overlay has an empty `DiscoveryType`,
an empty `ServiceName` and a nil `DiscoveryArgs` (nothing is suppressed and no
label was propagated), with no mutation between parsing and serialization:
`Marshal` returns, and either it returns bytes whose parse with the same kind
has a generic document equal to the one obtained by parsing `x`, or the
entity is a Route with non-nil nodes whose port label does not parse and
`Marshal` returns the port error. -/
theorem round_trip_without_suppressed (x : Value) (k : Int) (e : A6Conf) (heap : Heap)
    (hcanon : x.canonical = true) (hspell : spelled k x = true)
    (hnew : NewA6Conf (some x) k = .ok e)
    (h1 : e.GetUpstream.DiscoveryType = "") (h2 : e.GetUpstream.ServiceName = "")
    (h3 : e.GetUpstream.DiscoveryArgs = none) :
    ∃ out, e.Marshal heap = some out ∧
      ((∃ bytes e2, out.result = .ok bytes ∧ NewA6Conf bytes k = .ok e2 ∧
          e2.GetAll = e.GetAll) ∨
        ∃ r, e = .routes r ∧ r.Labels.ServiceGrpcPort ≠ "" ∧ r.Upstream.Nodes ≠ .nil ∧
          ParseInt r.Labels.ServiceGrpcPort = none ∧
          out.result = .error (.portParse r.Labels.ServiceGrpcPort)) := by
  have hr : x.entries.spells ["labels", "upstream"] = true →
      ((x.get "labels").getD .nil).entries.spells labelsKeys = true →
      ((x.get "upstream").getD .nil).entries.spells upstreamKeys = true →
      NewRoutes (some x) = .ok e → ∃ out, e.Marshal heap = some out ∧
      ((∃ bytes e2, out.result = .ok bytes ∧ NewA6Conf bytes k = .ok e2 ∧
          e2.GetAll = e.GetAll) ∨
        ∃ r, e = .routes r ∧ r.Labels.ServiceGrpcPort ≠ "" ∧ r.Upstream.Nodes ≠ .nil ∧
          ParseInt r.Labels.ServiceGrpcPort = none ∧
          out.result = .error (.portParse r.Labels.ServiceGrpcPort)) := by
    intro hs hsl hsu h
    obtain ⟨out, hm, hres | herr⟩ := round_trip_routes heap hcanon hs hsl hsu h h1 h2 h3
    · exact ⟨out, hm, Or.inl ⟨some x, e, hres, hnew, rfl⟩⟩
    · exact ⟨out, hm, Or.inr herr⟩
  have hnew0 := hnew
  unfold NewA6Conf at hnew
  unfold spelled at hspell
  split_ifs at hnew hspell
  · simp only [Bool.and_eq_true] at hspell
    exact hr hspell.1.1 hspell.1.2 hspell.2 hnew
  · obtain ⟨out, hm, hres⟩ := round_trip_upstreams heap hcanon hspell hnew h1 h2 h3
    exact ⟨out, hm, Or.inl ⟨some x, e, hres, hnew0, rfl⟩⟩
  · simp only [Bool.and_eq_true] at hspell
    obtain ⟨out, hm, hres⟩ := round_trip_services heap hcanon hspell.1 hspell.2 hnew h1 h2 h3
    exact ⟨out, hm, Or.inl ⟨some x, e, hres, hnew0, rfl⟩⟩
  · simp only [Bool.and_eq_true] at hspell
    exact hr hspell.1.1 hspell.1.2 hspell.2 hnew

theorem round_trip_without_suppressed_witness :
    (Value.map passThroughMap).canonical = true ∧ spelled 0 (.map passThroughMap) = true ∧
    NewA6Conf (some (.map passThroughMap)) 0 = .ok (.routes passThroughEntity) ∧
    ∃ out, (A6Conf.routes passThroughEntity).Marshal [] = some out ∧
      ((∃ bytes e2, out.result = .ok bytes ∧ NewA6Conf bytes 0 = .ok e2 ∧
          e2.GetAll = (A6Conf.routes passThroughEntity).GetAll) ∨
        ∃ r, A6Conf.routes passThroughEntity = .routes r ∧ r.Labels.ServiceGrpcPort ≠ "" ∧
          r.Upstream.Nodes ≠ .nil ∧ ParseInt r.Labels.ServiceGrpcPort = none ∧
          out.result = .error (.portParse r.Labels.ServiceGrpcPort)) :=
  ⟨by decide, by decide, by decide,
    round_trip_without_suppressed (.map passThroughMap) 0 (.routes passThroughEntity) []
      (by decide) (by decide) (by decide) (by decide) (by decide) (by decide)⟩

/-- C10 fails as stated: the upstream `{"service_name": "svc"}` parses to the
generic document `{"service_name": "svc"}`; `Marshal` deletes the suppressed
key and returns `{}`, whose parse with the same kind has the empty generic
document. -/
theorem round_trip_counterexample :
    ∃ e out bytes e2, NewA6Conf namedUpstream 1 = .ok e ∧ e.Marshal [] = some out ∧
      out.result = .ok bytes ∧ NewA6Conf bytes 1 = .ok e2 ∧
      e.GetAll = some (.ofList [("service_name", .string "svc")]) ∧
      e2.GetAll = some .nil ∧ e2.GetAll ≠ e.GetAll :=
  ⟨.upstreams ⟨{ ServiceName := "svc" }, false,
      some (.ofList [("service_name", .string "svc")])⟩,
    ⟨.upstreams ⟨{ ServiceName := "svc" }, false, some .nil⟩, [], .ok (some (.map .nil))⟩,
    some (.map .nil), .upstreams ⟨{}, false, some .nil⟩,
    by decide, by decide, by decide, by decide, by decide, by decide, by decide⟩

/-! ## A second call of `Marshal` -/

theorem embedElm_upstreams_all (u : Upstream) (a b : GoMap) (f g : Bool) (x : GoMap) :
    embedElm (Upstreams.reflect ⟨u, f, a⟩) x = embedElm (Upstreams.reflect ⟨u, g, b⟩) x := by
  cases x with
  | none => rw [embedElm_upstreams_nilmap, embedElm_upstreams_nilmap]
  | some m => rw [embedElm_upstreams, embedElm_upstreams]

theorem embedElm_services_all (u : Upstream) (a b : GoMap) (f g : Bool) (x : GoMap) :
    embedElm (Services.reflect ⟨u, a, f⟩) x = embedElm (Services.reflect ⟨u, b, g⟩) x := by
  cases x with
  | none => rw [embedElm_services_nilmap, embedElm_services_nilmap]
  | some m => rw [embedElm_services, embedElm_services]

theorem embedElm_routes_all (l : Labels) (u : Upstream) (a b : GoMap) (f g : Bool) (x : GoMap) :
    embedElm (Routes.reflect ⟨l, u, a, f⟩) x = embedElm (Routes.reflect ⟨l, u, b, g⟩) x := by
  cases x with
  | none => rw [embedElm_routes_nilmap, embedElm_routes_nilmap]
  | some m => rw [embedElm_routes, embedElm_routes]

theorem upstreams_marshal_twice {ups : Upstreams} {heap : Heap} {out : Marshaled Upstreams}
    (h : ups.Marshal heap = some out) : out.self.Marshal out.heap = some out := by
  rcases ups with ⟨u, f, a⟩
  simp only [Upstreams.Marshal] at h
  cases he : embedElm (Upstreams.reflect ⟨u, f, a⟩) a with
  | none => simp [he] at h
  | some a1 =>
    simp only [he, Option.some.injEq] at h
    subst h
    have h2 := embedElm_upstreams_idem he
    rw [embedElm_upstreams_all u a a1 f f] at h2
    simp only [Upstreams.Marshal, h2]

theorem services_marshal_twice {s : Services} {heap : Heap} {out : Marshaled Services}
    (h : s.Marshal heap = some out) : out.self.Marshal out.heap = some out := by
  rcases s with ⟨u, a, f⟩
  simp only [Services.Marshal] at h
  cases he : embedElm (Services.reflect ⟨u, a, f⟩) a with
  | none => simp [he] at h
  | some a1 =>
    simp only [he, Option.some.injEq] at h
    subst h
    have h2 := embedElm_services_idem he
    rw [embedElm_services_all u a a1 f f] at h2
    simp only [Services.Marshal, h2]

theorem routes_marshal_copy (l : Labels) (u : Upstream) (all : GoMap) (flag : Bool)
    (heap : Heap) (ps : List Nat) (ns : List Node) (p : Int) (hp0 : l.ServiceGrpcPort ≠ "")
    (hport : ParseInt l.ServiceGrpcPort = some p) (hnodes : u.Nodes = .nodes ps)
    (hns : List.Forall₂ (fun a n => heap[a]? = some n) ps ns) :
    Routes.Marshal ⟨l, u, all, flag⟩ heap =
      match embedElm (Routes.reflect
        ⟨l, { u with Nodes := .nodes (List.range' heap.length ps.length) }, all, flag⟩) all with
      | none => none
      | some a1 =>
        some ⟨⟨l, { u with Nodes := .nodes (List.range' heap.length ps.length) }, a1, flag⟩,
          heap ++ ns.map (fun n => ⟨n.Host, n.Weight, p⟩),
          .ok (jsonMarshal (heap ++ ns.map (fun n => ⟨n.Host, n.Weight, p⟩)) a1)⟩ := by
  unfold Routes.Marshal
  dsimp only
  rw [if_pos ⟨hp0, by simp [hnodes]⟩, hport]
  simp only [hnodes, copyNodes_eq p ps ns heap hns]

theorem routes_marshal_copy_twice (l : Labels) (u1 : Upstream) (flag : Bool) (heap1 : Heap)
    (qs : List Nat) (copies : List Node) (p : Int) (m m1 : ValueMap)
    (hp0 : l.ServiceGrpcPort ≠ "") (hport : ParseInt l.ServiceGrpcPort = some p)
    (hnodes : u1.Nodes = .nodes qs)
    (hreads : List.Forall₂ (fun a n => heap1[a]? = some n) qs copies)
    (hcc : copies.map (fun n => (⟨n.Host, n.Weight, p⟩ : Node)) = copies)
    (hw : routesWalk l u1 m = some m1)
    (hjm : m.encode (heap1 ++ copies) = m.encode heap1) :
    ∃ out2, Routes.Marshal ⟨l, u1, some m1, flag⟩ heap1 = some out2 ∧
      out2.result = .ok (jsonMarshal heap1 (some m1)) ∧
      out2.self.All.map (ValueMap.encode out2.heap) = some (m1.encode heap1) := by
  have hemb : ∀ (u : Upstream) (a : GoMap) (x : ValueMap),
      embedElm (Routes.reflect ⟨l, u, a, flag⟩) (some x) = (routesWalk l u x).map some :=
    fun u a x => embedElm_routes _ x
  rw [routes_marshal_copy l u1 (some m1) flag heap1 qs copies p hp0 hport hnodes hreads, hemb,
    hcc]
  have hlen : qs.length = copies.length := hreads.length_eq
  have hreads2 : List.Forall₂ (fun a n => (heap1 ++ copies)[a]? = some n)
      (List.range' heap1.length qs.length) copies := by
    rw [hlen]
    exact range_reads heap1 copies
  have hq1 : qs.map (encodeNode heap1) = copies.map nodeJSON := by
    have h0 := encode_reads hreads []
    rwa [List.append_nil] at h0
  have hq3 : qs.map (encodeNode (heap1 ++ copies)) = copies.map nodeJSON :=
    encode_reads hreads copies
  have hq2 : (List.range' heap1.length qs.length).map (encodeNode (heap1 ++ copies))
      = copies.map nodeJSON := by
    have h0 := encode_reads hreads2 []
    rwa [List.append_nil] at h0
  have e1 : u1.encoded heap1
      = { u1 with Nodes := .list (ValueList.ofList (copies.map nodeJSON)) } := by
    simp only [Upstream.encoded, hnodes, Value.encode, hq1]
  have e3 : u1.encoded (heap1 ++ copies)
      = { u1 with Nodes := .list (ValueList.ofList (copies.map nodeJSON)) } := by
    simp only [Upstream.encoded, hnodes, Value.encode, hq3]
  have e2 : Upstream.encoded (heap1 ++ copies)
        { u1 with Nodes := .nodes (List.range' heap1.length qs.length) }
      = { u1 with Nodes := .list (ValueList.ofList (copies.map nodeJSON)) } := by
    simp only [Upstream.encoded, Value.encode, hq2]
  have w1 := routesWalk_encode heap1 l u1 m
  rw [hw, e1, Option.map_some'] at w1
  have w3 := routesWalk_encode (heap1 ++ copies) l u1 m
  rw [hw, e3, hjm, Option.map_some', ← w1] at w3
  have hEq : m1.encode (heap1 ++ copies) = m1.encode heap1 := Option.some.inj w3
  have w2 := routesWalk_encode (heap1 ++ copies) l
    { u1 with Nodes := .nodes (List.range' heap1.length qs.length) } m1
  rw [e2, hEq, routesWalk_idem w1.symm] at w2
  cases hw2 : routesWalk l { u1 with Nodes := .nodes (List.range' heap1.length qs.length) } m1 with
  | none => simp [hw2] at w2
  | some m2 =>
    rw [hw2, Option.map_some', Option.some.injEq] at w2
    exact ⟨_, rfl, by simp [jsonMarshal, w2], by simp [w2]⟩

theorem routes_marshal_twice {r : Routes} {heap : Heap} {out : Marshaled Routes}
    (h : r.Marshal heap = some out) :
    ((∀ ps p, r.Upstream.Nodes = .nodes ps → ParseInt r.Labels.ServiceGrpcPort = some p →
        False) → out.self.Marshal out.heap = some out) ∧
    ((∀ m, r.All = some m → m.allocated heap = true) →
      ∃ out2, out.self.Marshal out.heap = some out2 ∧ out2.result = out.result ∧
        out2.self.All.map (ValueMap.encode out2.heap)
          = out.self.All.map (ValueMap.encode out.heap)) := by
  rcases r with ⟨l, u, all, flag⟩
  have plain : (∀ a, Routes.Marshal ⟨l, u, a, flag⟩ heap =
      match embedElm (Routes.reflect ⟨l, u, a, flag⟩) a with
      | none => none
      | some a1 => some ⟨⟨l, u, a1, flag⟩, heap, .ok (jsonMarshal heap a1)⟩) →
      out.self.Marshal out.heap = some out := by
    intro hM
    rw [hM] at h
    cases he : embedElm (Routes.reflect ⟨l, u, all, flag⟩) all with
    | none => simp [he] at h
    | some a1 =>
      simp only [he, Option.some.injEq] at h
      subst h
      have h2 := embedElm_routes_idem he
      rw [embedElm_routes_all l u all a1 flag flag] at h2
      show Routes.Marshal ⟨l, u, a1, flag⟩ heap = _
      rw [hM, h2]
  by_cases hc : l.ServiceGrpcPort ≠ "" ∧ u.Nodes ≠ .nil
  · cases hp : ParseInt l.ServiceGrpcPort with
    | none =>
      have hM : ∀ a, Routes.Marshal ⟨l, u, a, flag⟩ heap
          = some ⟨⟨l, u, a, flag⟩, heap, .error (.portParse l.ServiceGrpcPort)⟩ := by
        intro a
        unfold Routes.Marshal
        dsimp only
        rw [if_pos hc]
        simp only [hp]
      rw [hM] at h
      simp only [Option.some.injEq] at h
      subst h
      exact ⟨fun _ => hM all, fun _ => ⟨_, hM all, rfl, rfl⟩⟩
    | some p =>
      cases hn : u.Nodes with
      | nodes ps =>
        refine ⟨fun hno => (hno ps p rfl rfl).elim, fun hjson => ?_⟩
        have hcp : ∃ r0, copyNodes p heap ps heap = some r0 := by
          cases hcp : copyNodes p heap ps heap with
          | some r0 => exact ⟨r0, rfl⟩
          | none =>
            exfalso
            unfold Routes.Marshal at h
            dsimp only at h
            rw [if_pos hc] at h
            simp [hp, hn, hcp] at h
        obtain ⟨r0, hcp⟩ := hcp
        obtain ⟨ns, hns⟩ := copyNodes_reads p heap ps heap r0 hcp
        have hemb : ∀ (u0 : Upstream) (a : GoMap) (x : ValueMap),
            embedElm (Routes.reflect ⟨l, u0, a, flag⟩) (some x) = (routesWalk l u0 x).map some :=
          fun u0 a x => embedElm_routes _ x
        have hlz : l ≠ {} := by
          intro hz
          rw [hz] at hc
          exact hc.1 rfl
        rw [routes_marshal_copy l u all flag heap ps ns p hc.1 hp hn hns] at h
        cases all with
        | none =>
          rw [embedElm_routes_nilmap] at h
          simp [hlz] at h
        | some m =>
          rw [hemb] at h
          cases hw : routesWalk l { u with Nodes := .nodes (List.range' heap.length ps.length) }
              m with
          | none => simp [hw] at h
          | some m1 =>
            rw [hw, Option.map_some'] at h
            simp only [Option.some.injEq] at h
            subst h
            have hlen : ps.length = ns.length := hns.length_eq
            have hreads : List.Forall₂
                (fun a n => (heap ++ ns.map (fun n => (⟨n.Host, n.Weight, p⟩ : Node)))[a]?
                  = some n)
                (List.range' heap.length ps.length)
                (ns.map (fun n => (⟨n.Host, n.Weight, p⟩ : Node))) := by
              have h0 := range_reads heap (ns.map (fun n => (⟨n.Host, n.Weight, p⟩ : Node)))
              rwa [List.length_map, ← hlen] at h0
            have ha := hjson m rfl
            exact routes_marshal_copy_twice l _ flag _ _ _ p m m1 hc.1 hp rfl hreads
              (by rw [List.map_map]; rfl) hw
              (by rw [List.append_assoc, ValueMap.encodeMap_append heap _ m ha,
                ValueMap.encodeMap_append heap _ m ha])
      | _ =>
        have hM : ∀ a, Routes.Marshal ⟨l, u, a, flag⟩ heap =
            match embedElm (Routes.reflect ⟨l, u, a, flag⟩) a with
            | none => none
            | some a1 => some ⟨⟨l, u, a1, flag⟩, heap, .ok (jsonMarshal heap a1)⟩ := by
          intro a
          unfold Routes.Marshal
          dsimp only
          rw [if_pos hc]
          simp only [hp, hn]
        exact ⟨fun _ => plain hM, fun _ => ⟨_, plain hM, rfl, rfl⟩⟩
  · have hM : ∀ a, Routes.Marshal ⟨l, u, a, flag⟩ heap =
        match embedElm (Routes.reflect ⟨l, u, a, flag⟩) a with
        | none => none
        | some a1 => some ⟨⟨l, u, a1, flag⟩, heap, .ok (jsonMarshal heap a1)⟩ := by
      intro a
      unfold Routes.Marshal
      dsimp only
      rw [if_neg hc]
    exact ⟨fun _ => plain hM, fun _ => ⟨_, plain hM, rfl, rfl⟩⟩

theorem marshal_twice {e : A6Conf} {heap : Heap} {out : Marshaled A6Conf}
    (h : e.Marshal heap = some out) :
    ((∀ r ps p, e = .routes r → r.Upstream.Nodes = .nodes ps →
        ParseInt r.Labels.ServiceGrpcPort = some p → False) →
      out.self.Marshal out.heap = some out) ∧
    ((∀ m, e.GetAll = some m → m.allocated heap = true) →
      ∃ out2, out.self.Marshal out.heap = some out2 ∧ out2.result = out.result ∧
        out2.self.GetAll.map (ValueMap.encode out2.heap)
          = out.self.GetAll.map (ValueMap.encode out.heap)) := by
  cases e with
  | routes r =>
    simp only [A6Conf.Marshal] at h
    cases ho : r.Marshal heap with
    | none => simp [ho] at h
    | some o =>
      simp only [ho, Option.some.injEq] at h
      subst h
      have h2 := routes_marshal_twice ho
      refine ⟨fun hno => ?_, fun ha => ?_⟩
      · simp only [A6Conf.Marshal, h2.1 (fun ps p hn hp => hno r ps p rfl hn hp)]
      · obtain ⟨o2, hm, hr, hd⟩ := h2.2 ha
        exact ⟨⟨.routes o2.self, o2.heap, o2.result⟩, by simp only [A6Conf.Marshal, hm], hr, hd⟩
  | upstreams u =>
    simp only [A6Conf.Marshal] at h
    cases ho : u.Marshal heap with
    | none => simp [ho] at h
    | some o =>
      simp only [ho, Option.some.injEq] at h
      subst h
      have h2 : A6Conf.Marshal (.upstreams o.self) o.heap
          = some ⟨.upstreams o.self, o.heap, o.result⟩ := by
        simp only [A6Conf.Marshal, upstreams_marshal_twice ho]
      exact ⟨fun _ => h2, fun _ => ⟨_, h2, rfl, rfl⟩⟩
  | services s =>
    simp only [A6Conf.Marshal] at h
    cases ho : s.Marshal heap with
    | none => simp [ho] at h
    | some o =>
      simp only [ho, Option.some.injEq] at h
      subst h
      have h2 : A6Conf.Marshal (.services o.self) o.heap
          = some ⟨.services o.self, o.heap, o.result⟩ := by
        simp only [A6Conf.Marshal, services_marshal_twice ho]
      exact ⟨fun _ => h2, fun _ => ⟨_, h2, rfl, rfl⟩⟩

/-- C17. Reconcile is idempotent: for each of the three overlays and every
document `all`, if `embedElm` returns the document `all1`, then `embedElm` with
the same overlay on `all1` returns `all1`.  Consequently, for every entity and
heap on which `Marshal` returns, a second `Marshal` on the receiver and heap
left by the first call returns as well.  When the first call did not override
the ports of a concrete node list, the second call leaves the receiver, its
document and the heap as they are and returns the same result.  When it did,
the second call allocates new nodes again, so that the document holds other
pointers, and it returns the same bytes: the encoded documents are equal,
provided every pointer held by the document before the first call points into
the heap (a document decoded from JSON holds no pointer). -/
theorem reconcile_idempotent (e : A6Conf) (heap : Heap) (out : Marshaled A6Conf)
    (all all1 : GoMap) :
    (∀ ups : Upstreams, embedElm ups.reflect all = some all1 →
      embedElm ups.reflect all1 = some all1) ∧
    (∀ s : Services, embedElm s.reflect all = some all1 →
      embedElm s.reflect all1 = some all1) ∧
    (∀ r : Routes, embedElm r.reflect all = some all1 →
      embedElm r.reflect all1 = some all1) ∧
    (e.Marshal heap = some out →
      ((∀ r ps p, e = .routes r → r.Upstream.Nodes = .nodes ps →
          ParseInt r.Labels.ServiceGrpcPort = some p → False) →
        out.self.Marshal out.heap = some out) ∧
      ((∀ m, e.GetAll = some m → m.allocated heap = true) →
        ∃ out2, out.self.Marshal out.heap = some out2 ∧ out2.result = out.result ∧
          out2.self.GetAll.map (ValueMap.encode out2.heap)
            = out.self.GetAll.map (ValueMap.encode out.heap))) :=
  ⟨fun _ h => embedElm_upstreams_idem h, fun _ h => embedElm_services_idem h,
    fun _ h => embedElm_routes_idem h, fun h => marshal_twice h⟩

theorem reconcile_idempotent_witness :
    (A6Conf.routes grpcRoute).Marshal oneNodeHeap = some grpcMarshaled ∧
    grpcMarshaled.self.Marshal grpcMarshaled.heap = some grpcMarshaledTwice ∧
    grpcMarshaledTwice.self.GetAll ≠ grpcMarshaled.self.GetAll ∧
    ∃ out2, grpcMarshaled.self.Marshal grpcMarshaled.heap = some out2 ∧
      out2.result = grpcMarshaled.result ∧
      out2.self.GetAll.map (ValueMap.encode out2.heap)
        = grpcMarshaled.self.GetAll.map (ValueMap.encode grpcMarshaled.heap) :=
  ⟨by decide, by decide, by decide,
    ((reconcile_idempotent (.routes grpcRoute) oneNodeHeap grpcMarshaled none none).2.2.2
      (by decide)).2 (fun m hm => by
        simp only [A6Conf.GetAll, Routes.GetAll, grpcRoute, Option.some.injEq] at hm
        subst hm
        decide)⟩

end Message
